import Mathlib

/-!
Verification development for the org-social-relay ingestion engine.

The definitions below are shallow embeddings of the Python source:
  * `app/feeds/parser.py`  (document parsing, feed-redirect reconciliation)
  * `app/feeds/tasks.py`   (per-feed sync of the `scan_feeds` task)
  * `app/feeds/utils.py`   (`get_parent_chain`)
  * `app/reactions/utils.py`, `app/replies/utils.py` (read-path classifiers)
  * `app/replies/views.py` (reply tree construction)

Machine strings are modelled as `List Char` internally and `String` at the
interfaces; the relational store is modelled as explicit lists of records
with numeric row identities mirroring database rows.
-/

namespace OrgSocial

/-- Python `\s` whitespace class over ASCII (space, tab, newline, carriage
return, vertical tab, form feed), as used by the `re` patterns in
`parser.py`. -/
def isWsPy (c : Char) : Bool :=
  c = ' ' || c = '\t' || c = '\n' || c = '\r' ||
  c = Char.ofNat 11 || c = Char.ofNat 12

/-- Python `str.strip()` on a character list. -/
def trimChars (l : List Char) : List Char :=
  ((l.dropWhile isWsPy).reverse.dropWhile isWsPy).reverse

/-- A character list is whitespace-only. -/
def wsOnly (l : List Char) : Bool := l.all isWsPy

/-- Split a character list on newline characters.  `splitLines "a\nb"` is
`["a","b"]`; a trailing newline yields a final empty line, mirroring the
positions at which the `re.MULTILINE` anchor `^` can match. -/
def splitLinesGo : List Char → List Char → List (List Char)
  | [], acc => [acc.reverse]
  | c :: rest, acc =>
      if c = '\n' then acc.reverse :: splitLinesGo rest []
      else splitLinesGo rest (c :: acc)

def splitLines (l : List Char) : List (List Char) := splitLinesGo l []

theorem splitLinesGo_no_newline (l : List Char) :
    ∀ acc, ('\n' ∉ acc) → ∀ x ∈ splitLinesGo l acc, '\n' ∉ x := by
  induction l with
  | nil =>
      intro acc hacc x hx
      rw [splitLinesGo, List.mem_singleton] at hx
      subst hx
      intro hmem
      exact hacc (List.mem_reverse.mp hmem)
  | cons c rest ih =>
      intro acc hacc x hx
      rw [splitLinesGo] at hx
      by_cases hc : c = '\n'
      · rw [if_pos hc, List.mem_cons] at hx
        rcases hx with h1 | h1
        · subst h1
          intro hmem
          exact hacc (List.mem_reverse.mp hmem)
        · exact ih [] (by simp) x h1
      · rw [if_neg hc] at hx
        refine ih (c :: acc) ?_ x hx
        intro hmem
        rcases List.mem_cons.mp hmem with h1 | h1
        · exact hc h1.symm
        · exact hacc h1

/-- Every line produced by `splitLines` is newline-free. -/
theorem splitLines_no_newline (l : List Char) :
    ∀ x ∈ splitLines l, '\n' ∉ x :=
  splitLinesGo_no_newline l [] (by simp)

/-! ### Locating the posts section

`parser.py` finds the posts section with
`re.search(r"\*\s+Posts\s*\n(.*)", content, re.DOTALL)`: an asterisk at any
position, at least one whitespace character, the literal `Posts`, then a
whitespace run that must contain a newline; group 1 starts right after the
last newline of that run. -/

/-- Try to match `\*\s+Posts\s*\n` at the head of `cs`; on success return
the remainder of the text after the matched final newline (regex group 1).
The backtracking of `\s*\n` selects the last newline inside the whitespace
run that follows `Posts`. -/
def matchPostsAt (cs : List Char) : Option (List Char) :=
  match cs with
  | '*' :: rest =>
      let ws := rest.takeWhile isWsPy
      let rest2 := rest.dropWhile isWsPy
      if ws.isEmpty then none
      else if ['P', 'o', 's', 't', 's'].isPrefixOf rest2 then
        let tail5 := rest2.drop 5
        let ws2 := tail5.takeWhile isWsPy
        let rest3 := tail5.dropWhile isWsPy
        if '\n' ∈ ws2 then
          -- keep the characters of the run after its last newline
          some ((ws2.reverse.takeWhile (· ≠ '\n')).reverse ++ rest3)
        else none
      else none
  | _ => none

/-- Leftmost match of the posts-section pattern, as `re.search` finds it. -/
def findPostsSection : List Char → Option (List Char)
  | [] => none
  | c :: rest =>
      match matchPostsAt (c :: rest) with
      | some g => some g
      | none => findPostsSection rest

/-! ### Splitting the posts block into per-post sections

`parser.py` iterates
`^\*\*(?!\*)[^\n]*\n(?::PROPERTIES:\s*\n((?::[^:\n]+:[^\n]*\n)*):END:\s*\n)?(.*?)(?=^\*\*(?!\*)|\Z)`
with `re.DOTALL | re.MULTILINE` over the posts block.  A post starts at a
line beginning with exactly two asterisks that is terminated by a newline;
its body runs to the next such line or the end of the block. -/

/-- A line that starts a level-2 section (`**` not followed by `*`). -/
def isMarkerLine (l : List Char) : Bool :=
  match l with
  | '*' :: '*' :: rest =>
      match rest with
      | '*' :: _ => false
      | _ => true
  | _ => false

/-- Walk the lines of the posts block.  The second argument is the body of
the currently open section, reversed, or `none` while no section is open.
A marker line closes the open section (terminated by a marker, so not
final) and opens a new one — except a marker on the very last line, which
lacks its terminating newline and opens nothing.  The marker line itself
is not captured by the regex and is discarded, exactly as in the source. -/
def sectionsAcc : List (List Char) → Option (List (List Char)) →
    List (List (List Char) × Bool)
  | [], none => []
  | [], some acc => [(acc.reverse, true)]
  | l :: rest, none =>
      if isMarkerLine l then
        if rest.isEmpty then [] else sectionsAcc rest (some [])
      else sectionsAcc rest none
  | l :: rest, some acc =>
      if isMarkerLine l then
        (acc.reverse, false) ::
          (if rest.isEmpty then [] else sectionsAcc rest (some []))
      else sectionsAcc rest (some (l :: acc))

/-- The `**` sections of the posts block: each body paired with whether it
is terminated by the end of the text rather than by a following marker. -/
def splitSections (lines : List (List Char)) :
    List (List (List Char) × Bool) :=
  sectionsAcc lines none

theorem dropWhileLenLe {α : Type} (p : α → Bool) (l : List α) :
    (l.dropWhile p).length ≤ l.length := by
  induction l with
  | nil => simp
  | cons a l ih =>
      rw [List.dropWhile_cons]
      by_cases h : p a = true
      · rw [if_pos h]; exact Nat.le_succ_of_le ih
      · rw [if_neg h]

/-! ### Property blocks

Inside a post section the optional block
`:PROPERTIES:\s*\n((?::[^:\n]+:[^\n]*\n)*):END:\s*\n` is matched, and the
captured block text is then scanned with `:([^:]+):[ \t]*([^\n]*)`.  On
text of the captured shape that scan proceeds line by line: each property
line contributes the text between its first two colons as the key and the
rest of the line as the value. -/

/-- A line of the shape `:KEY:rest` with a non-empty colon-free key. -/
def propShaped (l : List Char) : Bool :=
  match l with
  | ':' :: rest =>
      let nm := rest.takeWhile (· ≠ ':')
      let r2 := rest.dropWhile (· ≠ ':')
      !nm.isEmpty && !r2.isEmpty
  | _ => false

/-- Key/value of a property line: key is lower-cased and stripped, value is
the text after the second colon, stripped.  (The source drops `[ \t]*`
before capturing and then strips; stripping alone is equivalent since
space and tab are stripped characters.) -/
def propKV (l : List Char) : String × String :=
  match l with
  | ':' :: rest =>
      let nm := rest.takeWhile (· ≠ ':')
      let r2 := rest.dropWhile (· ≠ ':')
      (String.mk ((trimChars nm).map Char.toLower), String.mk (trimChars (r2.drop 1)))
  | _ => ("", "")

/-- The `:END:` closer: literal `:END:` followed by whitespace only. -/
def isEndLine (l : List Char) : Bool :=
  [':', 'E', 'N', 'D', ':'].isPrefixOf l && wsOnly (l.drop 5)

/-- The `:PROPERTIES:` opener: literal `:PROPERTIES:` followed by
whitespace only. -/
def isPropsOpener (l : List Char) : Bool :=
  [':', 'P', 'R', 'O', 'P', 'E', 'R', 'T', 'I', 'E', 'S', ':'].isPrefixOf l &&
  wsOnly (l.drop 12)

/-- Tag each body line with whether it ends in a newline in the original
text: when the section is terminated by the end of the text, its final
line is the final line of the whole document and carries no newline. -/
def tagNewlines (body : List (List Char)) (finalSection : Bool) :
    List (List Char × Bool) :=
  if finalSection then
    body.dropLast.map (fun l => (l, true)) ++
      (match body.getLast? with
       | some l => [(l, false)]
       | none => [])
  else body.map (fun l => (l, true))

/-- Backtracking of the greedy property-line star against `:END:\s*\n`:
the block closes at the last `:END:`-shaped line inside the consumed run
of property-shaped lines; later lines become post content. -/
def backtrackEnd (R afterLines : List (List Char)) :
    Option (List (List Char) × List (List Char)) :=
  match R.reverse.findIdx? isEndLine with
  | none => none
  | some i =>
      let k := R.length - 1 - i
      some (R.take k, R.drop (k + 1) ++ afterLines)

/-- Match the optional property block at the start of a tagged post body.
Returns the property lines and the remaining content lines, or `none` when
the block pattern does not match (everything is then content). -/
def parsePropsBlock (tagged : List (List Char × Bool)) :
    Option (List (List Char) × List (List Char)) :=
  match tagged with
  | (l0, true) :: rest =>
      if isPropsOpener l0 then
        -- `\s*\n` after `:PROPERTIES:` skips whitespace-only lines
        let rest2 := rest.dropWhile (fun p => wsOnly p.1 && p.2)
        let R := rest2.takeWhile (fun p => propShaped p.1 && p.2)
        let after := rest2.drop R.length
        match after with
        | (la, true) :: rest3 =>
            if isEndLine la then some (R.map (·.1), rest3.map (·.1))
            else backtrackEnd (R.map (·.1)) (after.map (·.1))
        | _ => backtrackEnd (R.map (·.1)) (after.map (·.1))
      else none
  | _ => none

/-! ### Body text: mention links and poll options -/

/-- The literal `[[org-social:` opener of a mention link. -/
def mentionOpener : List Char :=
  ['[', '[', 'o', 'r', 'g', '-', 's', 'o', 'c', 'i', 'a', 'l', ':']

/-- Scan for `[[org-social:URL][NICK]]` tokens, as
`re.finditer(r"\[\[org-social:([^\]]+)\]\[([^\]]+)\]\]", ...)` does:
each match yields (url, nickname); scanning resumes after a full match or
at the next character after a failed start. -/
def scanMentionsGo (fuel : Nat) (cs : List Char) : List (String × String) :=
  match fuel with
  | 0 => []
  | fuel + 1 =>
      match cs with
      | [] => []
      | _ :: rest =>
          if mentionOpener.isPrefixOf cs then
            let t := cs.drop mentionOpener.length
            let u := t.takeWhile (· ≠ ']')
            let t2 := t.dropWhile (· ≠ ']')
            if !u.isEmpty && [']', '['].isPrefixOf t2 then
              let t3 := t2.drop 2
              let n := t3.takeWhile (· ≠ ']')
              let t4 := t3.dropWhile (· ≠ ']')
              if !n.isEmpty && [']', ']'].isPrefixOf t4 then
                (String.mk u, String.mk n) :: scanMentionsGo fuel (t4.drop 2)
              else scanMentionsGo fuel rest
            else scanMentionsGo fuel rest
          else scanMentionsGo fuel rest

/-- The fuel `cs.length` dominates the scan: every step consumes at least
one character, so the fuel never runs out before the text does. -/
def scanMentions (cs : List Char) : List (String × String) :=
  scanMentionsGo cs.length cs

/-- One checklist line `^\s*-\s*\[\s*\]\s*(.+)$`: leading whitespace, a
dash, whitespace, `[`, whitespace, `]`, then a non-empty remainder which is
captured and stripped. -/
def lineOption (l : List Char) : Option String :=
  match (l.dropWhile isWsPy) with
  | '-' :: r2 =>
      match r2.dropWhile isWsPy with
      | '[' :: r4 =>
          match r4.dropWhile isWsPy with
          | ']' :: r6 =>
              if r6.isEmpty then none else some (String.mk (trimChars r6))
          | _ => none
      | _ => none
  | _ => none

/-- Unchecked checklist lines of the content, in document order.  (The
`\s*` runs of the source pattern may in principle cross line boundaries;
the claims never exercise that corner and the model scans per line.) -/
def pollOptionsOf (cs : List Char) : List String :=
  (splitLines cs).filterMap lineOption

/-! ### Posts -/

/-- A parsed post, mirroring the `post` dictionary built by
`parse_org_social_content`. -/
structure OrgPost where
  id : String
  content : String
  properties : List (String × String)
  mentions : List (String × String)
  pollOptions : List String
  deriving DecidableEq, Repr

/-- Python-dict insertion: replace the value of an existing key in place,
otherwise append. -/
def insertAssoc (l : List (String × String)) (k v : String) :
    List (String × String) :=
  match l with
  | [] => [(k, v)]
  | (k0, v0) :: rest =>
      if k0 = k then (k0, v) :: rest else (k0, v0) :: insertAssoc rest k v

/-- `properties.get(key, "")`. -/
def propGet (props : List (String × String)) (k : String) : String :=
  match props with
  | [] => ""
  | (k0, v0) :: rest => if k0 = k then v0 else propGet rest k

/-- Fold the property lines into the property dictionary and the post id:
only non-empty values are captured, and a captured `id` property also sets
the post id (the section marker line is never consulted). -/
def foldProps (propLines : List (List Char)) :
    List (String × String) × String :=
  propLines.foldl
    (fun acc l =>
      if (propKV l).2 = "" then acc
      else (insertAssoc acc.1 (propKV l).1 (propKV l).2,
            if (propKV l).1 = "id" then (propKV l).2 else acc.2))
    ([], "")

/-- Assemble a post from its property lines and content lines. -/
def postOfParts (pc : List (List Char) × List (List Char)) : OrgPost :=
  { id := (foldProps pc.1).2
    content := String.mk (trimChars (List.intercalate ['\n'] pc.2))
    properties := (foldProps pc.1).1
    mentions := scanMentions (trimChars (List.intercalate ['\n'] pc.2))
    pollOptions := pollOptionsOf (trimChars (List.intercalate ['\n'] pc.2)) }

/-- Build one post from the body of a `**` section: when the optional
property block fails to match, everything is content. -/
def postOfSection (body : List (List Char)) (finalSection : Bool) : OrgPost :=
  match parsePropsBlock (tagNewlines body finalSection) with
  | some r => postOfParts r
  | none => postOfParts ([], body)

/-- The posts pipeline of `parse_org_social_content` (`parser.py`): locate
the posts section, split it into `**` sections, build each post, and keep
only posts with a non-empty id.  (The metadata lines of the document do not
interact with post parsing and are not modelled here.) -/
def parse_org_social_posts (content : String) : List OrgPost :=
  match findPostsSection content.data with
  | none => []
  | some g =>
      ((splitSections (splitLines g)).map
        (fun s => postOfSection s.1 s.2)).filter (fun p => p.id ≠ "")

/-! ## The relational store

`app/feeds/models.py` defines the entities; rows are modelled as records
with a numeric row identity (`rowid`), and querysets as list filters.
Unique constraints from the model `Meta` classes:
  * `Profile.feed` unique,
  * `Post` unique on `(profile, post_id)`,
  * `Follow` unique on `(follower, followed)`,
  * `PollVote` unique on `(post, poll_post)`,
  * `Mention` unique on `(post, mentioned_profile)`,
  * `ProfileLink` unique on `(profile, url)`,
  * `ProfileContact` unique on `(profile, contact_type, contact_value)`.
-/

structure FeedR where
  rowid : Nat
  url : String
  deriving DecidableEq, Repr

structure ProfileR where
  rowid : Nat
  feed : String
  title : String
  nick : String
  description : String
  avatar : String
  version : String
  deriving DecidableEq, Repr

structure PostR where
  rowid : Nat
  profile : Nat
  post_id : String
  content : String
  language : String
  tags : String
  client : String
  reply_to : String
  mood : String
  group : String
  includeRef : String
  pollEnd : Option String
  createdAt : Nat
  deriving DecidableEq, Repr

structure FollowR where
  rowid : Nat
  follower : Nat
  followed : Nat
  nickname : String
  deriving DecidableEq, Repr

structure MentionR where
  rowid : Nat
  post : Nat
  mentioned_profile : Nat
  nickname : String
  deriving DecidableEq, Repr

structure PollOptionR where
  rowid : Nat
  post : Nat
  option_text : String
  order : Nat
  deriving DecidableEq, Repr

structure PollVoteR where
  rowid : Nat
  post : Nat
  poll_post : Nat
  poll_option : String
  deriving DecidableEq, Repr

structure ProfileLinkR where
  rowid : Nat
  profile : Nat
  url : String
  deriving DecidableEq, Repr

structure ProfileContactR where
  rowid : Nat
  profile : Nat
  contact_type : String
  contact_value : String
  deriving DecidableEq, Repr

structure DBState where
  feeds : List FeedR
  profiles : List ProfileR
  posts : List PostR
  follows : List FollowR
  mentions : List MentionR
  pollOptions : List PollOptionR
  pollVotes : List PollVoteR
  profileLinks : List ProfileLinkR
  profileContacts : List ProfileContactR
  nextId : Nat
  deriving DecidableEq, Repr

/-! ## `_handle_feed_redirect` (`parser.py`, lines 25-186)

Django semantics embedded here:
  * `.filter(...).first()` on a unique key is `List.find?`;
  * `.update(...)` is a mapped field assignment over matching rows, raising
    `IntegrityError` when it would create a duplicate of a unique key
    (the whole `transaction.atomic()` block is then rolled back, and the
    outer `except Exception` swallows the error, so the caller observes
    the original state);
  * `.delete()` cascades along the `on_delete=CASCADE` foreign keys.
-/

def deleteFollowRow (db : DBState) (rid : Nat) : DBState :=
  { db with follows := db.follows.filter (fun f => f.rowid ≠ rid) }

def setFollowFollowed (db : DBState) (rid toP : Nat) : DBState :=
  { db with follows :=
      db.follows.map (fun f => if f.rowid = rid then { f with followed := toP } else f) }

def setFollowFollower (db : DBState) (rid toP : Nat) : DBState :=
  { db with follows :=
      db.follows.map (fun f => if f.rowid = rid then { f with follower := toP } else f) }

/-- Cascade deletion of a single post row: its poll options, the poll
votes cast by it or received by it, and its mentions go with it. -/
def deletePostCascade (db : DBState) (rid : Nat) : DBState :=
  { db with
    posts := db.posts.filter (fun p => p.rowid ≠ rid)
    pollOptions := db.pollOptions.filter (fun o => o.post ≠ rid)
    pollVotes := db.pollVotes.filter (fun v => v.post ≠ rid ∧ v.poll_post ≠ rid)
    mentions := db.mentions.filter (fun m => m.post ≠ rid) }

/-- `Follow.objects.filter(followed=old_profile)` migration loop. -/
def migrateFollowsAsFollowed (db : DBState) (oldP newP : Nat) : DBState :=
  (db.follows.filter (fun f => f.followed = oldP)).foldl
    (fun db f =>
      match db.follows.find? (fun g => g.follower = f.follower ∧ g.followed = newP) with
      | none => setFollowFollowed db f.rowid newP
      | some _ => deleteFollowRow db f.rowid)
    db

/-- `Follow.objects.filter(follower=old_profile)` migration loop (its
queryset is evaluated after the first loop ran). -/
def migrateFollowsAsFollower (db : DBState) (oldP newP : Nat) : DBState :=
  (db.follows.filter (fun f => f.follower = oldP)).foldl
    (fun db f =>
      match db.follows.find? (fun g => g.follower = newP ∧ g.followed = f.followed) with
      | none => setFollowFollower db f.rowid newP
      | some _ => deleteFollowRow db f.rowid)
    db

/-- The bulk update
`Mention.objects.filter(mentioned_profile=old).update(mentioned_profile=new)`
violates the `(post, mentioned_profile)` unique constraint exactly when a
post carries mentions of both profiles. -/
def mentionBulkConflict (db : DBState) (oldP newP : Nat) : Bool :=
  db.mentions.any (fun m =>
    m.mentioned_profile = oldP ∧
    db.mentions.any (fun m2 => m2.post = m.post ∧ m2.mentioned_profile = newP))

def repointMentions (db : DBState) (oldP newP : Nat) : DBState :=
  { db with mentions :=
      db.mentions.map (fun m =>
        if m.mentioned_profile = oldP then { m with mentioned_profile := newP } else m) }

/-- Migration of one post owned by the old profile. -/
def migrateOnePost (db : DBState) (newP : Nat) (op : PostR) : DBState :=
  match db.posts.find? (fun p => p.profile = newP ∧ p.post_id = op.post_id) with
  | none =>
      { db with posts :=
          db.posts.map (fun p =>
            if p.rowid = op.rowid then { p with profile := newP } else p) }
  | some ex =>
      let db1 := (db.pollVotes.filter (fun v => v.poll_post = op.rowid)).foldl
        (fun db v =>
          match db.pollVotes.find? (fun w => w.post = v.post ∧ w.poll_post = ex.rowid) with
          | none =>
              { db with pollVotes :=
                  db.pollVotes.map (fun w =>
                    if w.rowid = v.rowid then { w with poll_post := ex.rowid } else w) }
          | some _ =>
              { db with pollVotes := db.pollVotes.filter (fun w => w.rowid ≠ v.rowid) })
        db
      deletePostCascade db1 op.rowid

def migratePosts (db : DBState) (oldP newP : Nat) : DBState :=
  (db.posts.filter (fun p => p.profile = oldP)).foldl
    (fun db op => migrateOnePost db newP op) db

/-- `old_profile.delete()` with its cascades. -/
def deleteProfileCascade (db : DBState) (prof : Nat) : DBState :=
  let victims := (db.posts.filter (fun p => p.profile = prof)).map (·.rowid)
  { db with
    profiles := db.profiles.filter (fun pr => pr.rowid ≠ prof)
    posts := db.posts.filter (fun p => p.profile ≠ prof)
    follows := db.follows.filter (fun f => f.follower ≠ prof ∧ f.followed ≠ prof)
    mentions :=
      db.mentions.filter (fun m => m.mentioned_profile ≠ prof ∧ m.post ∉ victims)
    pollOptions := db.pollOptions.filter (fun o => o.post ∉ victims)
    pollVotes :=
      db.pollVotes.filter (fun v => v.post ∉ victims ∧ v.poll_post ∉ victims)
    profileLinks := db.profileLinks.filter (fun l => l.profile ≠ prof)
    profileContacts := db.profileContacts.filter (fun c => c.profile ≠ prof) }

def deleteFeedRow (db : DBState) (rid : Nat) : DBState :=
  { db with feeds := db.feeds.filter (fun f => f.rowid ≠ rid) }

/-- `_handle_feed_redirect(old_url, new_url)`. -/
def handle_feed_redirect (db : DBState) (oldUrl newUrl : String) : DBState :=
  match db.feeds.find? (fun f => f.url = oldUrl),
        db.feeds.find? (fun f => f.url = newUrl) with
  | some oldF, some _ =>
      (match db.profiles.find? (fun p => p.feed = oldUrl),
             db.profiles.find? (fun p => p.feed = newUrl) with
       | some oldP, some newP =>
           let db1 := migrateFollowsAsFollowed db oldP.rowid newP.rowid
           let db2 := migrateFollowsAsFollower db1 oldP.rowid newP.rowid
           if mentionBulkConflict db2 oldP.rowid newP.rowid then
             -- IntegrityError inside transaction.atomic(): full rollback,
             -- swallowed by the outer `except Exception`
             db
           else
             let db3 := repointMentions db2 oldP.rowid newP.rowid
             let db4 := migratePosts db3 oldP.rowid newP.rowid
             let db5 := deleteProfileCascade db4 oldP.rowid
             deleteFeedRow db5 oldF.rowid
       | some oldP, none =>
           -- update the old profile to the new URL, then delete old feed
           let ps := db.profiles.map (fun p =>
              if p.rowid = oldP.rowid then { p with feed := newUrl } else p)
           deleteFeedRow { db with profiles := ps } oldF.rowid
       | none, _ => deleteFeedRow db oldF.rowid)
  | some oldF, none =>
      -- rename the feed, bulk-update profiles; the bulk update violates the
      -- unique `Profile.feed` when a profile already carries the new URL
      if (db.profiles.any (fun p => p.feed = oldUrl)) ∧
         (db.profiles.any (fun p => p.feed = newUrl)) then db
      else
        let fs := db.feeds.map (fun f =>
          if f.rowid = oldF.rowid then { f with url := newUrl } else f)
        let ps := db.profiles.map (fun p =>
          if p.feed = oldUrl then { p with feed := newUrl } else p)
        { db with feeds := fs, profiles := ps }
  | none, _ => db

/-! ## Read-path classifiers

`app/reactions/utils.py` and `app/replies/utils.py`.  `mood` is a
non-nullable `CharField`, so `mood__isnull=True` never holds and
`Q(mood="") | Q(mood__isnull=True)` is simply `mood = ""`;
`exclude(poll_votes__isnull=False)` removes posts that carry at least one
`PollVote` record as the voting post. -/

/-- The post has an associated `PollVote` record (it is a registered poll
vote). -/
def isVotePost (db : DBState) (p : PostR) : Bool :=
  db.pollVotes.any (fun v => v.post = p.rowid)

/-- Insert into a list sorted descending by `post_id` (`order_by("-post_id")`). -/
def insDescByPostId (x : PostR) : List PostR → List PostR
  | [] => [x]
  | y :: ys =>
      if y.post_id < x.post_id then x :: y :: ys else y :: insDescByPostId x ys

def sortByPostIdDesc : List PostR → List PostR
  | [] => []
  | x :: xs => insDescByPostId x (sortByPostIdDesc xs)

/-- `get_reactions_for_post(post_url)`: posts replying to the target whose
mood is non-empty and which are not registered poll votes, ordered by
`post_id` descending.  (The content of the post is not consulted.) -/
def get_reactions_for_post (db : DBState) (postUrl : String) : List PostR :=
  sortByPostIdDesc (db.posts.filter
    (fun p => p.reply_to = postUrl ∧ p.mood ≠ "" ∧ ¬ isVotePost db p))

/-- `get_direct_replies_for_post(post_url)`: posts replying to the target
whose mood is empty and which are not registered poll votes, ordered by
`post_id` descending. -/
def get_direct_replies_for_post (db : DBState) (postUrl : String) : List PostR :=
  sortByPostIdDesc (db.posts.filter
    (fun p => p.reply_to = postUrl ∧ p.mood = "" ∧ ¬ isVotePost db p))

/-! ## `get_parent_chain` (`app/feeds/utils.py`) -/

/-- Resolve one `reply_to` reference: split on the first `#`, look up the
profile by feed URL and the post by `(profile, post_id)`; `none` models
every `break` of the loop (no `#`, missing profile, missing post). -/
def resolveParent (db : DBState) (ref : String) : Option String :=
  if '#' ∈ ref.data then
    let feedUrl := String.mk (ref.data.takeWhile (· ≠ '#'))
    let postId := String.mk ((ref.data.dropWhile (· ≠ '#')).drop 1)
    match db.profiles.find? (fun pr => pr.feed = feedUrl) with
    | none => none
    | some pr =>
        match db.posts.find? (fun p => p.profile = pr.rowid ∧ p.post_id = postId) with
        | none => none
        | some parent => some parent.reply_to
  else none

/-- The `while current_reply_to and depth < max_depth` loop; the remaining
fuel is `max_depth - depth`. -/
def parentChainGo (db : DBState) : String → Nat → List String
  | _, 0 => []
  | cur, fuel + 1 =>
      if cur = "" then []
      else
        cur :: (match resolveParent db cur with
                | none => []
                | some nxt => parentChainGo db nxt fuel)

/-- `get_parent_chain(post, max_depth=100)`: ancestor references collected
upward and then reversed, so they run from the root to the immediate
parent. -/
def get_parent_chain (db : DBState) (p : PostR) (maxDepth : Nat := 100) :
    List String :=
  if p.reply_to = "" then []
  else (parentChainGo db p.reply_to maxDepth).reverse

/-! ## `RepliesView` (`app/replies/views.py`)

The view collects the replies level by level, each level ordered by
`created_at` ascending, then builds the tree with `_build_replies_tree` /
`_find_children`.  It never consults `mood` and produces no `moods`
grouping; reaction posts are ordinary children. -/

/-- `reply.profile.feed` + `"#"` + `reply.post_id`. -/
def postUrlOf (db : DBState) (p : PostR) : String :=
  (match db.profiles.find? (fun pr => pr.rowid = p.profile) with
   | some pr => pr.feed
   | none => "") ++ "#" ++ p.post_id

/-- Insert into a list sorted ascending by `created_at`
(`order_by("created_at")`). -/
def insAscByCreated (x : PostR) : List PostR → List PostR
  | [] => [x]
  | y :: ys =>
      if x.createdAt < y.createdAt then x :: y :: ys else y :: insAscByCreated x ys

def sortByCreatedAsc : List PostR → List PostR
  | [] => []
  | x :: xs => insAscByCreated x (sortByCreatedAsc xs)

/-- The breadth-first `while current_level` loop collecting nested reply
levels.  The source loop has no cycle protection and can run forever on a
cyclic reply graph; the fuel models the number of iterations actually
executed. -/
def collectLevelsGo (db : DBState) (fuel : Nat) (current : List PostR) :
    List PostR :=
  match fuel with
  | 0 => []
  | fuel + 1 =>
      if current.isEmpty then []
      else
        let next := current.flatMap (fun r =>
          sortByCreatedAsc (db.posts.filter (fun p => p.reply_to = postUrlOf db r)))
        next ++ collectLevelsGo db fuel next

/-- All replies reachable from the root reference, in collection order. -/
def collectAllReplies (db : DBState) (rootUrl : String) (fuel : Nat) :
    List PostR :=
  let direct := sortByCreatedAsc (db.posts.filter (fun p => p.reply_to = rootUrl))
  direct ++ collectLevelsGo db fuel direct

/-- A node of the reply tree returned by the view: the post reference and
its children.  (No `moods` field exists in this code.) -/
inductive RNode where
  | mk (post : String) (children : List RNode)

def RNode.post : RNode → String
  | .mk p _ => p

def RNode.children : RNode → List RNode
  | .mk _ c => c

/-- `_find_children(parent_url, all_replies)`: unbounded recursion in the
source, bounded here by fuel (sufficient for any acyclic input). -/
def findChildren (db : DBState) (fuel : Nat) (allReplies : List PostR)
    (parentUrl : String) : List RNode :=
  match fuel with
  | 0 => []
  | fuel + 1 =>
      (allReplies.filter (fun r => r.reply_to = parentUrl)).map (fun r =>
        RNode.mk (postUrlOf db r) (findChildren db fuel allReplies (postUrlOf db r)))

/-- `_build_replies_tree(all_replies, parent_url)`. -/
def build_replies_tree (db : DBState) (fuel : Nat) (allReplies : List PostR)
    (parentUrl : String) : List RNode :=
  (allReplies.filter (fun r => r.reply_to = parentUrl)).map (fun r =>
    RNode.mk (postUrlOf db r) (findChildren db fuel allReplies (postUrlOf db r)))

/-- The data computed by `RepliesView.get` for a root reference: collect
all replies, then build the tree. -/
def repliesViewData (db : DBState) (rootUrl : String) (fuel : Nat) :
    List RNode :=
  build_replies_tree db fuel (collectAllReplies db rootUrl fuel) rootUrl

/-! ## The per-feed sync (`scan_feeds`, `app/feeds/tasks.py` lines 407-707)

The steps after a successful fetch-and-parse of one feed are embedded:
profile upsert gated by the content digest, wholesale replacement of
profile links and contacts, the per-post upsert loop with notification
publication, and removal of posts absent from the parse.

External collaborators are parameters:
  * `gs` models the whole group-slug computation (it relies on
    `core/settings.py`, which only affects the stored `group` field);
  * `dateOk` models whether `dateutil.parser.parse` accepts a string;
  * `hashOf` models the `md5(f"{metadata}{posts_data}")` digest; only its
    determinism is used.

A uniqueness violation raised by a bare `.create(...)` (duplicate LINK or
CONTACT lines, duplicate poll options) escapes to the per-feed
`except Exception` handler: the feed sync stops at that point with all
earlier writes kept (there is no transaction here).  The `Bool` results
model that abort. -/

structure Metadata where
  title : String
  nick : String
  description : String
  avatar : String
  links : List String
  contacts : List String
  follows : List (String × String)
  deriving DecidableEq, Repr

inductive Event where
  | reaction (target post parent emoji : String)
  | reply (target post parent : String)
  | boost (target post boosted : String)
  | mention (target post : String)
  deriving DecidableEq, Repr

inductive WriteOp where
  | profileCreateW (row : Nat)
  | profileUpdateW (row : Nat)
  | linkDeleteW (row : Nat)
  | linkCreateW (row : Nat)
  | contactDeleteW (row : Nat)
  | contactCreateW (row : Nat)
  | postCreateW (row : Nat)
  | postUpdateW (row : Nat)
  | pollEndW (row : Nat)
  | pollOptionDeleteW (row : Nat)
  | pollOptionCreateW (row : Nat)
  | voteCreateW (row : Nat)
  | voteUpdateW (row : Nat)
  | mentionCreateW (row : Nat)
  | postDeleteW (row : Nat)
  deriving DecidableEq, Repr

/-- Python `str.split(sep)` (full split). -/
def splitSepGo (sep : Char) : List Char → List Char → List (List Char)
  | [], acc => [acc.reverse]
  | c :: rest, acc =>
      if c = sep then acc.reverse :: splitSepGo sep rest []
      else splitSepGo sep rest (c :: acc)

def splitOnSep (sep : Char) (s : String) : List String :=
  (splitSepGo sep s.data []).map String.mk

/-- Python `str.strip()`. -/
def pyStrip (s : String) : String := String.mk (trimChars s.data)

/-- The notification events published when a post row is first created
(`tasks.py` lines 521-562): a reply reference that splits into exactly two
parts on `#` publishes a reaction when the mood is non-blank and a reply
otherwise; an include reference that splits into exactly two parts
publishes a boost. -/
def replyEventsPart (feedUrl postId replyTo mood : String) : List Event :=
  if replyTo ≠ "" then
    match splitOnSep '#' replyTo with
    | [a, _] =>
        if mood ≠ "" ∧ pyStrip mood ≠ "" then
          [Event.reaction a (feedUrl ++ "#" ++ postId) replyTo mood]
        else
          [Event.reply a (feedUrl ++ "#" ++ postId) replyTo]
    | _ => []
  else []

def boostEventsPart (feedUrl postId includeRef : String) : List Event :=
  if includeRef ≠ "" then
    match splitOnSep '#' includeRef with
    | [b, _] => [Event.boost b (feedUrl ++ "#" ++ postId) includeRef]
    | _ => []
  else []

def newPostEvents (feedUrl postId replyTo mood includeRef : String) :
    List Event :=
  replyEventsPart feedUrl postId replyTo mood ++
  boostEventsPart feedUrl postId includeRef

/-- Feed URLs of the profiles currently mentioned by the post
(`post.mentions.values_list("mentioned_profile__feed", flat=True)`). -/
def mentionFeedsOf (db : DBState) (postRow : Nat) : List String :=
  (db.mentions.filter (fun m => m.post = postRow)).filterMap (fun m =>
    (db.profiles.find? (fun pr => pr.rowid = m.mentioned_profile)).map (fun pr => pr.feed))

/-- `mention_url.split("#")[0]` applied to the stripped mention URL. -/
def mentionBase (m : String × String) : String :=
  String.mk ((pyStrip m.1).data.takeWhile (fun c => c ≠ '#'))

/-- One iteration of the mention loop (`tasks.py` lines 641-686): strip
the URL, take the base before `#`, resolve the profile, and create the
`Mention` row (publishing a notification) only when the base is not in the
snapshot and the row does not yet exist. -/
def mentionStep (db : DBState) (feedUrl postId : String) (postRow : Nat)
    (snapshot : List String) (m : String × String) :
    DBState × List Event × List WriteOp :=
  if pyStrip m.1 = "" then (db, [], [])
  else
    match db.profiles.find? (fun pr => pr.feed = mentionBase m) with
    | none => (db, [], [])
    | some mp =>
        if mentionBase m ∈ snapshot then (db, [], [])
        else
          match db.mentions.find? (fun r =>
              r.post = postRow ∧ r.mentioned_profile = mp.rowid) with
          | some _ => (db, [], [])
          | none =>
              ({ db with
                  mentions := db.mentions ++
                    [⟨db.nextId, postRow, mp.rowid, pyStrip m.2⟩]
                  nextId := db.nextId + 1 },
               [Event.mention (mentionBase m) (feedUrl ++ "#" ++ postId)],
               [WriteOp.mentionCreateW db.nextId])

/-- The mention loop (`tasks.py` lines 632-686): the snapshot of already
mentioned feeds is computed once before the loop. -/
def processMentions (db : DBState) (feedUrl postId : String) (postRow : Nat)
    (snapshot : List String) : List (String × String) →
    DBState × List Event × List WriteOp
  | [] => (db, [], [])
  | m :: rest =>
      let s := mentionStep db feedUrl postId postRow snapshot m
      let r := processMentions s.1 feedUrl postId postRow snapshot rest
      (r.1, s.2.1 ++ r.2.1, s.2.2 ++ r.2.2)

/-- One step of the poll-option recreation fold. -/
def pollOptF (postRow : Nat)
    (acc : DBState × List WriteOp × Bool × List String × Nat) (t : String) :
    DBState × List WriteOp × Bool × List String × Nat :=
  let (db, w, ab, seen, i) := acc
  if ab then (db, w, ab, seen, i)
  else if t ∈ seen then (db, w, true, seen, i)
  else
    ({ db with
        pollOptions := db.pollOptions ++ [⟨db.nextId, postRow, t, i⟩]
        nextId := db.nextId + 1 },
     w ++ [WriteOp.pollOptionCreateW db.nextId], false, seen ++ [t], i + 1)

/-- Wholesale replacement of a post's poll options (`tasks.py` lines
587-595).  `PollOption` is unique on `(post, option_text)`: a duplicate
option text raises at `create`, aborting the feed sync with the rows
created so far kept. -/
def replacePollOptions (db : DBState) (postRow : Nat) (opts : List String) :
    DBState × List WriteOp × Bool :=
  if opts.isEmpty then (db, [], false)
  else
    let victims := db.pollOptions.filter (fun o => o.post = postRow)
    let db1 := { db with pollOptions := db.pollOptions.filter (fun o => o.post ≠ postRow) }
    let wdel := victims.map (fun o => WriteOp.pollOptionDeleteW o.rowid)
    let res := opts.foldl (pollOptF postRow) (db1, wdel, false, [], 0)
    (res.1, res.2.1, res.2.2.1)

/-- `poll_end` handling (`tasks.py` lines 576-584). -/
def handlePollEnd (dateOk : String → Bool) (db : DBState) (postRow : Nat)
    (props : List (String × String)) : DBState × List WriteOp :=
  let pes := propGet props "poll_end"
  if pes ≠ "" ∧ dateOk pes then
    ({ db with posts := db.posts.map (fun p =>
        if p.rowid = postRow then { p with pollEnd := some pes } else p) },
     [WriteOp.pollEndW postRow])
  else (db, [])

/-- Poll-vote handling (`tasks.py` lines 597-630). -/
def handlePollVote (db : DBState) (postRow : Nat)
    (props : List (String × String)) : DBState × List WriteOp :=
  let po := propGet props "poll_option"
  let rp := propGet props "reply_to"
  if po ≠ "" ∧ rp ≠ "" then
    match splitOnSep '#' rp with
    | [pollFeed, pollPostId] =>
        (match db.profiles.find? (fun pr => pr.feed = pollFeed) with
         | none => (db, [])
         | some pollProf =>
             match db.posts.find? (fun p =>
                 p.profile = pollProf.rowid ∧ p.post_id = pollPostId) with
             | none => (db, [])
             | some pollPost =>
                 match db.pollVotes.find? (fun v =>
                     v.post = postRow ∧ v.poll_post = pollPost.rowid) with
                 | none =>
                     ({ db with
                         pollVotes := db.pollVotes ++
                           [⟨db.nextId, postRow, pollPost.rowid, po⟩]
                         nextId := db.nextId + 1 },
                      [WriteOp.voteCreateW db.nextId])
                 | some v =>
                     ({ db with pollVotes := db.pollVotes.map (fun w =>
                         if w.rowid = v.rowid then { w with poll_option := po } else w) },
                      [WriteOp.voteUpdateW v.rowid]))
    | _ => (db, [])
  else (db, [])

/-- The steps shared by the create and update branches of the post loop:
poll end, poll options (which may abort), poll vote, mentions. -/
def postSharedSteps (dateOk : String → Bool) (db : DBState)
    (feedUrl : String) (pd : OrgPost) (postRow : Nat)
    (w0 : List WriteOp) (evs0 : List Event) :
    DBState × List Event × List WriteOp × Bool :=
  let r1 := handlePollEnd dateOk db postRow pd.properties
  let r2 := replacePollOptions r1.1 postRow pd.pollOptions
  if r2.2.2 then (r2.1, evs0, w0 ++ r1.2 ++ r2.2.1, true)
  else
    let r3 := handlePollVote r2.1 postRow pd.properties
    let snapshot := mentionFeedsOf r3.1 postRow
    let r4 := processMentions r3.1 feedUrl pd.id postRow snapshot pd.mentions
    (r4.1, evs0 ++ r4.2.1, w0 ++ r1.2 ++ r2.2.1 ++ r3.2 ++ r4.2.2, false)

/-- The post row created by the `get_or_create` defaults (`tasks.py`
lines 504-519). -/
def createdPostRow (gs : String → String) (db : DBState) (profId : Nat)
    (pd : OrgPost) : PostR :=
  { rowid := db.nextId, profile := profId, post_id := pd.id
    content := pd.content
    language := propGet pd.properties "lang"
    tags := propGet pd.properties "tags"
    client := propGet pd.properties "client"
    reply_to := propGet pd.properties "reply_to"
    mood := propGet pd.properties "mood"
    group := gs (propGet pd.properties "group")
    includeRef := propGet pd.properties "include"
    pollEnd := none, createdAt := db.nextId }

/-- The store after creating the post row. -/
def createDB (gs : String → String) (db : DBState) (profId : Nat)
    (pd : OrgPost) : DBState :=
  { db with posts := db.posts ++ [createdPostRow gs db profId pd]
            nextId := db.nextId + 1 }

/-- The store after overwriting the mutable fields of the existing row
(`tasks.py` lines 563-574). -/
def updateDB (gs : String → String) (db : DBState) (pd : OrgPost)
    (post0 : PostR) : DBState :=
  { db with posts := db.posts.map (fun p =>
      if p.rowid = post0.rowid then
        { p with
            content := pd.content
            language := propGet pd.properties "lang"
            tags := propGet pd.properties "tags"
            client := propGet pd.properties "client"
            reply_to := propGet pd.properties "reply_to"
            mood := propGet pd.properties "mood"
            group := gs (propGet pd.properties "group")
            includeRef := propGet pd.properties "include" }
      else p) }

/-- One iteration of the post loop (`tasks.py` lines 474-686): skip posts
without an id, upsert by `(profile, post_id)`, publish the creation
notifications only in the created branch, then run the shared poll and
mention steps. -/
def processPost (gs : String → String) (dateOk : String → Bool)
    (db : DBState) (profId : Nat) (feedUrl : String) (pd : OrgPost) :
    DBState × List Event × List WriteOp × Bool :=
  if pd.id = "" then (db, [], [], false)
  else
    match db.posts.find? (fun p => p.profile = profId ∧ p.post_id = pd.id) with
    | none =>
        postSharedSteps dateOk (createDB gs db profId pd) feedUrl pd db.nextId
          [WriteOp.postCreateW db.nextId]
          (newPostEvents feedUrl pd.id (propGet pd.properties "reply_to")
            (propGet pd.properties "mood") (propGet pd.properties "include"))
    | some post0 =>
        postSharedSteps dateOk (updateDB gs db pd post0) feedUrl pd post0.rowid
          [WriteOp.postUpdateW post0.rowid] []

/-- The post loop over all parsed posts; a raised uniqueness violation
aborts the remainder of the feed. -/
def processPostsFold (gs : String → String) (dateOk : String → Bool)
    (db : DBState) (profId : Nat) (feedUrl : String) :
    List OrgPost → DBState × List Event × List WriteOp × Bool
  | [] => (db, [], [], false)
  | p :: rest =>
      let r1 := processPost gs dateOk db profId feedUrl p
      if r1.2.2.2 then r1
      else
        let r2 := processPostsFold gs dateOk r1.1 profId feedUrl rest
        (r2.1, r1.2.1 ++ r2.2.1, r1.2.2.1 ++ r2.2.2.1, r2.2.2.2)

/-- `existing_post_ids - current_post_ids`: stored ids of the profile
absent from the current parse (`tasks.py` lines 688-698). -/
def deletedIdsOf (db : DBState) (profId : Nat) (currentIds : List String) :
    List String :=
  ((db.posts.filter (fun p => p.profile = profId)).map
    (fun p => p.post_id)).filter (fun i => i ∉ currentIds)

/-- Row ids of the post rows about to be deleted. -/
def victimsOf (db : DBState) (profId : Nat) (currentIds : List String) :
    List Nat :=
  (db.posts.filter (fun p =>
    p.profile = profId ∧ p.post_id ∈ deletedIdsOf db profId currentIds)).map
      (fun p => p.rowid)

/-- Deletion of posts absent from the current parse (`tasks.py` lines
688-707): the set difference of stored against parsed post ids, removed
with cascades to poll options, poll votes (in both roles) and mentions. -/
def removeDeletedPosts (db : DBState) (profId : Nat)
    (currentIds : List String) : DBState × List WriteOp :=
  if (deletedIdsOf db profId currentIds).isEmpty then (db, [])
  else
    ({ db with
        posts := db.posts.filter (fun p =>
          ¬(p.profile = profId ∧ p.post_id ∈ deletedIdsOf db profId currentIds))
        pollOptions := db.pollOptions.filter
          (fun o => o.post ∉ victimsOf db profId currentIds)
        pollVotes := db.pollVotes.filter (fun v =>
          v.post ∉ victimsOf db profId currentIds ∧
          v.poll_post ∉ victimsOf db profId currentIds)
        mentions := db.mentions.filter
          (fun m => m.post ∉ victimsOf db profId currentIds) },
     (victimsOf db profId currentIds).map WriteOp.postDeleteW)

/-- Profile upsert with the version digest gate (`tasks.py` lines 419-449).
Returns the updated state, the profile row id, and the writes. -/
def processProfile (hashOf : Metadata → List OrgPost → String) (db : DBState)
    (feedUrl : String) (meta : Metadata) (posts : List OrgPost) :
    DBState × Nat × List WriteOp :=
  let h := hashOf meta posts
  match db.profiles.find? (fun pr => pr.feed = feedUrl) with
  | none =>
      let row := db.nextId
      ({ db with
          profiles := db.profiles ++
            [⟨row, feedUrl, meta.title, meta.nick, meta.description, meta.avatar, h⟩]
          nextId := row + 1 },
       row, [WriteOp.profileCreateW row])
  | some pr =>
      if pr.version ≠ h then
        ({ db with profiles := db.profiles.map (fun q =>
            if q.rowid = pr.rowid then
              { q with title := meta.title, nick := meta.nick
                       description := meta.description, avatar := meta.avatar
                       version := h }
            else q) },
         pr.rowid, [WriteOp.profileUpdateW pr.rowid])
      else (db, pr.rowid, [])

/-- Wholesale replacement of profile links and contacts (`tasks.py` lines
451-471): both sets are deleted and recreated on every successful scan of
the feed, regardless of the digest.  Duplicate rows raise at `create` and
abort the feed. -/
def linkF (pid : Nat) (acc : DBState × List WriteOp × Bool × List String)
    (v : String) : DBState × List WriteOp × Bool × List String :=
  let (db, w, ab, seen) := acc
  if ab then (db, w, ab, seen)
  else if v ∈ seen then (db, w, true, seen)
  else
    ({ db with
        profileLinks := db.profileLinks ++ [⟨db.nextId, pid, v⟩]
        nextId := db.nextId + 1 },
     w ++ [WriteOp.linkCreateW db.nextId], false, seen ++ [v])

def contactF (pid : Nat)
    (acc : DBState × List WriteOp × Bool × List (String × String))
    (v : String × String) :
    DBState × List WriteOp × Bool × List (String × String) :=
  let (db, w, ab, seen) := acc
  if ab then (db, w, ab, seen)
  else if v ∈ seen then (db, w, true, seen)
  else
    ({ db with
        profileContacts := db.profileContacts ++ [⟨db.nextId, pid, v.1, v.2⟩]
        nextId := db.nextId + 1 },
     w ++ [WriteOp.contactCreateW db.nextId], false, seen ++ [v])

/-- The stripped, non-blank link values of the metadata. -/
def linkValsOf (meta : Metadata) : List String :=
  (meta.links.map pyStrip).filter (fun v => v ≠ "")

/-- The parsed `type: value` contact pairs of the metadata. -/
def contactValsOf (meta : Metadata) : List (String × String) :=
  meta.contacts.filterMap (fun c =>
    let t := pyStrip c
    if t = "" then none
    else if '\x3a' ∈ t.data then
      some (pyStrip (String.mk (t.data.takeWhile (fun ch => ch ≠ '\x3a'))),
            pyStrip (String.mk ((t.data.dropWhile (fun ch => ch ≠ '\x3a')).drop 1)))
    else none)

def replaceLinksContacts (db : DBState) (pid : Nat) (meta : Metadata) :
    DBState × List WriteOp × Bool :=
  let delL := db.profileLinks.filter (fun l => l.profile = pid)
  let delC := db.profileContacts.filter (fun c => c.profile = pid)
  let db1 := { db with
    profileLinks := db.profileLinks.filter (fun l => l.profile ≠ pid)
    profileContacts := db.profileContacts.filter (fun c => c.profile ≠ pid) }
  let wdel := delL.map (fun l => WriteOp.linkDeleteW l.rowid) ++
              delC.map (fun c => WriteOp.contactDeleteW c.rowid)
  let rl := (linkValsOf meta).foldl (linkF pid) (db1, wdel, false, [])
  if rl.2.2.1 then (rl.1, rl.2.1, true)
  else
    let rc := (contactValsOf meta).foldl (contactF pid) (rl.1, rl.2.1, false, [])
    (rc.1, rc.2.1, rc.2.2.1)

/-- The whole per-feed body of `scan_feeds` after a successful fetch and
parse: profile upsert, link/contact replacement, the post loop, and the
removal of deleted posts. -/
def processFeed (gs : String → String) (dateOk : String → Bool)
    (hashOf : Metadata → List OrgPost → String) (db : DBState)
    (feedUrl : String) (meta : Metadata) (posts : List OrgPost) :
    DBState × List Event × List WriteOp :=
  let r1 := processProfile hashOf db feedUrl meta posts
  let pid := r1.2.1
  let r2 := replaceLinksContacts r1.1 pid meta
  if r2.2.2 then (r2.1, [], r1.2.2 ++ r2.2.1)
  else
    let r3 := processPostsFold gs dateOk r2.1 pid feedUrl posts
    if r3.2.2.2 then (r3.1, r3.2.1, r1.2.2 ++ r2.2.1 ++ r3.2.2.1)
    else
      let r4 := removeDeletedPosts r3.1 pid ((posts.map (fun p => p.id)).filter (fun i => i ≠ ""))
      (r4.1, r3.2.1, r1.2.2 ++ r2.2.1 ++ r3.2.2.1 ++ r4.2)

/-! ## Fixtures for the claim theorems -/

/-- A post record with all fields empty. -/
def basePost : PostR := ⟨0, 0, "", "", "", "", "", "", "", "", "", none, 0⟩

/-- A profile record with all fields empty. -/
def baseProfile : ProfileR := ⟨0, "", "", "", "", "", ""⟩

/-- An empty store. -/
def emptyDB : DBState := ⟨[], [], [], [], [], [], [], [], [], 100⟩

/-- The regression document of the spec: a property block with an empty
`:MOOD:` immediately followed by `:POLL_OPTION: X`. -/
def c1Doc : String :=
  "#+TITLE: T\n\n* Posts\n**\n:PROPERTIES:\n:ID: 2025-01-01T00:00:00+00:00\n:MOOD:\n:POLL_OPTION: X\n:END:\nbody text\n"

/-- The document of `test_parse_post_id_priority_header_over_property`:
the identifying timestamp appears both on the `**` marker line and in the
`ID` property. -/
def c7DocPriority : String :=
  "#+TITLE: Test\n#+NICK: test_user\n\n* Posts\n** 2025-01-15T10:00:00+0100\n:PROPERTIES:\n:ID: 2025-01-16T12:00:00+0100\n:END:\n\nThis post has ID in both places. Header should take priority.\n"

/-- The document of `test_parse_post_id_in_header`: the first post carries
its timestamp only on the marker line (v1.6 style), the second only in the
`ID` property. -/
def c7DocHeaderOnly : String :=
  "#+TITLE: Test\n#+NICK: test_user\n\n* Posts\n** 2025-01-15T10:00:00+0100\n:PROPERTIES:\n:LANG: en\n:END:\n\nThis post has ID in the header.\n\n**\n:PROPERTIES:\n:ID: 2025-01-16T12:00:00+0100\n:END:\n\nThis post has ID in properties.\n"

/-- A document with no top-level `* Posts` heading: the only heading is
the level-2 `** Posts`, yet the section search `\*\s+Posts\s*\n` matches
inside it. -/
def c10Doc : String := "** Posts\n**\n:PROPERTIES:\n:ID: x\n:END:\nhi"

/-- Spec-side reading of the claim: a top-level `* Posts` heading is a
line that starts with a single asterisk (not `**`), then whitespace, then
`Posts`.  This definition follows the words of the claim for comparison
with the behaviour of `findPostsSection`. -/
def hasTopLevelPostsHeading (content : String) : Bool :=
  (splitLines content.data).any (fun l =>
    match l with
    | '*' :: c :: rest =>
        if c = '*' then false
        else isWsPy c && ['P', 'o', 's', 't', 's'].isPrefixOf (rest.dropWhile isWsPy)
    | _ => false)

/-- Redirect-merge fixture: both feeds and both profiles exist, each owns
a post with postID `T`, and a third post mentions both the old and the new
profile — the configuration under which the bulk mention update violates
the `(post, mentioned_profile)` unique constraint. -/
def redirectDB : DBState :=
  { emptyDB with
    feeds := [⟨1, "https://old.example/s.org"⟩, ⟨2, "https://new.example/s.org"⟩]
    profiles := [{ baseProfile with rowid := 3, feed := "https://old.example/s.org" },
                 { baseProfile with rowid := 4, feed := "https://new.example/s.org" }]
    posts := [{ basePost with rowid := 10, profile := 3, post_id := "T" },
              { basePost with rowid := 11, profile := 4, post_id := "T" },
              { basePost with rowid := 12, profile := 4, post_id := "S" }]
    mentions := [⟨20, 12, 3, ""⟩, ⟨21, 12, 4, ""⟩] }

/-- Reply-tree fixture: a root post, two plain replies created at times
1 < 2, and a reaction-classified child (empty content, non-empty mood)
created at time 3, all direct children of the root. -/
def repliesDB : DBState :=
  { emptyDB with
    profiles := [{ baseProfile with rowid := 1, feed := "F1" },
                 { baseProfile with rowid := 2, feed := "F2" }]
    posts := [{ basePost with rowid := 3, profile := 1, post_id := "2025-01-01T10:00:00+00:00", createdAt := 0 },
              { basePost with rowid := 4, profile := 2, post_id := "2025-01-01T11:00:00+00:00", reply_to := "F1#2025-01-01T10:00:00+00:00", content := "first reply", createdAt := 1 },
              { basePost with rowid := 5, profile := 2, post_id := "2025-01-01T12:00:00+00:00", reply_to := "F1#2025-01-01T10:00:00+00:00", content := "second reply", createdAt := 2 },
              { basePost with rowid := 6, profile := 1, post_id := "2025-01-01T13:00:00+00:00", reply_to := "F1#2025-01-01T10:00:00+00:00", content := "", mood := "❤", createdAt := 3 }] }

/-- Reaction-classifier fixture: a post with a non-empty mood, a reply
target and a decidedly non-empty content. -/
def reactionsDB : DBState :=
  { emptyDB with
    profiles := [{ baseProfile with rowid := 1, feed := "F" }]
    posts := [{ basePost with rowid := 2, profile := 1, post_id := "x", reply_to := "F#r", mood := "❤", content := "hello with content" }] }

/-- A post replying to itself: `F#1` names the post itself. -/
def cyclePost : PostR :=
  { basePost with rowid := 2, profile := 1, post_id := "1", reply_to := "F#1" }

def cycleDB : DBState :=
  { emptyDB with
    profiles := [{ baseProfile with rowid := 1, feed := "F" }]
    posts := [cyclePost] }

/-- The chain fixture of the spec example: root ← A ← B ← C. -/
def chainDB : DBState :=
  { emptyDB with
    profiles := [{ baseProfile with rowid := 1, feed := "F" }]
    posts := [{ basePost with rowid := 2, profile := 1, post_id := "r" },
              { basePost with rowid := 3, profile := 1, post_id := "a", reply_to := "F#r" },
              { basePost with rowid := 4, profile := 1, post_id := "b", reply_to := "F#a" },
              { basePost with rowid := 5, profile := 1, post_id := "c", reply_to := "F#b" }] }

def chainPostC : PostR :=
  { basePost with rowid := 5, profile := 1, post_id := "c", reply_to := "F#b" }

def chainPostA : PostR :=
  { basePost with rowid := 3, profile := 1, post_id := "a", reply_to := "F#r" }

/-! ## C2 — redirect merge with duplicate posts and conflicting mentions -/

/-- C2, code divergence: with both profiles owning post `T` and post `S`
mentioning both profiles, `_handle_feed_redirect` hits the
`(post, mentioned_profile)` unique constraint during the bulk mention
update (the source comments that no such constraint exists, but
`models.py` declares it): the transaction rolls back and the exception is
swallowed, so the state is returned unchanged — two posts with postID `T`
remain and the old feed is still registered, while the claim requires the
merge to leave exactly one post with that postID. -/
theorem C2_redirect_merge_rolls_back :
    handle_feed_redirect redirectDB "https://old.example/s.org" "https://new.example/s.org"
      = redirectDB ∧
    ((handle_feed_redirect redirectDB "https://old.example/s.org"
        "https://new.example/s.org").posts.filter (fun p => p.post_id = "T")).length = 2 ∧
    ((handle_feed_redirect redirectDB "https://old.example/s.org"
        "https://new.example/s.org").feeds.any
          (fun f => f.url = "https://old.example/s.org")) = true := by
  refine ⟨by decide, by decide, by decide⟩

/-! ## C3 — reply tree: ordering, reactions, moods -/

/-- C3, code divergence: for a root whose direct children are two plain
replies (created at times 1 < 2) and one reaction (created at time 3),
`RepliesView` returns all three as children — the reaction included — in
`created_at`-ascending order, and no node carries any moods grouping
(`RNode` has no such field).  The claim (and the tests in
`app/replies/tests.py`) require the reaction to appear only under `moods`
and the children to be ordered newest first. -/
theorem C3_reaction_listed_as_child_ascending :
    (repliesViewData repliesDB "F1#2025-01-01T10:00:00+00:00" 10).map RNode.post =
      ["F2#2025-01-01T11:00:00+00:00", "F2#2025-01-01T12:00:00+00:00",
       "F1#2025-01-01T13:00:00+00:00"] ∧
    (repliesDB.posts.filter
      (fun p => postUrlOf repliesDB p = "F1#2025-01-01T13:00:00+00:00")).all
        (fun p => p.mood ≠ "" ∧ p.content = "") = true := by
  refine ⟨by decide, by decide⟩

/-! ## C7 — marker-line post ids -/

/-- C7, code divergence: the post-section pattern of
`parse_org_social_content` does not capture the marker line, so a post
carrying its timestamp both on the marker line and in the `ID` property is
assigned the property value (the marker-line value loses), and a post
carrying its timestamp only on the marker line is dropped entirely: the
two-post document of `test_parse_post_id_in_header` parses to a single
post.  The repository tests require the opposite. -/
theorem C7_marker_line_id_ignored :
    (parse_org_social_posts c7DocPriority).map (fun p => p.id) =
      ["2025-01-16T12:00:00+0100"] ∧
    (parse_org_social_posts c7DocHeaderOnly).map (fun p => p.id) =
      ["2025-01-16T12:00:00+0100"] := by
  refine ⟨by decide, by decide⟩

/-! ## C8 — reaction classification without a content check -/

/-- C8, counterexample: a stored post with reply target `F#r`, mood `❤`
and the non-empty content `hello with content` is classified as a reaction
by `get_reactions_for_post`, although the claim requires a reaction to
have empty or whitespace content. -/
theorem C8_counterexample_content_not_checked :
    (get_reactions_for_post reactionsDB "F#r").map (fun p => p.post_id) = ["x"] ∧
    (reactionsDB.posts.filter (fun p => p.post_id = "x")).all
      (fun p => pyStrip p.content ≠ "") = true := by
  refine ⟨by decide, by decide⟩

/-! ## C9 — ancestor chain on a cyclic reply graph -/

/-- C9, counterexample: for a post that replies to itself, the chain
returned by `get_parent_chain` contains the reference of the post itself
(in fact one hundred copies of it), contradicting the claim that the
chain never includes the post. -/
theorem C9_counterexample_cycle_contains_self :
    "F#1" ∈ get_parent_chain cycleDB cyclePost 100 ∧
    cyclePost ∈ cycleDB.posts ∧
    postUrlOf cycleDB cyclePost = "F#1" := by
  refine ⟨by decide, by decide, by decide⟩

/-! ## C10 — posts appear without a top-level Posts heading -/

/-- C10, counterexample: `c10Doc` has no top-level `* Posts` heading (its
only heading line is the level-2 `** Posts`), yet the unanchored search
`\*\s+Posts\s*\n` matches inside that line and the parser returns a
non-empty post list. -/
theorem C10_counterexample_no_toplevel_heading :
    hasTopLevelPostsHeading c10Doc = false ∧
    (parse_org_social_posts c10Doc).map (fun p => p.id) = ["x"] := by
  refine ⟨by decide, by decide⟩

/-! ## Generic membership helpers -/

theorem memDropWhile {α : Type} {p : α → Bool} {l : List α} {a : α}
    (h : a ∈ l.dropWhile p) : a ∈ l := by
  induction l with
  | nil => simp at h
  | cons x l ih =>
      rw [List.dropWhile_cons] at h
      by_cases hx : p x = true
      · rw [if_pos hx] at h
        exact List.mem_cons_of_mem x (ih h)
      · rw [if_neg hx] at h
        exact h

theorem memTakeWhile {α : Type} {p : α → Bool} {l : List α} {a : α}
    (h : a ∈ l.takeWhile p) : a ∈ l := by
  induction l with
  | nil => simp at h
  | cons x l ih =>
      rw [List.takeWhile_cons] at h
      by_cases hx : p x = true
      · rw [if_pos hx] at h
        rcases List.mem_cons.mp h with h1 | h1
        · exact h1 ▸ List.mem_cons_self x l
        · exact List.mem_cons_of_mem x (ih h1)
      · rw [if_neg hx] at h
        simp at h

theorem memDrop {α : Type} : ∀ {n : Nat} {l : List α} {a : α},
    a ∈ l.drop n → a ∈ l
  | 0, _, _, h => h
  | _ + 1, [], _, h => by simp at h
  | n + 1, x :: l, a, h => by
      rw [List.drop_succ_cons] at h
      exact List.mem_cons_of_mem x (memDrop h)

theorem memTake {α : Type} : ∀ {n : Nat} {l : List α} {a : α},
    a ∈ l.take n → a ∈ l
  | 0, _, _, h => by simp at h
  | _ + 1, [], _, h => by simp at h
  | n + 1, x :: l, a, h => by
      rw [List.take_succ_cons] at h
      rcases List.mem_cons.mp h with h1 | h1
      · exact h1 ▸ List.mem_cons_self x l
      · exact List.mem_cons_of_mem x (memTake h1)

theorem memDropLast {α : Type} : ∀ {l : List α} {a : α},
    a ∈ l.dropLast → a ∈ l
  | [], _, h => by simp at h
  | [_], _, h => by simp [List.dropLast] at h
  | x :: y :: l, a, h => by
      rw [show (x :: y :: l).dropLast = x :: (y :: l).dropLast from rfl] at h
      rcases List.mem_cons.mp h with h1 | h1
      · exact h1 ▸ List.mem_cons_self x (y :: l)
      · exact List.mem_cons_of_mem x (memDropLast h1)

theorem memGetLast? {α : Type} : ∀ {l : List α} {a : α},
    l.getLast? = some a → a ∈ l
  | [], _, h => by simp at h
  | [x], a, h => by
      simp [List.getLast?] at h
      exact h ▸ List.mem_cons_self x []
  | x :: y :: l, a, h => by
      rw [show (x :: y :: l).getLast? = (y :: l).getLast? from rfl] at h
      exact List.mem_cons_of_mem x (memGetLast? h)

theorem memTrimChars {l : List Char} {c : Char} (h : c ∈ trimChars l) :
    c ∈ l := by
  unfold trimChars at h
  have h1 := List.mem_reverse.mp h
  have h2 := memDropWhile h1
  have h3 := List.mem_reverse.mp h2
  exact memDropWhile h3

/-! ## C1 machinery: captured property values are single-line and
non-empty -/

/-- The value extracted from a property line is a trimmed portion of that
line: since the line carries no newline, neither does the value. -/
theorem propKV_val_no_newline (l : List Char) (h : '\n' ∉ l) :
    '\n' ∉ (propKV l).2.data := by
  unfold propKV
  split
  · rename_i rest
    intro hmem
    have h1 := memTrimChars hmem
    have h2 := memDrop h1
    have h3 := memDropWhile h2
    exact h (List.mem_cons_of_mem _ h3)
  · intro hmem
    simp at hmem

/-- Members of a dict insertion: either an old pair or the newly written
value. -/
theorem insertAssoc_mem {l : List (String × String)} {k v : String}
    {kv : String × String} (h : kv ∈ insertAssoc l k v) :
    kv ∈ l ∨ kv = (k, v) := by
  induction l with
  | nil =>
      unfold insertAssoc at h
      right
      exact List.mem_singleton.mp h
  | cons p rest ih =>
      obtain ⟨k0, v0⟩ := p
      unfold insertAssoc at h
      by_cases hk : k0 = k
      · rw [if_pos hk] at h
        rcases List.mem_cons.mp h with h1 | h1
        · right; rw [h1, hk]
        · left; exact List.mem_cons_of_mem _ h1
      · rw [if_neg hk] at h
        rcases List.mem_cons.mp h with h1 | h1
        · left; exact h1 ▸ List.mem_cons_self _ rest
        · rcases ih h1 with h2 | h2
          · left; exact List.mem_cons_of_mem _ h2
          · right; exact h2

/-- Invariant of the property fold: every captured value is non-empty and
newline-free. -/
theorem foldProps_values {lines : List (List Char)}
    (h : ∀ l ∈ lines, '\n' ∉ l) :
    ∀ kv ∈ (foldProps lines).1, kv.2 ≠ "" ∧ '\n' ∉ kv.2.data := by
  unfold foldProps
  suffices hgen : ∀ (acc : List (String × String) × String),
      (∀ l ∈ lines, '\n' ∉ l) →
      (∀ kv ∈ acc.1, kv.2 ≠ "" ∧ '\n' ∉ kv.2.data) →
      ∀ kv ∈ (lines.foldl (fun acc l =>
        if (propKV l).2 = "" then acc
        else (insertAssoc acc.1 (propKV l).1 (propKV l).2,
              if (propKV l).1 = "id" then (propKV l).2 else acc.2)) acc).1,
        kv.2 ≠ "" ∧ '\n' ∉ kv.2.data by
    exact hgen ([], "") h (by simp)
  clear h
  induction lines with
  | nil => intro acc _ hacc kv hkv; exact hacc kv hkv
  | cons l rest ih =>
      intro acc h hacc kv hkv
      rw [List.foldl_cons] at hkv
      refine ih _ (fun x hx => h x (List.mem_cons_of_mem l hx)) ?_ kv hkv
      intro kv2 hkv2
      by_cases hv : (propKV l).2 = ""
      · rw [if_pos hv] at hkv2
        exact hacc kv2 hkv2
      · rw [if_neg hv] at hkv2
        rcases insertAssoc_mem hkv2 with h1 | h1
        · exact hacc kv2 h1
        · rw [h1]
          exact ⟨hv, propKV_val_no_newline l (h l (List.mem_cons_self l rest))⟩

/-! ## C1 machinery: property lines come from the section body -/

theorem backtrackEnd_sub {R afterLines props content : List (List Char)}
    (hmm : backtrackEnd R afterLines = some (props, content)) :
    ∀ l ∈ props, l ∈ R := by
  unfold backtrackEnd at hmm
  cases hidx : R.reverse.findIdx? isEndLine with
  | none => rw [hidx] at hmm; simp at hmm
  | some i =>
      rw [hidx] at hmm
      simp only [Option.some.injEq, Prod.mk.injEq] at hmm
      intro l hl
      rw [← hmm.1] at hl
      exact memTake hl

theorem parsePropsBlock_sub {tagged : List (List Char × Bool)}
    {props content : List (List Char)}
    (hpb : parsePropsBlock tagged = some (props, content)) :
    ∀ l ∈ props, ∃ b, (l, b) ∈ tagged := by
  unfold parsePropsBlock at hpb
  split at hpb
  · rename_i l0 rest
    by_cases hop : isPropsOpener l0 = true
    · rw [if_pos hop] at hpb
      have hR : ∀ l, l ∈ ((rest.dropWhile (fun p => wsOnly p.1 && p.2)).takeWhile
          (fun p => propShaped p.1 && p.2)).map (fun p => p.1) →
          ∃ b, (l, b) ∈ rest := by
        intro l hl
        obtain ⟨pr, hpr, hpre⟩ := List.mem_map.mp hl
        refine ⟨pr.2, ?_⟩
        have h1 := memDropWhile (memTakeWhile hpr)
        rw [← hpre]
        simpa using h1
      dsimp only at hpb
      split at hpb
      · rename_i la rest3 heq
        by_cases hend : isEndLine la = true
        · rw [if_pos hend] at hpb
          simp only [Option.some.injEq, Prod.mk.injEq] at hpb
          intro l hl
          obtain ⟨b, hb⟩ := hR l (hpb.1 ▸ hl)
          exact ⟨b, List.mem_cons_of_mem _ hb⟩
        · rw [if_neg hend] at hpb
          intro l hl
          obtain ⟨b, hb⟩ := hR l (backtrackEnd_sub hpb l hl)
          exact ⟨b, List.mem_cons_of_mem _ hb⟩
      · intro l hl
        obtain ⟨b, hb⟩ := hR l (backtrackEnd_sub hpb l hl)
        exact ⟨b, List.mem_cons_of_mem _ hb⟩
    · rw [if_neg hop] at hpb
      simp at hpb
  · simp at hpb

theorem tagNewlines_mem {body : List (List Char)} {fin : Bool}
    {l : List Char} {b : Bool} (h : (l, b) ∈ tagNewlines body fin) :
    l ∈ body := by
  unfold tagNewlines at h
  by_cases hf : fin = true
  · rw [if_pos hf] at h
    rcases List.mem_append.mp h with h1 | h1
    · obtain ⟨x, hx, hxe⟩ := List.mem_map.mp h1
      have hxl : x = l := (Prod.mk.injEq _ _ _ _ ▸ hxe).1
      exact memDropLast (hxl ▸ hx)
    · cases hlast : body.getLast? with
      | none => rw [hlast] at h1; simp at h1
      | some x =>
          rw [hlast] at h1
          have hxl : l = x := by
            have := List.mem_singleton.mp h1
            exact (Prod.mk.injEq _ _ _ _ ▸ this).1
          exact hxl ▸ memGetLast? hlast
  · rw [if_neg hf] at h
    obtain ⟨x, hx, hxe⟩ := List.mem_map.mp h
    have hxl : x = l := (Prod.mk.injEq _ _ _ _ ▸ hxe).1
    exact hxl ▸ hx

theorem sectionsAcc_sub :
    ∀ (lines : List (List Char)) (acc : Option (List (List Char)))
      (sec : List (List Char) × Bool), sec ∈ sectionsAcc lines acc →
      ∀ l ∈ sec.1, l ∈ lines ∨ ∃ a, acc = some a ∧ l ∈ a := by
  intro lines
  induction lines with
  | nil =>
      intro acc sec hsec l hl
      cases acc with
      | none => simp [sectionsAcc] at hsec
      | some a =>
          right
          refine ⟨a, rfl, ?_⟩
          have hs := List.mem_singleton.mp hsec
          rw [hs] at hl
          exact List.mem_reverse.mp hl
  | cons x rest ih =>
      intro acc sec hsec l hl
      cases acc with
      | none =>
          unfold sectionsAcc at hsec
          by_cases hm : isMarkerLine x = true
          · rw [if_pos hm] at hsec
            by_cases he : rest.isEmpty = true
            · rw [if_pos he] at hsec; simp at hsec
            · rw [if_neg he] at hsec
              rcases ih (some []) sec hsec l hl with h1 | ⟨a, ha, hla⟩
              · exact Or.inl (List.mem_cons_of_mem x h1)
              · simp only [Option.some.injEq] at ha
                rw [← ha] at hla
                simp at hla
          · rw [if_neg hm] at hsec
            rcases ih none sec hsec l hl with h1 | ⟨a, ha, _⟩
            · exact Or.inl (List.mem_cons_of_mem x h1)
            · simp at ha
      | some a =>
          unfold sectionsAcc at hsec
          by_cases hm : isMarkerLine x = true
          · rw [if_pos hm] at hsec
            rcases List.mem_cons.mp hsec with h1 | h1
            · right
              refine ⟨a, rfl, ?_⟩
              rw [h1] at hl
              exact List.mem_reverse.mp hl
            · by_cases he : rest.isEmpty = true
              · rw [if_pos he] at h1; simp at h1
              · rw [if_neg he] at h1
                rcases ih (some []) sec h1 l hl with h2 | ⟨a2, ha2, hla2⟩
                · exact Or.inl (List.mem_cons_of_mem x h2)
                · simp only [Option.some.injEq] at ha2
                  rw [← ha2] at hla2
                  simp at hla2
          · rw [if_neg hm] at hsec
            rcases ih (some (x :: a)) sec hsec l hl with h1 | ⟨a2, ha2, hla2⟩
            · exact Or.inl (List.mem_cons_of_mem x h1)
            · simp only [Option.some.injEq] at ha2
              rw [← ha2] at hla2
              rcases List.mem_cons.mp hla2 with h2 | h2
              · exact Or.inl (h2 ▸ List.mem_cons_self x rest)
              · exact Or.inr ⟨a, rfl, h2⟩

theorem splitSections_sub {lines : List (List Char)}
    {sec : List (List Char) × Bool} (hsec : sec ∈ splitSections lines)
    {l : List Char} (hl : l ∈ sec.1) : l ∈ lines := by
  rcases sectionsAcc_sub lines none sec hsec l hl with h | ⟨a, ha, _⟩
  · exact h
  · exact absurd ha (by simp)

/-- Every captured property of a built post is non-empty and single-line,
provided the body lines carry no newline. -/
theorem postOfSection_prop_values (body : List (List Char)) (fin : Bool)
    (h : ∀ l ∈ body, '\n' ∉ l) :
    ∀ kv ∈ (postOfSection body fin).properties,
      kv.2 ≠ "" ∧ '\n' ∉ kv.2.data := by
  unfold postOfSection
  cases hpb : parsePropsBlock (tagNewlines body fin) with
  | none =>
      intro kv hkv
      simp [postOfParts, foldProps] at hkv
  | some r =>
      obtain ⟨props, content⟩ := r
      intro kv hkv
      refine foldProps_values ?_ kv hkv
      intro l hl
      obtain ⟨b, hb⟩ := parsePropsBlock_sub hpb l hl
      exact h l (tagNewlines_mem hb)

/-- The concrete post parsed from the regression document `c1Doc`. -/
def c1Post : OrgPost :=
  { id := "2025-01-01T00:00:00+00:00"
    content := "body text"
    properties := [("id", "2025-01-01T00:00:00+00:00"), ("poll_option", "X")]
    mentions := []
    pollOptions := [] }

/-- C1: on the regression document, the empty-valued `:MOOD:` property is
not captured: the parsed post has no `mood` key and `poll_option` is
exactly `X` (the mood capture did not swallow the following line).  In
general, every captured property value of every parsed post of every
document is non-empty and contains no newline, so no value extends past
its end-of-line into a following `:KEY:` line. -/
theorem C1_empty_property_never_captured :
    ((parse_org_social_posts c1Doc).map
        (fun p => (p.properties.lookup "mood", p.properties.lookup "poll_option"))
      = [(none, some "X")]) ∧
    (∀ content : String, ∀ p ∈ parse_org_social_posts content,
      ∀ kv ∈ p.properties, kv.2 ≠ "" ∧ '\n' ∉ kv.2.data) := by
  constructor
  · decide
  · intro content p hp kv hkv
    unfold parse_org_social_posts at hp
    cases hfind : findPostsSection content.data with
    | none => rw [hfind] at hp; simp at hp
    | some g =>
        rw [hfind] at hp
        have hp2 := (List.mem_filter.mp hp).1
        obtain ⟨sec, hsec, hpe⟩ := List.mem_map.mp hp2
        rw [← hpe] at hkv
        refine postOfSection_prop_values sec.1 sec.2 ?_ kv hkv
        intro l hl
        exact splitLines_no_newline g l (splitSections_sub hsec hl)

/-- Witness for C1 at the regression document: the captured id property of
the parsed post is non-empty and single-line. -/
theorem C1_empty_property_never_captured_witness :
    (("id", "2025-01-01T00:00:00+00:00") : String × String).2 ≠ "" ∧
    '\n' ∉ (("id", "2025-01-01T00:00:00+00:00") : String × String).2.data :=
  C1_empty_property_never_captured.2 c1Doc c1Post (by decide)
    ("id", "2025-01-01T00:00:00+00:00") (by decide)

/-! ## C8 amended: the classification actually implemented -/

theorem mem_insDescByPostId {x a : PostR} {l : List PostR} :
    a ∈ insDescByPostId x l ↔ a = x ∨ a ∈ l := by
  induction l with
  | nil => simp [insDescByPostId]
  | cons y ys ih =>
      unfold insDescByPostId
      by_cases hc : y.post_id < x.post_id
      · simp only [if_pos hc, List.mem_cons]
      · simp only [if_neg hc, List.mem_cons, ih]
        tauto

theorem mem_sortByPostIdDesc {a : PostR} {l : List PostR} :
    a ∈ sortByPostIdDesc l ↔ a ∈ l := by
  induction l with
  | nil => simp [sortByPostIdDesc]
  | cons y ys ih =>
      unfold sortByPostIdDesc
      rw [mem_insDescByPostId, List.mem_cons, ih]

/-- The reaction-classifier fixture post. -/
def c8Post : PostR :=
  { basePost with rowid := 2, profile := 1, post_id := "x", reply_to := "F#r", mood := "❤", content := "hello with content" }

/-- C8 amended: the read path classifies a stored post as a reaction to a
reference iff it replies to that reference with a non-empty mood and is
not a registered poll vote — the content is not consulted and boosts are
not excluded; it classifies it as a plain reply iff it replies to the
reference with an empty mood and is not a registered poll vote.  The two
sets are disjoint. -/
theorem C8_amended_read_classification :
    (∀ (db : DBState) (ref : String) (q : PostR),
        q ∈ get_reactions_for_post db ref ↔
          (q ∈ db.posts ∧ q.reply_to = ref ∧ q.mood ≠ "" ∧ isVotePost db q = false)) ∧
    (∀ (db : DBState) (ref : String) (q : PostR),
        q ∈ get_direct_replies_for_post db ref ↔
          (q ∈ db.posts ∧ q.reply_to = ref ∧ q.mood = "" ∧ isVotePost db q = false)) ∧
    (∀ (db : DBState) (ref : String) (q : PostR),
        q ∈ get_reactions_for_post db ref →
          q ∉ get_direct_replies_for_post db ref) := by
  have hreac : ∀ (db : DBState) (ref : String) (q : PostR),
      q ∈ get_reactions_for_post db ref ↔
        (q ∈ db.posts ∧ q.reply_to = ref ∧ q.mood ≠ "" ∧ isVotePost db q = false) := by
    intro db ref q
    unfold get_reactions_for_post
    rw [mem_sortByPostIdDesc, List.mem_filter]
    simp [Bool.not_eq_true, and_assoc]
  have hrep : ∀ (db : DBState) (ref : String) (q : PostR),
      q ∈ get_direct_replies_for_post db ref ↔
        (q ∈ db.posts ∧ q.reply_to = ref ∧ q.mood = "" ∧ isVotePost db q = false) := by
    intro db ref q
    unfold get_direct_replies_for_post
    rw [mem_sortByPostIdDesc, List.mem_filter]
    simp [Bool.not_eq_true, and_assoc]
  refine ⟨hreac, hrep, ?_⟩
  intro db ref q hq hq2
  have h1 := (hreac db ref q).mp hq
  have h2 := (hrep db ref q).mp hq2
  exact h1.2.2.1 h2.2.2.1

/-- Witness for C8 amended: the fixture reaction is classified as a
reaction and therefore not as a plain reply. -/
theorem C8_amended_read_classification_witness :
    c8Post ∉ get_direct_replies_for_post reactionsDB "F#r" :=
  C8_amended_read_classification.2.2 reactionsDB "F#r" c8Post (by decide)

/-! ## C9 amended: bounded chains, root-to-parent order -/

theorem parentChainGo_length_le (db : DBState) :
    ∀ (fuel : Nat) (cur : String),
      (parentChainGo db cur fuel).length ≤ fuel := by
  intro fuel
  induction fuel with
  | zero => intro cur; simp [parentChainGo]
  | succ n ih =>
      intro cur
      unfold parentChainGo
      by_cases hc : cur = ""
      · simp [hc]
      · rw [if_neg hc]
        cases resolveParent db cur with
        | none => simp
        | some nxt =>
            simp only [List.length_cons, Nat.succ_le_succ_iff]
            exact ih nxt

/-- C9 amended: the ancestor chain always terminates with at most
`maxDepth` references; it stops at a dangling reference, a missing target
or the depth bound, and runs from the root to the immediate parent (the
chain for root ← A ← B ← C is `[root, A, B]` and the chain of a direct
reply is `[root]`).  On a cyclic reply graph the traversal still
terminates via the depth bound, but the chain may contain the reference
of the post itself. -/
theorem C9_amended_chain_bounded :
    (∀ (db : DBState) (p : PostR) (maxDepth : Nat),
        (get_parent_chain db p maxDepth).length ≤ maxDepth) ∧
    get_parent_chain chainDB chainPostC 100 = ["F#r", "F#a", "F#b"] ∧
    get_parent_chain chainDB chainPostA 100 = ["F#r"] := by
  refine ⟨?_, by decide, by decide⟩
  intro db p maxDepth
  unfold get_parent_chain
  by_cases h : p.reply_to = ""
  · simp [h]
  · rw [if_neg h, List.length_reverse]
    exact parentChainGo_length_le db maxDepth p.reply_to

/-! ## C10 amended: the unanchored marker search gates the post list -/

/-- C10 amended: posts are produced only when the posts-section pattern
(an asterisk, whitespace, `Posts`, whitespace ending in a newline) matches
somewhere in the document — not necessarily as a top-level heading; when
it matches nowhere the parser returns an empty list, and every returned
post has a non-empty id. -/
theorem C10_amended_marker_gates_posts :
    (∀ content : String, findPostsSection content.data = none →
        parse_org_social_posts content = []) ∧
    (∀ content : String, ∀ p ∈ parse_org_social_posts content, p.id ≠ "") := by
  constructor
  · intro content h
    unfold parse_org_social_posts
    rw [h]
  · intro content p hp
    unfold parse_org_social_posts at hp
    cases hfind : findPostsSection content.data with
    | none => rw [hfind] at hp; simp at hp
    | some g =>
        rw [hfind] at hp
        have h2 := (List.mem_filter.mp hp).2
        exact of_decide_eq_true h2

/-- Witness for C10 amended at a document without the marker pattern. -/
theorem C10_amended_marker_gates_posts_witness :
    parse_org_social_posts "no heading here" = [] :=
  C10_amended_marker_gates_posts.1 "no heading here" (by decide)

/-! ## C6: deletion propagation -/

/-- C6: when the stored posts of a profile are exactly `[A, B, C]` (with
pairwise distinct post ids) and the current parse yields exactly the ids
of `A` and `C`, the deletion step removes exactly the row of `B` together
with the poll options, poll votes (in either role) and mentions that
reference `B`, leaves every other record — in particular `A`, `C` and
their child records — untouched, and issues exactly one delete. -/
theorem C6_sync_deletes_exactly_B
    (db : DBState) (profId : Nat) (A B C : PostR)
    (hfilter : db.posts.filter (fun p => p.profile = profId) = [A, B, C])
    (hAB : A.post_id ≠ B.post_id) (hBC : B.post_id ≠ C.post_id)
    (hAC : A.post_id ≠ C.post_id) :
    (removeDeletedPosts db profId [A.post_id, C.post_id]).1 =
      { db with
        posts := db.posts.filter
          (fun p => ¬(p.profile = profId ∧ p.post_id = B.post_id))
        pollOptions := db.pollOptions.filter (fun o => o.post ≠ B.rowid)
        pollVotes := db.pollVotes.filter
          (fun v => v.post ≠ B.rowid ∧ v.poll_post ≠ B.rowid)
        mentions := db.mentions.filter (fun m => m.post ≠ B.rowid) } ∧
    (removeDeletedPosts db profId [A.post_id, C.post_id]).2 =
      [WriteOp.postDeleteW B.rowid] ∧
    A ∈ (removeDeletedPosts db profId [A.post_id, C.post_id]).1.posts ∧
    C ∈ (removeDeletedPosts db profId [A.post_id, C.post_id]).1.posts := by
  have hdel : deletedIdsOf db profId [A.post_id, C.post_id] = [B.post_id] := by
    unfold deletedIdsOf
    rw [hfilter]
    simp [hAB.symm, hBC]
  have hvict : victimsOf db profId [A.post_id, C.post_id] = [B.rowid] := by
    unfold victimsOf
    rw [hdel]
    have hcongr : db.posts.filter
        (fun p => p.profile = profId ∧ p.post_id ∈ [B.post_id]) =
        (db.posts.filter (fun p => p.profile = profId)).filter
          (fun p => p.post_id ∈ [B.post_id]) := by
      rw [List.filter_filter]
      apply List.filter_congr
      intro p _
      simp
      rw [Bool.and_comm]
    rw [hcongr, hfilter]
    simp [hAB, hBC.symm]
  have hne : (deletedIdsOf db profId [A.post_id, C.post_id]).isEmpty = false := by
    rw [hdel]; rfl
  have hposts : db.posts.filter (fun p =>
      ¬(p.profile = profId ∧ p.post_id ∈ deletedIdsOf db profId [A.post_id, C.post_id])) =
      db.posts.filter (fun p => ¬(p.profile = profId ∧ p.post_id = B.post_id)) := by
    rw [hdel]
    apply List.filter_congr
    intro p _
    simp
  have hopts : db.pollOptions.filter
      (fun o => o.post ∉ victimsOf db profId [A.post_id, C.post_id]) =
      db.pollOptions.filter (fun o => o.post ≠ B.rowid) := by
    rw [hvict]
    apply List.filter_congr
    intro o _
    simp
  have hvotes : db.pollVotes.filter (fun v =>
      v.post ∉ victimsOf db profId [A.post_id, C.post_id] ∧
      v.poll_post ∉ victimsOf db profId [A.post_id, C.post_id]) =
      db.pollVotes.filter (fun v => v.post ≠ B.rowid ∧ v.poll_post ≠ B.rowid) := by
    rw [hvict]
    apply List.filter_congr
    intro v _
    simp
  have hment : db.mentions.filter
      (fun m => m.post ∉ victimsOf db profId [A.post_id, C.post_id]) =
      db.mentions.filter (fun m => m.post ≠ B.rowid) := by
    rw [hvict]
    apply List.filter_congr
    intro m _
    simp
  have hres : removeDeletedPosts db profId [A.post_id, C.post_id] =
      ({ db with
          posts := db.posts.filter
            (fun p => ¬(p.profile = profId ∧ p.post_id = B.post_id))
          pollOptions := db.pollOptions.filter (fun o => o.post ≠ B.rowid)
          pollVotes := db.pollVotes.filter
            (fun v => v.post ≠ B.rowid ∧ v.poll_post ≠ B.rowid)
          mentions := db.mentions.filter (fun m => m.post ≠ B.rowid) },
       [WriteOp.postDeleteW B.rowid]) := by
    unfold removeDeletedPosts
    rw [hne]
    simp only [Bool.false_eq_true, if_false]
    rw [hposts, hopts, hvotes, hment, hvict]
    rfl
  have hmemA : A ∈ db.posts ∧ A.profile = profId := by
    have h1 : A ∈ db.posts.filter (fun p => p.profile = profId) := by
      rw [hfilter]; simp
    have h2 := List.mem_filter.mp h1
    exact ⟨h2.1, of_decide_eq_true h2.2⟩
  have hmemC : C ∈ db.posts ∧ C.profile = profId := by
    have h1 : C ∈ db.posts.filter (fun p => p.profile = profId) := by
      rw [hfilter]; simp
    have h2 := List.mem_filter.mp h1
    exact ⟨h2.1, of_decide_eq_true h2.2⟩
  refine ⟨by rw [hres], by rw [hres], ?_, ?_⟩
  · rw [hres]
    refine List.mem_filter.mpr ⟨hmemA.1, ?_⟩
    exact decide_eq_true (by exact fun hcon => hAB hcon.2)
  · rw [hres]
    refine List.mem_filter.mpr ⟨hmemC.1, ?_⟩
    exact decide_eq_true (by exact fun hcon => hBC hcon.2.symm)

/-- Concrete store for the C6 witness: profile 1 stores posts `a`, `b`,
`c`; `b` has a poll option, a vote cast by `a` on it, and a mention; `a`
has a mention of its own. -/
def c6A : PostR := { basePost with rowid := 2, profile := 1, post_id := "a" }
def c6B : PostR := { basePost with rowid := 3, profile := 1, post_id := "b" }
def c6C : PostR := { basePost with rowid := 4, profile := 1, post_id := "c" }

def c6DB : DBState :=
  { emptyDB with
    profiles := [{ baseProfile with rowid := 1, feed := "F" }]
    posts := [c6A, c6B, c6C]
    pollOptions := [⟨10, 3, "o1", 0⟩]
    pollVotes := [⟨11, 2, 3, "o1"⟩]
    mentions := [⟨12, 3, 1, ""⟩, ⟨13, 2, 1, ""⟩] }

/-- Witness for C6 at the concrete store: the deletion step deletes the
row of `b`, cascades to the vote on `b` and the mention of `b`, and keeps
the posts `a` and `c` with the mention of `a`. -/
theorem C6_sync_deletes_exactly_B_witness :
    (removeDeletedPosts c6DB 1 [c6A.post_id, c6C.post_id]).1 =
      { c6DB with
        posts := c6DB.posts.filter
          (fun p => ¬(p.profile = 1 ∧ p.post_id = c6B.post_id))
        pollOptions := c6DB.pollOptions.filter (fun o => o.post ≠ c6B.rowid)
        pollVotes := c6DB.pollVotes.filter
          (fun v => v.post ≠ c6B.rowid ∧ v.poll_post ≠ c6B.rowid)
        mentions := c6DB.mentions.filter (fun m => m.post ≠ c6B.rowid) } ∧
    (removeDeletedPosts c6DB 1 [c6A.post_id, c6C.post_id]).2 =
      [WriteOp.postDeleteW c6B.rowid] ∧
    c6A ∈ (removeDeletedPosts c6DB 1 [c6A.post_id, c6C.post_id]).1.posts ∧
    c6C ∈ (removeDeletedPosts c6DB 1 [c6A.post_id, c6C.post_id]).1.posts :=
  C6_sync_deletes_exactly_B c6DB 1 c6A c6B c6C (by decide) (by decide)
    (by decide) (by decide)

/-! ## C4 machinery: event classifiers, frame lemmas, mention specs -/

def isMentionEvent : Event → Bool
  | .mention _ _ => true
  | _ => false

def isReactionEvent : Event → Bool
  | .reaction _ _ _ _ => true
  | _ => false

def isReplyEvent : Event → Bool
  | .reply _ _ _ => true
  | _ => false

def isBoostEvent : Event → Bool
  | .boost _ _ _ => true
  | _ => false

/-- A parsed mention that cannot lead to a new `Mention` row for the post:
its stripped URL is empty, its base URL resolves to no stored profile, or
the `(post, profile)` row already exists. -/
def mentionKnown (db : DBState) (postRow : Nat) (m : String × String) : Prop :=
  pyStrip m.1 = "" ∨
  (match db.profiles.find? (fun pr => pr.feed = mentionBase m) with
   | none => True
   | some mp => ∃ mr ∈ db.mentions, mr.post = postRow ∧ mr.mentioned_profile = mp.rowid)

theorem mentionKnown_congr {db1 db2 : DBState} {postRow : Nat}
    {m : String × String} (hm : db1.mentions = db2.mentions)
    (hp : db1.profiles = db2.profiles) (h : mentionKnown db1 postRow m) :
    mentionKnown db2 postRow m := by
  unfold mentionKnown at h ⊢
  rw [← hm, ← hp]
  exact h

/-- Generic preservation through a left fold. -/
theorem foldl_preserve {α β : Type} (f : β → α → β) (P : β → Prop)
    (hstep : ∀ b a, P b → P (f b a)) :
    ∀ (l : List α) (b : β), P b → P (l.foldl f b) := by
  intro l
  induction l with
  | nil => intro b hb; exact hb
  | cons x xs ih => intro b hb; exact ih _ (hstep b x hb)

theorem handlePollEnd_frame (dateOk : String → Bool) (db : DBState)
    (postRow : Nat) (props : List (String × String)) :
    (handlePollEnd dateOk db postRow props).1.mentions = db.mentions ∧
    (handlePollEnd dateOk db postRow props).1.profiles = db.profiles := by
  unfold handlePollEnd
  dsimp only
  split
  · exact ⟨rfl, rfl⟩
  · exact ⟨rfl, rfl⟩

theorem replacePollOptions_frame (db : DBState) (postRow : Nat)
    (opts : List String) :
    (replacePollOptions db postRow opts).1.mentions = db.mentions ∧
    (replacePollOptions db postRow opts).1.profiles = db.profiles := by
  unfold replacePollOptions
  by_cases he : opts.isEmpty = true
  · rw [if_pos he]
    exact ⟨rfl, rfl⟩
  · rw [if_neg he]
    dsimp only
    refine foldl_preserve _
      (fun (acc : DBState × List WriteOp × Bool × List String × Nat) =>
        acc.1.mentions = db.mentions ∧ acc.1.profiles = db.profiles)
      ?_ opts _ ⟨rfl, rfl⟩
    intro acc t hP
    obtain ⟨d, w, ab, seen, i⟩ := acc
    unfold pollOptF
    dsimp only
    by_cases hab : ab = true
    · rw [if_pos hab]; exact hP
    · rw [if_neg hab]
      by_cases hs : t ∈ seen
      · rw [if_pos hs]; exact hP
      · rw [if_neg hs]; exact hP

theorem handlePollVote_frame (db : DBState) (postRow : Nat)
    (props : List (String × String)) :
    (handlePollVote db postRow props).1.mentions = db.mentions ∧
    (handlePollVote db postRow props).1.profiles = db.profiles := by
  unfold handlePollVote
  dsimp only
  constructor
  all_goals repeat' split
  all_goals rfl

theorem mentionStep_spec (db : DBState) (feedUrl postId : String)
    (postRow : Nat) (snapshot : List String) (m : String × String) :
    (∀ e ∈ (mentionStep db feedUrl postId postRow snapshot m).2.1,
        isMentionEvent e = true) ∧
    (mentionStep db feedUrl postId postRow snapshot m).1.mentions.length =
      db.mentions.length +
        (mentionStep db feedUrl postId postRow snapshot m).2.1.length ∧
    (mentionStep db feedUrl postId postRow snapshot m).1.profiles =
      db.profiles := by
  unfold mentionStep
  repeat' split
  all_goals refine ⟨?_, ?_, rfl⟩
  all_goals simp [isMentionEvent, List.length_append]

theorem mentionStep_known (db : DBState) (feedUrl postId : String)
    (postRow : Nat) (snapshot : List String) (m : String × String)
    (h : mentionKnown db postRow m) :
    mentionStep db feedUrl postId postRow snapshot m = (db, [], []) := by
  unfold mentionKnown at h
  unfold mentionStep
  rcases h with h | h
  · rw [if_pos h]
  · by_cases hu : pyStrip m.1 = ""
    · rw [if_pos hu]
    · rw [if_neg hu]
      cases hfind : db.profiles.find? (fun pr => pr.feed = mentionBase m) with
      | none => rfl
      | some mp =>
          rw [hfind] at h
          obtain ⟨mr, hmr, hpost, hprof⟩ := h
          dsimp only
          by_cases hsnap : mentionBase m ∈ snapshot
          · rw [if_pos hsnap]
          · rw [if_neg hsnap]
            cases hf : db.mentions.find? (fun r =>
                r.post = postRow ∧ r.mentioned_profile = mp.rowid) with
            | some _ => rfl
            | none =>
                exfalso
                have := List.find?_eq_none.mp hf mr hmr
                exact this (decide_eq_true ⟨hpost, hprof⟩)

theorem processMentions_spec (feedUrl postId : String) (postRow : Nat)
    (snapshot : List String) :
    ∀ (ms : List (String × String)) (db : DBState),
      (∀ e ∈ (processMentions db feedUrl postId postRow snapshot ms).2.1,
          isMentionEvent e = true) ∧
      (processMentions db feedUrl postId postRow snapshot ms).1.mentions.length =
        db.mentions.length +
          (processMentions db feedUrl postId postRow snapshot ms).2.1.length ∧
      (processMentions db feedUrl postId postRow snapshot ms).1.profiles =
        db.profiles := by
  intro ms
  induction ms with
  | nil =>
      intro db
      refine ⟨?_, ?_, rfl⟩
      · intro e he; simp [processMentions] at he
      · simp [processMentions]
  | cons m rest ih =>
      intro db
      have hstep := mentionStep_spec db feedUrl postId postRow snapshot m
      have hrec := ih (mentionStep db feedUrl postId postRow snapshot m).1
      unfold processMentions
      dsimp only
      refine ⟨?_, ?_, hrec.2.2.trans hstep.2.2⟩
      · intro e he
        rcases List.mem_append.mp he with h1 | h1
        · exact hstep.1 e h1
        · exact hrec.1 e h1
      · rw [hrec.2.1, hstep.2.1, List.length_append]
        omega

theorem processMentions_known (feedUrl postId : String) (postRow : Nat)
    (snapshot : List String) :
    ∀ (ms : List (String × String)) (db : DBState),
      (∀ m ∈ ms, mentionKnown db postRow m) →
      processMentions db feedUrl postId postRow snapshot ms = (db, [], []) := by
  intro ms
  induction ms with
  | nil => intro db _; rfl
  | cons m rest ih =>
      intro db h
      have hs := mentionStep_known db feedUrl postId postRow snapshot m
        (h m (List.mem_cons_self m rest))
      unfold processMentions
      dsimp only
      rw [hs]
      rw [ih db (fun x hx => h x (List.mem_cons_of_mem m hx))]
      rfl

/-! ## postSharedSteps and event-part specifications -/

theorem filterAllFalse {α : Type} {f : α → Bool} :
    ∀ l : List α, (∀ e ∈ l, f e = false) → l.filter f = [] := by
  intro l
  induction l with
  | nil => intro _; rfl
  | cons x xs ih =>
      intro h
      rw [List.filter_cons, h x (List.mem_cons_self x xs)]
      simp only [Bool.false_eq_true, if_false]
      exact ih (fun e he => h e (List.mem_cons_of_mem x he))

theorem filterAllTrue {α : Type} {f : α → Bool} :
    ∀ l : List α, (∀ e ∈ l, f e = true) → l.filter f = l := by
  intro l
  induction l with
  | nil => intro _; rfl
  | cons x xs ih =>
      intro h
      rw [List.filter_cons, h x (List.mem_cons_self x xs), if_pos rfl]
      rw [ih (fun e he => h e (List.mem_cons_of_mem x he))]

theorem mention_not_others {e : Event} (h : isMentionEvent e = true) :
    isReactionEvent e = false ∧ isReplyEvent e = false ∧
    isBoostEvent e = false := by
  cases e <;> simp_all [isMentionEvent, isReactionEvent, isReplyEvent, isBoostEvent]

/-- The events of the shared steps are the passed-in creation events
followed by mention events only, one per mention row actually created. -/
theorem postSharedSteps_spec (dateOk : String → Bool) (db : DBState)
    (feedUrl : String) (pd : OrgPost) (postRow : Nat)
    (w0 : List WriteOp) (evs0 : List Event) :
    ∃ mevs,
      (postSharedSteps dateOk db feedUrl pd postRow w0 evs0).2.1 = evs0 ++ mevs ∧
      (∀ e ∈ mevs, isMentionEvent e = true) ∧
      (postSharedSteps dateOk db feedUrl pd postRow w0 evs0).1.mentions.length =
        db.mentions.length + mevs.length := by
  unfold postSharedSteps
  dsimp only
  by_cases hab : (replacePollOptions
      (handlePollEnd dateOk db postRow pd.properties).1 postRow
        pd.pollOptions).2.2 = true
  · rw [if_pos hab]
    refine ⟨[], (List.append_nil evs0).symm, by simp, ?_⟩
    have h1 := (replacePollOptions_frame
      (handlePollEnd dateOk db postRow pd.properties).1 postRow pd.pollOptions).1
    have h2 := (handlePollEnd_frame dateOk db postRow pd.properties).1
    rw [h1, h2]
    simp
  · rw [if_neg hab]
    have h1 := (handlePollVote_frame (replacePollOptions
      (handlePollEnd dateOk db postRow pd.properties).1 postRow
        pd.pollOptions).1 postRow pd.properties).1
    have h2 := (replacePollOptions_frame
      (handlePollEnd dateOk db postRow pd.properties).1 postRow pd.pollOptions).1
    have h3 := (handlePollEnd_frame dateOk db postRow pd.properties).1
    have hm := processMentions_spec feedUrl pd.id postRow
      (mentionFeedsOf (handlePollVote (replacePollOptions
        (handlePollEnd dateOk db postRow pd.properties).1 postRow
          pd.pollOptions).1 postRow pd.properties).1 postRow)
      pd.mentions
      (handlePollVote (replacePollOptions
        (handlePollEnd dateOk db postRow pd.properties).1 postRow
          pd.pollOptions).1 postRow pd.properties).1
    refine ⟨_, rfl, hm.1, ?_⟩
    rw [hm.2.1, h1, h2, h3]

/-- With every parsed mention already known, the shared steps publish
exactly the passed-in creation events. -/
theorem postSharedSteps_known (dateOk : String → Bool) (db : DBState)
    (feedUrl : String) (pd : OrgPost) (postRow : Nat)
    (w0 : List WriteOp) (evs0 : List Event)
    (hknown : ∀ m ∈ pd.mentions, mentionKnown db postRow m) :
    (postSharedSteps dateOk db feedUrl pd postRow w0 evs0).2.1 = evs0 := by
  unfold postSharedSteps
  dsimp only
  by_cases hab : (replacePollOptions
      (handlePollEnd dateOk db postRow pd.properties).1 postRow
        pd.pollOptions).2.2 = true
  · rw [if_pos hab]
  · rw [if_neg hab]
    have h1 := handlePollVote_frame (replacePollOptions
      (handlePollEnd dateOk db postRow pd.properties).1 postRow
        pd.pollOptions).1 postRow pd.properties
    have h2 := replacePollOptions_frame
      (handlePollEnd dateOk db postRow pd.properties).1 postRow pd.pollOptions
    have h3 := handlePollEnd_frame dateOk db postRow pd.properties
    have hknown2 : ∀ m ∈ pd.mentions, mentionKnown
        (handlePollVote (replacePollOptions
          (handlePollEnd dateOk db postRow pd.properties).1 postRow
            pd.pollOptions).1 postRow pd.properties).1 postRow m := by
      intro m hm
      refine mentionKnown_congr ?_ ?_ (hknown m hm)
      · rw [h1.1, h2.1, h3.1]
      · rw [h1.2, h2.2, h3.2]
    rw [processMentions_known feedUrl pd.id postRow _ pd.mentions _ hknown2]
    simp

theorem replyEventsPart_reaction (f i rt mood a b2 : String)
    (hsplit : splitOnSep '#' rt = [a, b2]) (hmood : pyStrip mood ≠ "") :
    replyEventsPart f i rt mood =
      [Event.reaction a (f ++ "#" ++ i) rt mood] := by
  have hrt : rt ≠ "" := by
    intro h
    rw [h] at hsplit
    rw [show splitOnSep '#' "" = [""] from rfl] at hsplit
    simp at hsplit
  have hm : mood ≠ "" := by
    intro h
    rw [h] at hmood
    exact hmood rfl
  unfold replyEventsPart
  rw [if_pos hrt, hsplit]
  dsimp only
  rw [if_pos ⟨hm, hmood⟩]

theorem replyEventsPart_reply (f i rt mood a b2 : String)
    (hsplit : splitOnSep '#' rt = [a, b2]) (hmood : mood = "") :
    replyEventsPart f i rt mood = [Event.reply a (f ++ "#" ++ i) rt] := by
  have hrt : rt ≠ "" := by
    intro h
    rw [h] at hsplit
    rw [show splitOnSep '#' "" = [""] from rfl] at hsplit
    simp at hsplit
  unfold replyEventsPart
  rw [if_pos hrt, hsplit]
  dsimp only
  rw [if_neg (fun hc => hc.1 hmood)]

theorem boostEventsPart_boost (f i inc b2 c2 : String)
    (hsplit : splitOnSep '#' inc = [b2, c2]) :
    boostEventsPart f i inc = [Event.boost b2 (f ++ "#" ++ i) inc] := by
  have hinc : inc ≠ "" := by
    intro h
    rw [h] at hsplit
    rw [show splitOnSep '#' "" = [""] from rfl] at hsplit
    simp at hsplit
  unfold boostEventsPart
  rw [if_pos hinc, hsplit]

theorem boostEventsPart_none (f i inc : String) (h : inc = "") :
    boostEventsPart f i inc = [] := by
  unfold boostEventsPart
  rw [if_neg (fun hc => hc h)]

theorem replyEventsPart_classes (f i rt mood : String) :
    ∀ e ∈ replyEventsPart f i rt mood,
      isBoostEvent e = false ∧ isMentionEvent e = false := by
  unfold replyEventsPart
  repeat' split
  all_goals intro e he
  all_goals simp at he
  all_goals rw [he]
  all_goals exact ⟨rfl, rfl⟩

theorem boostEventsPart_classes (f i inc : String) :
    ∀ e ∈ boostEventsPart f i inc,
      isBoostEvent e = true ∧ isMentionEvent e = false ∧
      isReactionEvent e = false ∧ isReplyEvent e = false := by
  unfold boostEventsPart
  repeat' split
  all_goals intro e he
  all_goals simp at he
  all_goals rw [he]
  all_goals exact ⟨rfl, rfl, rfl, rfl⟩

/-! ## C4 — notification gating -/

theorem newPostEvents_filter_mention (f i rt mood inc : String) :
    (newPostEvents f i rt mood inc).filter isMentionEvent = [] := by
  unfold newPostEvents
  rw [List.filter_append]
  rw [filterAllFalse _ (fun e he => (replyEventsPart_classes f i rt mood e he).2),
      filterAllFalse _ (fun e he => (boostEventsPart_classes f i inc e he).2.1)]
  rfl

/-- C4: events are published only at true first creation.  (a) When the
post row already exists, the iteration publishes mention events only, and
none at all when every parsed mention is already known — editing the
content of an existing post publishes nothing.  (b-d) When the row is
first created, a canonical replyTo reference publishes exactly one
reaction event (non-blank mood) or exactly one reply event (empty mood,
not a poll vote), a canonical include reference publishes exactly one
boost event and an empty include none.  (e) In every case the number of
mention events equals the number of `Mention` rows actually created. -/
theorem C4_notification_gating
    (gs : String → String) (dateOk : String → Bool) (db : DBState)
    (profId : Nat) (feedUrl : String) (pd : OrgPost) :
    (∀ post0 : PostR,
        db.posts.find? (fun p => p.profile = profId ∧ p.post_id = pd.id) = some post0 →
        (∀ e ∈ (processPost gs dateOk db profId feedUrl pd).2.1,
            isMentionEvent e = true) ∧
        ((∀ m ∈ pd.mentions, mentionKnown db post0.rowid m) →
          (processPost gs dateOk db profId feedUrl pd).2.1 = [])) ∧
    (pd.id ≠ "" →
      db.posts.find? (fun p => p.profile = profId ∧ p.post_id = pd.id) = none →
      (∀ a b2 : String,
        splitOnSep '#' (propGet pd.properties "reply_to") = [a, b2] →
        (pyStrip (propGet pd.properties "mood") ≠ "" →
          (processPost gs dateOk db profId feedUrl pd).2.1.filter isReactionEvent =
            [Event.reaction a (feedUrl ++ "#" ++ pd.id)
              (propGet pd.properties "reply_to") (propGet pd.properties "mood")] ∧
          (processPost gs dateOk db profId feedUrl pd).2.1.filter isReplyEvent = []) ∧
        (propGet pd.properties "mood" = "" →
          propGet pd.properties "poll_option" = "" →
          (processPost gs dateOk db profId feedUrl pd).2.1.filter isReplyEvent =
            [Event.reply a (feedUrl ++ "#" ++ pd.id)
              (propGet pd.properties "reply_to")] ∧
          (processPost gs dateOk db profId feedUrl pd).2.1.filter isReactionEvent = [])) ∧
      (∀ b2 c2 : String,
        splitOnSep '#' (propGet pd.properties "include") = [b2, c2] →
        (processPost gs dateOk db profId feedUrl pd).2.1.filter isBoostEvent =
          [Event.boost b2 (feedUrl ++ "#" ++ pd.id)
            (propGet pd.properties "include")]) ∧
      (propGet pd.properties "include" = "" →
        (processPost gs dateOk db profId feedUrl pd).2.1.filter isBoostEvent = [])) ∧
    ((processPost gs dateOk db profId feedUrl pd).1.mentions.length =
      db.mentions.length +
        ((processPost gs dateOk db profId feedUrl pd).2.1.filter
          isMentionEvent).length) := by
  by_cases hid : pd.id = ""
  · have hpp : processPost gs dateOk db profId feedUrl pd = (db, [], [], false) := by
      unfold processPost
      rw [if_pos hid]
    refine ⟨?_, ?_, ?_⟩
    · intro post0 _
      rw [hpp]
      exact ⟨fun e he => absurd he (by simp), fun _ => rfl⟩
    · intro h
      exact absurd hid h
    · rw [hpp]
      simp
  · cases hfind : db.posts.find? (fun p => p.profile = profId ∧ p.post_id = pd.id) with
    | some post0 =>
        have hpp : processPost gs dateOk db profId feedUrl pd =
            postSharedSteps dateOk (updateDB gs db pd post0) feedUrl pd
              post0.rowid [WriteOp.postUpdateW post0.rowid] [] := by
          unfold processPost
          rw [if_neg hid, hfind]
        obtain ⟨mevs, hev, hall, hlen⟩ := postSharedSteps_spec dateOk
          (updateDB gs db pd post0) feedUrl pd post0.rowid
          [WriteOp.postUpdateW post0.rowid] []
        have hup : (updateDB gs db pd post0).mentions = db.mentions := rfl
        refine ⟨?_, ?_, ?_⟩
        · intro p0 hp0
          have hpe : post0 = p0 := Option.some.inj hp0
          subst hpe
          constructor
          · intro e he
            rw [hpp, hev] at he
            exact hall e (by simpa using he)
          · intro hknown
            rw [hpp]
            refine postSharedSteps_known dateOk (updateDB gs db pd post0)
              feedUrl pd post0.rowid [WriteOp.postUpdateW post0.rowid] [] ?_
            intro m hm
            exact mentionKnown_congr hup.symm rfl (hknown m hm)
        · intro _ hnone
          exact absurd hnone (by simp)
        · rw [hpp, hev, hlen, hup]
          rw [show ([] ++ mevs : List Event) = mevs from rfl]
          rw [filterAllTrue mevs hall]
    | none =>
        have hpp : processPost gs dateOk db profId feedUrl pd =
            postSharedSteps dateOk (createDB gs db profId pd) feedUrl pd
              db.nextId [WriteOp.postCreateW db.nextId]
              (newPostEvents feedUrl pd.id (propGet pd.properties "reply_to")
                (propGet pd.properties "mood")
                (propGet pd.properties "include")) := by
          unfold processPost
          rw [if_neg hid, hfind]
        obtain ⟨mevs, hev, hall, hlen⟩ := postSharedSteps_spec dateOk
          (createDB gs db profId pd) feedUrl pd db.nextId
          [WriteOp.postCreateW db.nextId]
          (newPostEvents feedUrl pd.id (propGet pd.properties "reply_to")
            (propGet pd.properties "mood") (propGet pd.properties "include"))
        have hcr : (createDB gs db profId pd).mentions = db.mentions := rfl
        have hmevsf : ∀ (g : Event → Bool),
            (∀ e, isMentionEvent e = true → g e = false) →
            mevs.filter g = [] := by
          intro g hg
          exact filterAllFalse _ (fun e he => hg e (hall e he))
        have hm1 : mevs.filter isReactionEvent = [] :=
          hmevsf isReactionEvent (fun e he => (mention_not_others he).1)
        have hm2 : mevs.filter isReplyEvent = [] :=
          hmevsf isReplyEvent (fun e he => (mention_not_others he).2.1)
        have hm3 : mevs.filter isBoostEvent = [] :=
          hmevsf isBoostEvent (fun e he => (mention_not_others he).2.2)
        have hb1 : (boostEventsPart feedUrl pd.id
            (propGet pd.properties "include")).filter isReactionEvent = [] :=
          filterAllFalse _ (fun e he =>
            (boostEventsPart_classes feedUrl pd.id
              (propGet pd.properties "include") e he).2.2.1)
        have hb2 : (boostEventsPart feedUrl pd.id
            (propGet pd.properties "include")).filter isReplyEvent = [] :=
          filterAllFalse _ (fun e he =>
            (boostEventsPart_classes feedUrl pd.id
              (propGet pd.properties "include") e he).2.2.2)
        have hr1 : (replyEventsPart feedUrl pd.id
            (propGet pd.properties "reply_to")
            (propGet pd.properties "mood")).filter isBoostEvent = [] :=
          filterAllFalse _ (fun e he =>
            (replyEventsPart_classes feedUrl pd.id
              (propGet pd.properties "reply_to")
              (propGet pd.properties "mood") e he).1)
        refine ⟨?_, ?_, ?_⟩
        · intro p0 hp0
          exact absurd hp0 (by simp)
        · intro _ _
          refine ⟨?_, ?_, ?_⟩
          · intro a b2 hsplit
            constructor
            · intro hmood
              rw [hpp, hev]
              unfold newPostEvents
              rw [replyEventsPart_reaction feedUrl pd.id _ _ a b2 hsplit hmood]
              simp [List.filter_append, hm1, hm2, hb1, hb2,
                isReactionEvent, isReplyEvent]
            · intro hmood hpoll
              rw [hpp, hev]
              unfold newPostEvents
              rw [replyEventsPart_reply feedUrl pd.id _ _ a b2 hsplit hmood]
              simp [List.filter_append, hm1, hm2, hb1, hb2,
                isReactionEvent, isReplyEvent]
          · intro b2 c2 hsplit
            rw [hpp, hev]
            unfold newPostEvents
            rw [boostEventsPart_boost feedUrl pd.id _ b2 c2 hsplit]
            simp [List.filter_append, hm3, hr1, isBoostEvent]
          · intro hinc
            rw [hpp, hev]
            unfold newPostEvents
            rw [boostEventsPart_none feedUrl pd.id _ hinc]
            simp [List.filter_append, hm3, hr1]
        · rw [hpp, hev, hlen, hcr, List.filter_append]
          rw [newPostEvents_filter_mention, filterAllTrue mevs hall]
          rw [show ([] ++ mevs : List Event) = mevs from rfl]

/-- The parsed post of the C4 witness: a reaction (reply reference plus
mood). -/
def c4Pd : OrgPost :=
  { id := "2025", content := ""
    properties := [("id", "2025"), ("reply_to", "T#9"), ("mood", "😀")]
    mentions := [], pollOptions := [] }

/-- Witness for C4: creating the reaction post publishes exactly one
reaction event and no reply event. -/
theorem C4_notification_gating_witness :
    (processPost (fun _ => "") (fun _ => true) emptyDB 1 "F" c4Pd).2.1.filter
        isReactionEvent =
      [Event.reaction "T" ("F" ++ "#" ++ c4Pd.id)
        (propGet c4Pd.properties "reply_to") (propGet c4Pd.properties "mood")] ∧
    (processPost (fun _ => "") (fun _ => true) emptyDB 1 "F" c4Pd).2.1.filter
        isReplyEvent = [] :=
  (((C4_notification_gating (fun _ => "") (fun _ => true) emptyDB 1 "F"
      c4Pd).2.1 (by decide) (by decide)).1 "T" "9" (by decide)).1 (by decide)

/-! ## C5 machinery: list helpers, well-formedness, frames -/

theorem find?_append_some {α : Type} {l l2 : List α} {p : α → Bool} {a : α}
    (h : l.find? p = some a) : (l ++ l2).find? p = some a := by
  rw [List.find?_append, h]
  rfl

theorem find?_append_new {α : Type} {l : List α} {p : α → Bool} {x : α}
    (h : l.find? p = none) (hx : p x = true) :
    (l ++ [x]).find? p = some x := by
  rw [List.find?_append, h, List.find?_cons_of_pos _ hx]
  rfl

theorem find?_map_of_pred {α : Type} (f : α → α) (p : α → Bool)
    (hp : ∀ x, p (f x) = p x) :
    ∀ l : List α, (l.map f).find? p = (l.find? p).map f := by
  intro l
  induction l with
  | nil => rfl
  | cons x xs ih =>
      rw [List.map_cons]
      by_cases hx : p x = true
      · rw [List.find?_cons_of_pos _ ((hp x).trans hx),
            List.find?_cons_of_pos _ hx]
        rfl
      · rw [List.find?_cons_of_neg _ (by rw [hp x]; simpa using hx),
            List.find?_cons_of_neg _ (by simpa using hx), ih]

theorem find?_filter_of_imp {α : Type} (p q : α → Bool)
    (h : ∀ x, p x = true → q x = true) :
    ∀ l : List α, (l.filter q).find? p = l.find? p := by
  intro l
  induction l with
  | nil => rfl
  | cons x xs ih =>
      rw [List.filter_cons]
      by_cases hq : q x = true
      · rw [if_pos hq]
        by_cases hx : p x = true
        · rw [List.find?_cons_of_pos _ hx, List.find?_cons_of_pos _ hx]
        · rw [List.find?_cons_of_neg _ (by simpa using hx),
              List.find?_cons_of_neg _ (by simpa using hx), ih]
      · rw [if_neg hq, ih]
        by_cases hx : p x = true
        · exact absurd (h x hx) hq
        · rw [List.find?_cons_of_neg _ (by simpa using hx)]

/-- The first stored post row of a profile carrying a given post id — the
scrutinee of the upsert in the post loop. -/
def findPost (db : DBState) (pid : Nat) (i : String) : Option PostR :=
  db.posts.find? (fun p => p.profile = pid ∧ p.post_id = i)

/-- The stored profile row registered for a feed URL. -/
def findProf (db : DBState) (u : String) : Option ProfileR :=
  db.profiles.find? (fun pr => pr.feed = u)

/-- A write to the `Profile` table. -/
def isProfileWrite : WriteOp → Bool
  | .profileCreateW _ => true
  | .profileUpdateW _ => true
  | _ => false

/-- Whether scanning the list left to right ever meets a value already
seen (the trigger for an `IntegrityError` on a bare `create`). -/
def seenDupGo {α : Type} [DecidableEq α] (seen : List α) : List α → Bool
  | [] => false
  | t :: rest => if t ∈ seen then true else seenDupGo (seen ++ [t]) rest

/-- The poll-option replacement aborts exactly on a duplicate option
text; the trigger depends only on the parsed option list. -/
def pollAbort (opts : List String) : Bool :=
  if opts.isEmpty then false else seenDupGo [] opts

/-- The link/contact replacement aborts exactly on a duplicate link value
or a duplicate contact pair; the trigger depends only on the metadata. -/
def lcAbort (meta : Metadata) : Bool :=
  if seenDupGo [] (linkValsOf meta) then true
  else seenDupGo [] (contactValsOf meta)

/-- Rowid sanity of the post store: every stored rowid is below the next
allocation and no two post rows share a rowid. -/
def postsWF (db : DBState) : Prop :=
  (∀ rid ∈ db.posts.map PostR.rowid, rid < db.nextId) ∧
  (db.posts.map PostR.rowid).Nodup

/-- The state evolution of one post-loop step, seen from an earlier
state: profiles untouched, mention rows kept, and the upsert target of
every `(profile, post id)` key kept with its rowid. -/
def FrameStep (db db2 : DBState) : Prop :=
  db2.profiles = db.profiles ∧
  (∀ r ∈ db.mentions, r ∈ db2.mentions) ∧
  ∀ pid i a, findPost db pid i = some a →
    ∃ b, findPost db2 pid i = some b ∧ b.rowid = a.rowid

/-- A parsed post already reconciled with the store: either it has no id
(it is skipped), or its row exists and every parsed mention of it is
already known, so a re-run creates nothing and publishes nothing. -/
def postSettled (db : DBState) (pid : Nat) (pd : OrgPost) : Prop :=
  pd.id = "" ∨
  ∃ a, findPost db pid pd.id = some a ∧
    ∀ m ∈ pd.mentions, mentionKnown db a.rowid m

theorem frameStep_refl (db : DBState) : FrameStep db db :=
  ⟨rfl, fun r hr => hr, fun _ _ a ha => ⟨a, ha, rfl⟩⟩

theorem frameStep_trans {d1 d2 d3 : DBState} (h1 : FrameStep d1 d2)
    (h2 : FrameStep d2 d3) : FrameStep d1 d3 := by
  refine ⟨h2.1.trans h1.1, fun r hr => h2.2.1 r (h1.2.1 r hr), ?_⟩
  intro pid i a ha
  obtain ⟨b, hb, hbr⟩ := h1.2.2 pid i a ha
  obtain ⟨c, hc, hcr⟩ := h2.2.2 pid i b hb
  exact ⟨c, hc, hcr.trans hbr⟩

theorem frameStep_of_eq {db db2 : DBState} (hp : db2.profiles = db.profiles)
    (hm : ∀ r ∈ db.mentions, r ∈ db2.mentions) (ho : db2.posts = db.posts) :
    FrameStep db db2 := by
  refine ⟨hp, hm, ?_⟩
  intro pid i a ha
  refine ⟨a, ?_, rfl⟩
  unfold findPost at ha ⊢
  rw [ho]
  exact ha

theorem frameStep_settled {db db2 : DBState} {pid : Nat} {pd : OrgPost}
    (hf : FrameStep db db2) (hs : postSettled db pid pd) :
    postSettled db2 pid pd := by
  rcases hs with hs | ⟨a, ha, hm⟩
  · exact Or.inl hs
  · obtain ⟨b, hb, hbr⟩ := hf.2.2 pid pd.id a ha
    refine Or.inr ⟨b, hb, ?_⟩
    intro m hmm
    rw [hbr]
    have h0 := hm m hmm
    unfold mentionKnown at h0 ⊢
    rw [hf.1]
    rcases h0 with h0 | h0
    · exact Or.inl h0
    · refine Or.inr ?_
      cases hfind : db.profiles.find? (fun pr => pr.feed = mentionBase m) with
      | none => trivial
      | some mp =>
          rw [hfind] at h0
          obtain ⟨mr, hmr, hp1, hp2⟩ := h0
          exact ⟨mr, hf.2.1 mr hmr, hp1, hp2⟩

/-! ## Abort determinism of the recreation folds -/

theorem pollOptF_absorb (postRow : Nat) :
    ∀ (opts : List String) (d : DBState) (w : List WriteOp)
      (seen : List String) (i : Nat),
      (opts.foldl (pollOptF postRow) (d, w, true, seen, i)).2.2.1 = true := by
  intro opts
  induction opts with
  | nil => intro d w seen i; rfl
  | cons t rest ih =>
      intro d w seen i
      rw [List.foldl_cons]
      exact ih d w seen i

theorem pollOptF_track (postRow : Nat) :
    ∀ (opts : List String) (d : DBState) (w : List WriteOp)
      (seen : List String) (i : Nat),
      (opts.foldl (pollOptF postRow) (d, w, false, seen, i)).2.2.1 =
        seenDupGo seen opts := by
  intro opts
  induction opts with
  | nil => intro d w seen i; rfl
  | cons t rest ih =>
      intro d w seen i
      rw [List.foldl_cons]
      unfold pollOptF seenDupGo
      dsimp only
      by_cases hs : t ∈ seen
      · rw [if_pos hs, if_pos hs]
        exact pollOptF_absorb postRow rest d w seen i
      · rw [if_neg hs, if_neg hs]
        exact ih _ _ _ _

theorem replacePollOptions_abort (db : DBState) (postRow : Nat)
    (opts : List String) :
    (replacePollOptions db postRow opts).2.2 = pollAbort opts := by
  unfold replacePollOptions pollAbort
  by_cases he : opts.isEmpty = true
  · rw [if_pos he, if_pos he]
  · rw [if_neg he, if_neg he]
    dsimp only
    exact pollOptF_track postRow opts _ _ _ _

theorem linkF_absorb (pid : Nat) :
    ∀ (vals : List String) (d : DBState) (w : List WriteOp)
      (seen : List String),
      (vals.foldl (linkF pid) (d, w, true, seen)).2.2.1 = true := by
  intro vals
  induction vals with
  | nil => intro d w seen; rfl
  | cons t rest ih =>
      intro d w seen
      rw [List.foldl_cons]
      exact ih d w seen

theorem linkF_track (pid : Nat) :
    ∀ (vals : List String) (d : DBState) (w : List WriteOp)
      (seen : List String),
      (vals.foldl (linkF pid) (d, w, false, seen)).2.2.1 =
        seenDupGo seen vals := by
  intro vals
  induction vals with
  | nil => intro d w seen; rfl
  | cons t rest ih =>
      intro d w seen
      rw [List.foldl_cons]
      unfold linkF seenDupGo
      dsimp only
      by_cases hs : t ∈ seen
      · rw [if_pos hs, if_pos hs]
        exact linkF_absorb pid rest d w seen
      · rw [if_neg hs, if_neg hs]
        exact ih _ _ _

theorem contactF_absorb (pid : Nat) :
    ∀ (vals : List (String × String)) (d : DBState) (w : List WriteOp)
      (seen : List (String × String)),
      (vals.foldl (contactF pid) (d, w, true, seen)).2.2.1 = true := by
  intro vals
  induction vals with
  | nil => intro d w seen; rfl
  | cons t rest ih =>
      intro d w seen
      rw [List.foldl_cons]
      exact ih d w seen

theorem contactF_track (pid : Nat) :
    ∀ (vals : List (String × String)) (d : DBState) (w : List WriteOp)
      (seen : List (String × String)),
      (vals.foldl (contactF pid) (d, w, false, seen)).2.2.1 =
        seenDupGo seen vals := by
  intro vals
  induction vals with
  | nil => intro d w seen; rfl
  | cons t rest ih =>
      intro d w seen
      rw [List.foldl_cons]
      unfold contactF seenDupGo
      dsimp only
      by_cases hs : t ∈ seen
      · rw [if_pos hs, if_pos hs]
        exact contactF_absorb pid rest d w seen
      · rw [if_neg hs, if_neg hs]
        exact ih _ _ _

theorem replaceLinksContacts_abort (db : DBState) (pid : Nat)
    (meta : Metadata) :
    (replaceLinksContacts db pid meta).2.2 = lcAbort meta := by
  unfold replaceLinksContacts lcAbort
  dsimp only
  rw [linkF_track pid (linkValsOf meta) _ _ _]
  by_cases hl : seenDupGo [] (linkValsOf meta) = true
  · rw [if_pos hl, if_pos hl]
  · rw [if_neg hl, if_neg hl]
    dsimp only
    rw [contactF_track pid (contactValsOf meta) _ _ _]

/-! ## Per-operation frame lemmas for the C5 development -/

theorem findPost_map {db : DBState} {f : PostR → PostR}
    (hf : ∀ p, (f p).profile = p.profile ∧ (f p).post_id = p.post_id ∧
      (f p).rowid = p.rowid) (pid : Nat) (i : String) :
    (db.posts.map f).find? (fun p => p.profile = pid ∧ p.post_id = i) =
      (findPost db pid i).map f := by
  unfold findPost
  refine find?_map_of_pred f _ ?_ db.posts
  intro x
  have h1 := (hf x).1
  have h2 := (hf x).2.1
  simp [h1, h2]

theorem frameStep_map_posts {db : DBState} {f : PostR → PostR}
    (hf : ∀ p, (f p).profile = p.profile ∧ (f p).post_id = p.post_id ∧
      (f p).rowid = p.rowid) {db2 : DBState}
    (hp : db2.profiles = db.profiles)
    (hm : ∀ r ∈ db.mentions, r ∈ db2.mentions)
    (ho : db2.posts = db.posts.map f) :
    FrameStep db db2 := by
  refine ⟨hp, hm, ?_⟩
  intro pid i a ha
  refine ⟨f a, ?_, (hf a).2.2⟩
  unfold findPost
  rw [ho, findPost_map hf, ha]
  rfl

theorem frameStep_append_post {db db2 : DBState} {x : PostR}
    (hp : db2.profiles = db.profiles)
    (hm : ∀ r ∈ db.mentions, r ∈ db2.mentions)
    (ho : db2.posts = db.posts ++ [x]) :
    FrameStep db db2 := by
  refine ⟨hp, hm, ?_⟩
  intro pid i a ha
  refine ⟨a, ?_, rfl⟩
  unfold findPost at ha ⊢
  rw [ho]
  exact find?_append_some ha

theorem mentionFeedsOf_mono {db db2 : DBState} {postRow : Nat}
    (hp : db2.profiles = db.profiles)
    (hm : ∀ r ∈ db.mentions, r.post = postRow → r ∈ db2.mentions) :
    ∀ b ∈ mentionFeedsOf db postRow, b ∈ mentionFeedsOf db2 postRow := by
  intro b hb
  unfold mentionFeedsOf at hb ⊢
  obtain ⟨m, hmf, hmap⟩ := List.mem_filterMap.mp hb
  have hmem := List.mem_filter.mp hmf
  refine List.mem_filterMap.mpr ⟨m, ?_, ?_⟩
  · exact List.mem_filter.mpr
      ⟨hm m hmem.1 (of_decide_eq_true hmem.2), hmem.2⟩
  · rw [hp]
    exact hmap

theorem mentionKnown_mono {db db2 : DBState} {postRow : Nat}
    {m : String × String} (hp : db2.profiles = db.profiles)
    (hm : ∀ r ∈ db.mentions, r.post = postRow → r ∈ db2.mentions)
    (h : mentionKnown db postRow m) : mentionKnown db2 postRow m := by
  unfold mentionKnown at h ⊢
  rw [hp]
  rcases h with h | h
  · exact Or.inl h
  · refine Or.inr ?_
    cases hfind : db.profiles.find? (fun pr => pr.feed = mentionBase m) with
    | none => trivial
    | some mp =>
        rw [hfind] at h
        obtain ⟨mr, hmr, h1, h2⟩ := h
        exact ⟨mr, hm mr hmr h1, h1, h2⟩

theorem handlePollEnd_sub (dateOk : String → Bool) (db : DBState)
    (postRow : Nat) (props : List (String × String)) :
    FrameStep db (handlePollEnd dateOk db postRow props).1 ∧
    (handlePollEnd dateOk db postRow props).1.nextId = db.nextId ∧
    (handlePollEnd dateOk db postRow props).1.posts.map PostR.rowid =
      db.posts.map PostR.rowid ∧
    ∀ w ∈ (handlePollEnd dateOk db postRow props).2,
      isProfileWrite w = false := by
  unfold handlePollEnd
  dsimp only
  split
  · refine ⟨frameStep_map_posts ?_ rfl (fun r hr => hr) rfl, rfl, ?_, ?_⟩
    · intro p
      dsimp only
      split
      · exact ⟨rfl, rfl, rfl⟩
      · exact ⟨rfl, rfl, rfl⟩
    · dsimp only
      rw [List.map_map]
      refine congrFun (congrArg List.map (funext fun p => ?_)) db.posts
      dsimp only [Function.comp]
      split
      · rfl
      · rfl
    · intro w hw
      rw [List.mem_singleton.mp hw]
      rfl
  · exact ⟨frameStep_refl db, rfl, rfl, by intro w hw; simp at hw⟩

theorem replacePollOptions_sub (db : DBState) (postRow : Nat)
    (opts : List String) :
    (replacePollOptions db postRow opts).1.posts = db.posts ∧
    db.nextId ≤ (replacePollOptions db postRow opts).1.nextId ∧
    ∀ w ∈ (replacePollOptions db postRow opts).2.1,
      isProfileWrite w = false := by
  unfold replacePollOptions
  by_cases he : opts.isEmpty = true
  · rw [if_pos he]
    exact ⟨rfl, Nat.le_refl _, by intro w hw; simp at hw⟩
  · rw [if_neg he]
    dsimp only
    refine foldl_preserve _
      (fun (acc : DBState × List WriteOp × Bool × List String × Nat) =>
        acc.1.posts = db.posts ∧ db.nextId ≤ acc.1.nextId ∧
        ∀ w ∈ acc.2.1, isProfileWrite w = false)
      ?_ opts _ ⟨rfl, Nat.le_refl _, ?_⟩
    · intro acc t hP
      obtain ⟨d, w, ab, seen, i⟩ := acc
      unfold pollOptF
      dsimp only
      by_cases hab : ab = true
      · rw [if_pos hab]; exact hP
      · rw [if_neg hab]
        by_cases hs : t ∈ seen
        · rw [if_pos hs]; exact hP
        · rw [if_neg hs]
          refine ⟨hP.1, Nat.le_trans hP.2.1 (Nat.le_succ _), ?_⟩
          intro v hv
          rcases List.mem_append.mp hv with hv | hv
          · exact hP.2.2 v hv
          · rw [List.mem_singleton.mp hv]
            rfl
    · intro w hw
      obtain ⟨o, _, heq⟩ := List.mem_map.mp hw
      rw [← heq]
      rfl

theorem handlePollVote_sub (db : DBState) (postRow : Nat)
    (props : List (String × String)) :
    (handlePollVote db postRow props).1.posts = db.posts ∧
    db.nextId ≤ (handlePollVote db postRow props).1.nextId ∧
    ∀ w ∈ (handlePollVote db postRow props).2,
      isProfileWrite w = false := by
  unfold handlePollVote
  dsimp only
  repeat' split
  all_goals refine ⟨rfl, ?_, ?_⟩
  all_goals try exact Nat.le_refl _
  all_goals try exact Nat.le_succ _
  all_goals intro w hw
  all_goals simp at hw
  all_goals rw [hw]
  all_goals rfl

theorem mentionStep_sub (db : DBState) (feedUrl postId : String)
    (postRow : Nat) (snapshot : List String) (m : String × String) :
    (mentionStep db feedUrl postId postRow snapshot m).1.posts = db.posts ∧
    db.nextId ≤ (mentionStep db feedUrl postId postRow snapshot m).1.nextId ∧
    (∀ r ∈ db.mentions,
      r ∈ (mentionStep db feedUrl postId postRow snapshot m).1.mentions) ∧
    ∀ w ∈ (mentionStep db feedUrl postId postRow snapshot m).2.2,
      isProfileWrite w = false := by
  unfold mentionStep
  repeat' split
  all_goals refine ⟨rfl, ?_, ?_, ?_⟩
  all_goals try exact Nat.le_refl _
  all_goals try exact Nat.le_succ _
  all_goals try exact fun r hr => hr
  all_goals try exact fun r hr => List.mem_append_left _ hr
  all_goals intro w hw
  all_goals simp at hw
  all_goals rw [hw]
  all_goals rfl

theorem processMentions_sub (feedUrl postId : String) (postRow : Nat)
    (snapshot : List String) :
    ∀ (ms : List (String × String)) (db : DBState),
      (processMentions db feedUrl postId postRow snapshot ms).1.posts =
        db.posts ∧
      db.nextId ≤
        (processMentions db feedUrl postId postRow snapshot ms).1.nextId ∧
      (∀ r ∈ db.mentions,
        r ∈ (processMentions db feedUrl postId postRow snapshot ms).1.mentions) ∧
      ∀ w ∈ (processMentions db feedUrl postId postRow snapshot ms).2.2,
        isProfileWrite w = false := by
  intro ms
  induction ms with
  | nil =>
      intro db
      exact ⟨rfl, Nat.le_refl _, fun r hr => hr,
        by intro w hw; simp [processMentions] at hw⟩
  | cons m rest ih =>
      intro db
      have hstep := mentionStep_sub db feedUrl postId postRow snapshot m
      have hrec := ih (mentionStep db feedUrl postId postRow snapshot m).1
      unfold processMentions
      dsimp only
      refine ⟨hrec.1.trans hstep.1, Nat.le_trans hstep.2.1 hrec.2.1, ?_, ?_⟩
      · intro r hr
        exact hrec.2.2.1 r (hstep.2.2.1 r hr)
      · intro w hw
        rcases List.mem_append.mp hw with hw | hw
        · exact hstep.2.2.2 w hw
        · exact hrec.2.2.2 w hw

/-! ## Mention settlement: one pass makes every parsed mention known -/

theorem mentionStep_settles (db : DBState) (feedUrl postId : String)
    (postRow : Nat) (snapshot : List String) (m : String × String)
    (hnd : (db.profiles.map ProfileR.feed).Nodup)
    (hsnap : ∀ b ∈ snapshot, b ∈ mentionFeedsOf db postRow) :
    mentionKnown (mentionStep db feedUrl postId postRow snapshot m).1
      postRow m := by
  unfold mentionStep
  by_cases hu : pyStrip m.1 = ""
  · rw [if_pos hu]
    exact Or.inl hu
  · rw [if_neg hu]
    cases hfind : db.profiles.find? (fun pr => pr.feed = mentionBase m) with
    | none =>
        unfold mentionKnown
        rw [hfind]
        exact Or.inr trivial
    | some mp =>
        dsimp only
        by_cases hsn : mentionBase m ∈ snapshot
        · rw [if_pos hsn]
          unfold mentionKnown
          rw [hfind]
          refine Or.inr ?_
          have hb := hsnap _ hsn
          unfold mentionFeedsOf at hb
          obtain ⟨mm, hmm, hmap⟩ := List.mem_filterMap.mp hb
          have hmem := List.mem_filter.mp hmm
          cases hq : db.profiles.find?
              (fun pr => pr.rowid = mm.mentioned_profile) with
          | none => rw [hq] at hmap; simp at hmap
          | some prq =>
              rw [hq] at hmap
              have hfeed : prq.feed = mentionBase m := by
                simpa using hmap
              have hmpfeed : mp.feed = mentionBase m := by
                have hx := List.find?_some hfind
                simpa using hx
              have hprqmem := List.mem_of_find?_eq_some hq
              have hmpmem := List.mem_of_find?_eq_some hfind
              have heq : prq = mp :=
                List.inj_on_of_nodup_map hnd hprqmem hmpmem
                  (hfeed.trans hmpfeed.symm)
              have hrow : prq.rowid = mm.mentioned_profile := by
                have hx := List.find?_some hq
                simpa using hx
              refine ⟨mm, hmem.1, of_decide_eq_true hmem.2, ?_⟩
              rw [← heq, hrow]
        · rw [if_neg hsn]
          cases hf : db.mentions.find? (fun r =>
              r.post = postRow ∧ r.mentioned_profile = mp.rowid) with
          | some mr0 =>
              unfold mentionKnown
              rw [hfind]
              have hp : mr0.post = postRow ∧
                  mr0.mentioned_profile = mp.rowid := by
                have hx := List.find?_some hf
                simpa using hx
              exact Or.inr ⟨mr0, List.mem_of_find?_eq_some hf, hp.1, hp.2⟩
          | none =>
              unfold mentionKnown
              dsimp only
              rw [hfind]
              refine Or.inr ⟨⟨db.nextId, postRow, mp.rowid, pyStrip m.2⟩,
                ?_, rfl, rfl⟩
              exact List.mem_append_right _ (List.mem_singleton.mpr rfl)

theorem processMentions_settles (feedUrl postId : String) (postRow : Nat) :
    ∀ (ms : List (String × String)) (db : DBState) (snapshot : List String),
      (db.profiles.map ProfileR.feed).Nodup →
      (∀ b ∈ snapshot, b ∈ mentionFeedsOf db postRow) →
      ∀ m ∈ ms,
        mentionKnown
          (processMentions db feedUrl postId postRow snapshot ms).1
          postRow m := by
  intro ms
  induction ms with
  | nil => intro db snapshot _ _ m hm; simp at hm
  | cons m0 rest ih =>
      intro db snapshot hnd hsnap m hm
      have hstepfr := mentionStep_spec db feedUrl postId postRow snapshot m0
      have hstepsub := mentionStep_sub db feedUrl postId postRow snapshot m0
      have hrecfr := processMentions_spec feedUrl postId postRow snapshot rest
        (mentionStep db feedUrl postId postRow snapshot m0).1
      have hrecsub := processMentions_sub feedUrl postId postRow snapshot rest
        (mentionStep db feedUrl postId postRow snapshot m0).1
      unfold processMentions
      dsimp only
      rcases List.mem_cons.mp hm with hm | hm
      · subst hm
        have h0 := mentionStep_settles db feedUrl postId postRow snapshot m
          hnd hsnap
        exact mentionKnown_mono hrecfr.2.2
          (fun r hr _ => hrecsub.2.2.1 r hr) h0
      · refine ih (mentionStep db feedUrl postId postRow snapshot m0).1
          snapshot ?_ ?_ m hm
        · rw [hstepfr.2.2]
          exact hnd
        · intro b hb
          exact mentionFeedsOf_mono hstepfr.2.2
            (fun r hr _ => hstepsub.2.2.1 r hr) b (hsnap b hb)

/-! ## Shared post steps: frame, abort and settlement -/

theorem postSharedSteps_abortEq (dateOk : String → Bool) (db : DBState)
    (feedUrl : String) (pd : OrgPost) (postRow : Nat)
    (w0 : List WriteOp) (evs0 : List Event) :
    (postSharedSteps dateOk db feedUrl pd postRow w0 evs0).2.2.2 =
      pollAbort pd.pollOptions := by
  unfold postSharedSteps
  dsimp only
  have habs := replacePollOptions_abort
    (handlePollEnd dateOk db postRow pd.properties).1 postRow pd.pollOptions
  by_cases hab : (replacePollOptions
      (handlePollEnd dateOk db postRow pd.properties).1 postRow
        pd.pollOptions).2.2 = true
  · rw [if_pos hab, ← habs, hab]
  · rw [if_neg hab, ← habs]
    cases hc : (replacePollOptions
        (handlePollEnd dateOk db postRow pd.properties).1 postRow
          pd.pollOptions).2.2
    · rfl
    · exact absurd hc hab

theorem postSharedSteps_frame (dateOk : String → Bool) (db : DBState)
    (feedUrl : String) (pd : OrgPost) (postRow : Nat)
    (w0 : List WriteOp) (evs0 : List Event) :
    FrameStep db (postSharedSteps dateOk db feedUrl pd postRow w0 evs0).1 ∧
    db.nextId ≤ (postSharedSteps dateOk db feedUrl pd postRow w0 evs0).1.nextId ∧
    ((∀ w ∈ w0, isProfileWrite w = false) →
      ∀ w ∈ (postSharedSteps dateOk db feedUrl pd postRow w0 evs0).2.2.1,
        isProfileWrite w = false) := by
  have h1 := handlePollEnd_sub dateOk db postRow pd.properties
  have h2s := replacePollOptions_sub
    (handlePollEnd dateOk db postRow pd.properties).1 postRow pd.pollOptions
  have h2f := replacePollOptions_frame
    (handlePollEnd dateOk db postRow pd.properties).1 postRow pd.pollOptions
  have hfr2 : FrameStep db (replacePollOptions
      (handlePollEnd dateOk db postRow pd.properties).1 postRow
        pd.pollOptions).1 :=
    frameStep_trans h1.1
      (frameStep_of_eq h2f.2 (fun r hr => by rw [h2f.1]; exact hr) h2s.1)
  have hnx2 : db.nextId ≤ (replacePollOptions
      (handlePollEnd dateOk db postRow pd.properties).1 postRow
        pd.pollOptions).1.nextId := by
    rw [← h1.2.1]
    exact h2s.2.1
  unfold postSharedSteps
  dsimp only
  by_cases hab : (replacePollOptions
      (handlePollEnd dateOk db postRow pd.properties).1 postRow
        pd.pollOptions).2.2 = true
  · rw [if_pos hab]
    refine ⟨hfr2, hnx2, ?_⟩
    intro hw0 w hw
    rcases List.mem_append.mp hw with hw | hw
    · rcases List.mem_append.mp hw with hw | hw
      · exact hw0 w hw
      · exact h1.2.2.2 w hw
    · exact h2s.2.2 w hw
  · rw [if_neg hab]
    have h3s := handlePollVote_sub (replacePollOptions
      (handlePollEnd dateOk db postRow pd.properties).1 postRow
        pd.pollOptions).1 postRow pd.properties
    have h3f := handlePollVote_frame (replacePollOptions
      (handlePollEnd dateOk db postRow pd.properties).1 postRow
        pd.pollOptions).1 postRow pd.properties
    have hfr3 : FrameStep db (handlePollVote (replacePollOptions
        (handlePollEnd dateOk db postRow pd.properties).1 postRow
          pd.pollOptions).1 postRow pd.properties).1 :=
      frameStep_trans hfr2
        (frameStep_of_eq h3f.2 (fun r hr => by rw [h3f.1]; exact hr) h3s.1)
    have h4s := processMentions_sub feedUrl pd.id postRow
      (mentionFeedsOf (handlePollVote (replacePollOptions
        (handlePollEnd dateOk db postRow pd.properties).1 postRow
          pd.pollOptions).1 postRow pd.properties).1 postRow)
      pd.mentions
      (handlePollVote (replacePollOptions
        (handlePollEnd dateOk db postRow pd.properties).1 postRow
          pd.pollOptions).1 postRow pd.properties).1
    have h4f := processMentions_spec feedUrl pd.id postRow
      (mentionFeedsOf (handlePollVote (replacePollOptions
        (handlePollEnd dateOk db postRow pd.properties).1 postRow
          pd.pollOptions).1 postRow pd.properties).1 postRow)
      pd.mentions
      (handlePollVote (replacePollOptions
        (handlePollEnd dateOk db postRow pd.properties).1 postRow
          pd.pollOptions).1 postRow pd.properties).1
    refine ⟨frameStep_trans hfr3
      (frameStep_of_eq h4f.2.2 h4s.2.2.1 h4s.1), ?_, ?_⟩
    · refine Nat.le_trans ?_ h4s.2.1
      exact Nat.le_trans hnx2 h3s.2.1
    · intro hw0 w hw
      rcases List.mem_append.mp hw with hw | hw
      · rcases List.mem_append.mp hw with hw | hw
        · rcases List.mem_append.mp hw with hw | hw
          · rcases List.mem_append.mp hw with hw | hw
            · exact hw0 w hw
            · exact h1.2.2.2 w hw
          · exact h2s.2.2 w hw
        · exact h3s.2.2 w hw
      · exact h4s.2.2.2 w hw

theorem postSharedSteps_settles (dateOk : String → Bool) (db : DBState)
    (feedUrl : String) (pd : OrgPost) (postRow : Nat)
    (w0 : List WriteOp) (evs0 : List Event)
    (hnd : (db.profiles.map ProfileR.feed).Nodup)
    (habf : pollAbort pd.pollOptions = false) :
    ∀ m ∈ pd.mentions,
      mentionKnown (postSharedSteps dateOk db feedUrl pd postRow w0 evs0).1
        postRow m := by
  have h1 := handlePollEnd_sub dateOk db postRow pd.properties
  have h2f := replacePollOptions_frame
    (handlePollEnd dateOk db postRow pd.properties).1 postRow pd.pollOptions
  have h3f := handlePollVote_frame (replacePollOptions
    (handlePollEnd dateOk db postRow pd.properties).1 postRow
      pd.pollOptions).1 postRow pd.properties
  have habs := replacePollOptions_abort
    (handlePollEnd dateOk db postRow pd.properties).1 postRow pd.pollOptions
  unfold postSharedSteps
  dsimp only
  rw [habs, habf]
  simp only [Bool.false_eq_true, if_false]
  intro m hm
  refine processMentions_settles feedUrl pd.id postRow pd.mentions _ _ ?_
    (fun b hb => hb) m hm
  rw [h3f.2, h2f.2, h1.1.1]
  exact hnd

/-! ## Post-loop iteration: frame, silence, existence, abort, settlement -/

theorem updateDB_pres (gs : String → String) (db : DBState) (pd : OrgPost)
    (post0 : PostR) :
    ∀ p : PostR,
      ((fun p => if p.rowid = post0.rowid then
          { p with
              content := pd.content
              language := propGet pd.properties "lang"
              tags := propGet pd.properties "tags"
              client := propGet pd.properties "client"
              reply_to := propGet pd.properties "reply_to"
              mood := propGet pd.properties "mood"
              group := gs (propGet pd.properties "group")
              includeRef := propGet pd.properties "include" }
        else p) p).profile = p.profile ∧
      ((fun p => if p.rowid = post0.rowid then
          { p with
              content := pd.content
              language := propGet pd.properties "lang"
              tags := propGet pd.properties "tags"
              client := propGet pd.properties "client"
              reply_to := propGet pd.properties "reply_to"
              mood := propGet pd.properties "mood"
              group := gs (propGet pd.properties "group")
              includeRef := propGet pd.properties "include" }
        else p) p).post_id = p.post_id ∧
      ((fun p => if p.rowid = post0.rowid then
          { p with
              content := pd.content
              language := propGet pd.properties "lang"
              tags := propGet pd.properties "tags"
              client := propGet pd.properties "client"
              reply_to := propGet pd.properties "reply_to"
              mood := propGet pd.properties "mood"
              group := gs (propGet pd.properties "group")
              includeRef := propGet pd.properties "include" }
        else p) p).rowid = p.rowid := by
  intro p
  dsimp only
  split
  · exact ⟨rfl, rfl, rfl⟩
  · exact ⟨rfl, rfl, rfl⟩

theorem frameStep_updateDB (gs : String → String) (db : DBState)
    (pd : OrgPost) (post0 : PostR) :
    FrameStep db (updateDB gs db pd post0) :=
  frameStep_map_posts (updateDB_pres gs db pd post0) rfl
    (fun r hr => hr) rfl

theorem frameStep_createDB (gs : String → String) (db : DBState)
    (pid : Nat) (pd : OrgPost) :
    FrameStep db (createDB gs db pid pd) :=
  frameStep_append_post rfl (fun r hr => hr) rfl

theorem processPost_frame (gs : String → String) (dateOk : String → Bool)
    (db : DBState) (pid : Nat) (feedUrl : String) (pd : OrgPost) :
    FrameStep db (processPost gs dateOk db pid feedUrl pd).1 ∧
    db.nextId ≤ (processPost gs dateOk db pid feedUrl pd).1.nextId ∧
    ∀ w ∈ (processPost gs dateOk db pid feedUrl pd).2.2.1,
      isProfileWrite w = false := by
  by_cases hid : pd.id = ""
  · have hpp : processPost gs dateOk db pid feedUrl pd = (db, [], [], false) := by
      unfold processPost
      rw [if_pos hid]
    rw [hpp]
    exact ⟨frameStep_refl db, Nat.le_refl _, by intro w hw; simp at hw⟩
  · cases hfind : db.posts.find? (fun p => p.profile = pid ∧ p.post_id = pd.id) with
    | none =>
        have hpp : processPost gs dateOk db pid feedUrl pd =
            postSharedSteps dateOk (createDB gs db pid pd) feedUrl pd
              db.nextId [WriteOp.postCreateW db.nextId]
              (newPostEvents feedUrl pd.id (propGet pd.properties "reply_to")
                (propGet pd.properties "mood")
                (propGet pd.properties "include")) := by
          unfold processPost
          rw [if_neg hid, hfind]
        have hps := postSharedSteps_frame dateOk (createDB gs db pid pd)
          feedUrl pd db.nextId [WriteOp.postCreateW db.nextId]
          (newPostEvents feedUrl pd.id (propGet pd.properties "reply_to")
            (propGet pd.properties "mood") (propGet pd.properties "include"))
        rw [hpp]
        refine ⟨frameStep_trans (frameStep_createDB gs db pid pd) hps.1,
          Nat.le_trans (Nat.le_succ _) hps.2.1, ?_⟩
        refine hps.2.2 ?_
        intro w hw
        rw [List.mem_singleton.mp hw]
        rfl
    | some post0 =>
        have hpp : processPost gs dateOk db pid feedUrl pd =
            postSharedSteps dateOk (updateDB gs db pd post0) feedUrl pd
              post0.rowid [WriteOp.postUpdateW post0.rowid] [] := by
          unfold processPost
          rw [if_neg hid, hfind]
        have hps := postSharedSteps_frame dateOk (updateDB gs db pd post0)
          feedUrl pd post0.rowid [WriteOp.postUpdateW post0.rowid] []
        rw [hpp]
        refine ⟨frameStep_trans (frameStep_updateDB gs db pd post0) hps.1,
          hps.2.1, ?_⟩
        refine hps.2.2 ?_
        intro w hw
        rw [List.mem_singleton.mp hw]
        rfl

theorem processPost_silent (gs : String → String) (dateOk : String → Bool)
    (db : DBState) (pid : Nat) (feedUrl : String) (pd : OrgPost)
    (hs : postSettled db pid pd) :
    (processPost gs dateOk db pid feedUrl pd).2.1 = [] := by
  rcases hs with hid | ⟨a, ha, hms⟩
  · unfold processPost
    rw [if_pos hid]
  · by_cases hid : pd.id = ""
    · unfold processPost
      rw [if_pos hid]
    · have ha2 : db.posts.find?
          (fun p => p.profile = pid ∧ p.post_id = pd.id) = some a := ha
      have hpp : processPost gs dateOk db pid feedUrl pd =
          postSharedSteps dateOk (updateDB gs db pd a) feedUrl pd
            a.rowid [WriteOp.postUpdateW a.rowid] [] := by
        unfold processPost
        rw [if_neg hid, ha2]
      rw [hpp]
      refine postSharedSteps_known dateOk (updateDB gs db pd a) feedUrl pd
        a.rowid [WriteOp.postUpdateW a.rowid] [] ?_
      intro m hm
      exact mentionKnown_congr rfl rfl (hms m hm)

theorem processPost_exists (gs : String → String) (dateOk : String → Bool)
    (db : DBState) (pid : Nat) (feedUrl : String) (pd : OrgPost)
    (hid : pd.id ≠ "") :
    ∃ b, findPost (processPost gs dateOk db pid feedUrl pd).1 pid pd.id =
      some b := by
  cases hfind : db.posts.find? (fun p => p.profile = pid ∧ p.post_id = pd.id) with
  | none =>
      have hpp : processPost gs dateOk db pid feedUrl pd =
          postSharedSteps dateOk (createDB gs db pid pd) feedUrl pd
            db.nextId [WriteOp.postCreateW db.nextId]
            (newPostEvents feedUrl pd.id (propGet pd.properties "reply_to")
              (propGet pd.properties "mood")
              (propGet pd.properties "include")) := by
        unfold processPost
        rw [if_neg hid, hfind]
      have hex : findPost (createDB gs db pid pd) pid pd.id =
          some (createdPostRow gs db pid pd) := by
        unfold findPost createDB
        dsimp only
        refine find?_append_new hfind ?_
        exact decide_eq_true ⟨rfl, rfl⟩
      have hps := postSharedSteps_frame dateOk (createDB gs db pid pd)
        feedUrl pd db.nextId [WriteOp.postCreateW db.nextId]
        (newPostEvents feedUrl pd.id (propGet pd.properties "reply_to")
          (propGet pd.properties "mood") (propGet pd.properties "include"))
      obtain ⟨b, hb, _⟩ := hps.1.2.2 pid pd.id _ hex
      rw [hpp]
      exact ⟨b, hb⟩
  | some post0 =>
      have hpp : processPost gs dateOk db pid feedUrl pd =
          postSharedSteps dateOk (updateDB gs db pd post0) feedUrl pd
            post0.rowid [WriteOp.postUpdateW post0.rowid] [] := by
        unfold processPost
        rw [if_neg hid, hfind]
      have hex : findPost (updateDB gs db pd post0) pid pd.id ≠ none := by
        unfold findPost updateDB
        dsimp only
        rw [findPost_map (updateDB_pres gs db pd post0) pid pd.id]
        unfold findPost
        rw [hfind]
        simp
      have hps := postSharedSteps_frame dateOk (updateDB gs db pd post0)
        feedUrl pd post0.rowid [WriteOp.postUpdateW post0.rowid] []
      cases hu : findPost (updateDB gs db pd post0) pid pd.id with
      | none => exact absurd hu hex
      | some u =>
          obtain ⟨b, hb, _⟩ := hps.1.2.2 pid pd.id _ hu
          rw [hpp]
          exact ⟨b, hb⟩

theorem processPost_abortEq (gs : String → String) (dateOk : String → Bool)
    (db : DBState) (pid : Nat) (feedUrl : String) (pd : OrgPost)
    (hid : pd.id ≠ "") :
    (processPost gs dateOk db pid feedUrl pd).2.2.2 =
      pollAbort pd.pollOptions := by
  unfold processPost
  rw [if_neg hid]
  cases hfind : db.posts.find? (fun p => p.profile = pid ∧ p.post_id = pd.id) with
  | none =>
      dsimp only
      exact postSharedSteps_abortEq dateOk _ feedUrl pd _ _ _
  | some post0 =>
      dsimp only
      exact postSharedSteps_abortEq dateOk _ feedUrl pd _ _ _

theorem processPost_abort_empty (gs : String → String)
    (dateOk : String → Bool) (db : DBState) (pid : Nat) (feedUrl : String)
    (pd : OrgPost) (hid : pd.id = "") :
    (processPost gs dateOk db pid feedUrl pd).2.2.2 = false := by
  unfold processPost
  rw [if_pos hid]

theorem processPost_settles (gs : String → String) (dateOk : String → Bool)
    (db : DBState) (pid : Nat) (feedUrl : String) (pd : OrgPost)
    (hnd : (db.profiles.map ProfileR.feed).Nodup)
    (hab : (processPost gs dateOk db pid feedUrl pd).2.2.2 = false) :
    postSettled (processPost gs dateOk db pid feedUrl pd).1 pid pd := by
  by_cases hid : pd.id = ""
  · exact Or.inl hid
  · have habf : pollAbort pd.pollOptions = false := by
      rw [← processPost_abortEq gs dateOk db pid feedUrl pd hid]
      exact hab
    cases hfind : db.posts.find?
        (fun p => p.profile = pid ∧ p.post_id = pd.id) with
    | none =>
        have hpp : processPost gs dateOk db pid feedUrl pd =
            postSharedSteps dateOk (createDB gs db pid pd) feedUrl pd
              db.nextId [WriteOp.postCreateW db.nextId]
              (newPostEvents feedUrl pd.id (propGet pd.properties "reply_to")
                (propGet pd.properties "mood")
                (propGet pd.properties "include")) := by
          unfold processPost
          rw [if_neg hid, hfind]
        have hex : findPost (createDB gs db pid pd) pid pd.id =
            some (createdPostRow gs db pid pd) := by
          unfold findPost createDB
          dsimp only
          refine find?_append_new hfind ?_
          exact decide_eq_true ⟨rfl, rfl⟩
        have hps := postSharedSteps_frame dateOk (createDB gs db pid pd)
          feedUrl pd db.nextId [WriteOp.postCreateW db.nextId]
          (newPostEvents feedUrl pd.id (propGet pd.properties "reply_to")
            (propGet pd.properties "mood") (propGet pd.properties "include"))
        obtain ⟨b, hb, hbr⟩ := hps.1.2.2 pid pd.id _ hex
        have hset := postSharedSteps_settles dateOk (createDB gs db pid pd)
          feedUrl pd db.nextId [WriteOp.postCreateW db.nextId]
          (newPostEvents feedUrl pd.id (propGet pd.properties "reply_to")
            (propGet pd.properties "mood") (propGet pd.properties "include"))
          hnd habf
        rw [hpp]
        refine Or.inr ⟨b, hb, ?_⟩
        intro m hm
        rw [hbr]
        exact hset m hm
    | some post0 =>
        have hpp : processPost gs dateOk db pid feedUrl pd =
            postSharedSteps dateOk (updateDB gs db pd post0) feedUrl pd
              post0.rowid [WriteOp.postUpdateW post0.rowid] [] := by
          unfold processPost
          rw [if_neg hid, hfind]
        have hex : findPost (updateDB gs db pd post0) pid pd.id ≠ none := by
          unfold findPost updateDB
          dsimp only
          rw [findPost_map (updateDB_pres gs db pd post0) pid pd.id]
          unfold findPost
          rw [hfind]
          simp
        have hps := postSharedSteps_frame dateOk (updateDB gs db pd post0)
          feedUrl pd post0.rowid [WriteOp.postUpdateW post0.rowid] []
        have hset := postSharedSteps_settles dateOk (updateDB gs db pd post0)
          feedUrl pd post0.rowid [WriteOp.postUpdateW post0.rowid] []
          hnd habf
        cases hu : findPost (updateDB gs db pd post0) pid pd.id with
        | none => exact absurd hu hex
        | some u =>
            have hur : u.rowid = post0.rowid := by
              have hmap : findPost (updateDB gs db pd post0) pid pd.id =
                  (findPost db pid pd.id).map _ :=
                findPost_map (updateDB_pres gs db pd post0) pid pd.id
              rw [hmap] at hu
              unfold findPost at hu
              rw [hfind] at hu
              have hu2 := Option.some.inj hu
              rw [← hu2]
              exact (updateDB_pres gs db pd post0 post0).2.2
            obtain ⟨b, hb, hbr⟩ := hps.1.2.2 pid pd.id _ hu
            rw [hpp]
            refine Or.inr ⟨b, hb, ?_⟩
            intro m hm
            rw [hbr, hur]
            exact hset m hm

/-! ## Rowid well-formedness preservation -/

theorem postsWF_congr {db db2 : DBState}
    (hmap : db2.posts.map PostR.rowid = db.posts.map PostR.rowid)
    (hn : db.nextId ≤ db2.nextId) (h : postsWF db) : postsWF db2 := by
  refine ⟨?_, by rw [hmap]; exact h.2⟩
  intro rid hrid
  rw [hmap] at hrid
  exact Nat.lt_of_lt_of_le (h.1 rid hrid) hn

theorem postsWF_append {db db2 : DBState} {x : PostR}
    (hposts : db2.posts = db.posts ++ [x]) (hx : x.rowid = db.nextId)
    (hn : db.nextId < db2.nextId) (h : postsWF db) : postsWF db2 := by
  have hmap : db2.posts.map PostR.rowid =
      db.posts.map PostR.rowid ++ [db.nextId] := by
    rw [hposts, List.map_append]
    rw [show [x].map PostR.rowid = [x.rowid] from rfl, hx]
  constructor
  · intro rid hrid
    rw [hmap] at hrid
    rcases List.mem_append.mp hrid with hr | hr
    · exact Nat.lt_of_lt_of_le (h.1 rid hr) (Nat.le_of_lt hn)
    · rw [List.mem_singleton.mp hr]
      exact hn
  · rw [hmap]
    rw [List.nodup_append]
    refine ⟨h.2, List.nodup_singleton _, ?_⟩
    intro a ha hb
    rw [List.mem_singleton.mp hb] at ha
    exact absurd (h.1 _ ha) (Nat.lt_irrefl _)

theorem updateDB_wf (gs : String → String) (db : DBState) (pd : OrgPost)
    (post0 : PostR) (h : postsWF db) : postsWF (updateDB gs db pd post0) := by
  refine @postsWF_congr db (updateDB gs db pd post0) ?_ (Nat.le_refl _) h
  unfold updateDB
  dsimp only
  rw [List.map_map]
  refine congrFun (congrArg List.map (funext fun p => ?_)) db.posts
  dsimp only [Function.comp]
  exact (updateDB_pres gs db pd post0 p).2.2

theorem createDB_wf (gs : String → String) (db : DBState) (pid : Nat)
    (pd : OrgPost) (h : postsWF db) : postsWF (createDB gs db pid pd) :=
  postsWF_append rfl rfl (Nat.lt_succ_self _) h

theorem postSharedSteps_wf (dateOk : String → Bool) (db : DBState)
    (feedUrl : String) (pd : OrgPost) (postRow : Nat)
    (w0 : List WriteOp) (evs0 : List Event) (h : postsWF db) :
    postsWF (postSharedSteps dateOk db feedUrl pd postRow w0 evs0).1 := by
  have h1 := handlePollEnd_sub dateOk db postRow pd.properties
  have h2s := replacePollOptions_sub
    (handlePollEnd dateOk db postRow pd.properties).1 postRow pd.pollOptions
  have hwf2 : postsWF (replacePollOptions
      (handlePollEnd dateOk db postRow pd.properties).1 postRow
        pd.pollOptions).1 := by
    refine postsWF_congr ?_ ?_ h
    · rw [congrArg (List.map PostR.rowid) h2s.1]
      exact h1.2.2.1
    · rw [← h1.2.1]
      exact h2s.2.1
  unfold postSharedSteps
  dsimp only
  by_cases hab : (replacePollOptions
      (handlePollEnd dateOk db postRow pd.properties).1 postRow
        pd.pollOptions).2.2 = true
  · rw [if_pos hab]
    exact hwf2
  · rw [if_neg hab]
    have h3s := handlePollVote_sub (replacePollOptions
      (handlePollEnd dateOk db postRow pd.properties).1 postRow
        pd.pollOptions).1 postRow pd.properties
    have h4s := processMentions_sub feedUrl pd.id postRow
      (mentionFeedsOf (handlePollVote (replacePollOptions
        (handlePollEnd dateOk db postRow pd.properties).1 postRow
          pd.pollOptions).1 postRow pd.properties).1 postRow)
      pd.mentions
      (handlePollVote (replacePollOptions
        (handlePollEnd dateOk db postRow pd.properties).1 postRow
          pd.pollOptions).1 postRow pd.properties).1
    refine postsWF_congr ?_ ?_ hwf2
    · rw [congrArg (List.map PostR.rowid) h4s.1,
          congrArg (List.map PostR.rowid) h3s.1]
    · exact Nat.le_trans h3s.2.1 h4s.2.1

theorem processPost_wf (gs : String → String) (dateOk : String → Bool)
    (db : DBState) (pid : Nat) (feedUrl : String) (pd : OrgPost)
    (h : postsWF db) : postsWF (processPost gs dateOk db pid feedUrl pd).1 := by
  by_cases hid : pd.id = ""
  · have hpp : processPost gs dateOk db pid feedUrl pd = (db, [], [], false) := by
      unfold processPost
      rw [if_pos hid]
    rw [hpp]
    exact h
  · cases hfind : db.posts.find?
        (fun p => p.profile = pid ∧ p.post_id = pd.id) with
    | none =>
        have hpp : processPost gs dateOk db pid feedUrl pd =
            postSharedSteps dateOk (createDB gs db pid pd) feedUrl pd
              db.nextId [WriteOp.postCreateW db.nextId]
              (newPostEvents feedUrl pd.id (propGet pd.properties "reply_to")
                (propGet pd.properties "mood")
                (propGet pd.properties "include")) := by
          unfold processPost
          rw [if_neg hid, hfind]
        rw [hpp]
        exact postSharedSteps_wf dateOk _ feedUrl pd _ _ _
          (createDB_wf gs db pid pd h)
    | some post0 =>
        have hpp : processPost gs dateOk db pid feedUrl pd =
            postSharedSteps dateOk (updateDB gs db pd post0) feedUrl pd
              post0.rowid [WriteOp.postUpdateW post0.rowid] [] := by
          unfold processPost
          rw [if_neg hid, hfind]
        rw [hpp]
        exact postSharedSteps_wf dateOk _ feedUrl pd _ _ _
          (updateDB_wf gs db pd post0 h)

/-! ## Profile upsert and link/contact replacement -/

theorem processProfile_spec (hashOf : Metadata → List OrgPost → String)
    (db : DBState) (feedUrl : String) (meta : Metadata)
    (posts : List OrgPost) :
    (processProfile hashOf db feedUrl meta posts).1.posts = db.posts ∧
    (processProfile hashOf db feedUrl meta posts).1.mentions = db.mentions ∧
    db.nextId ≤ (processProfile hashOf db feedUrl meta posts).1.nextId ∧
    ((db.profiles.map ProfileR.feed).Nodup →
      ((processProfile hashOf db feedUrl meta posts).1.profiles.map
        ProfileR.feed).Nodup) ∧
    ∃ pr, findProf (processProfile hashOf db feedUrl meta posts).1 feedUrl =
        some pr ∧
      pr.version = hashOf meta posts ∧
      pr.rowid = (processProfile hashOf db feedUrl meta posts).2.1 := by
  unfold processProfile
  dsimp only
  cases hfind : db.profiles.find? (fun pr => pr.feed = feedUrl) with
  | none =>
      dsimp only
      refine ⟨rfl, rfl, Nat.le_succ _, ?_, ?_⟩
      · intro hnd
        rw [List.map_append]
        rw [List.nodup_append]
        refine ⟨hnd, List.nodup_singleton _, ?_⟩
        intro a ha hb
        have hb2 : a = feedUrl := List.mem_singleton.mp hb
        obtain ⟨q, hq, hqa⟩ := List.mem_map.mp ha
        have := List.find?_eq_none.mp hfind q hq
        rw [hb2] at hqa
        exact this (decide_eq_true hqa)
      · refine ⟨⟨db.nextId, feedUrl, meta.title, meta.nick,
          meta.description, meta.avatar, hashOf meta posts⟩, ?_, rfl, rfl⟩
        unfold findProf
        dsimp only
        refine find?_append_new hfind ?_
        exact decide_eq_true rfl
  | some pr =>
      dsimp only
      by_cases hv : pr.version ≠ hashOf meta posts
      · rw [if_pos hv]
        have hpres : ∀ q : ProfileR,
            ((fun q => if q.rowid = pr.rowid then
                { q with title := meta.title, nick := meta.nick
                         description := meta.description
                         avatar := meta.avatar
                         version := hashOf meta posts }
              else q) q).feed = q.feed := by
          intro q
          dsimp only
          split
          · rfl
          · rfl
        have hmapeq : ∀ l : List ProfileR,
            (l.map (fun q => if q.rowid = pr.rowid then
                { q with title := meta.title, nick := meta.nick
                         description := meta.description
                         avatar := meta.avatar
                         version := hashOf meta posts }
              else q)).map ProfileR.feed = l.map ProfileR.feed := by
          intro l
          rw [List.map_map]
          refine congrFun (congrArg List.map (funext fun q => ?_)) l
          dsimp only [Function.comp]
          exact hpres q
        refine ⟨rfl, rfl, Nat.le_refl _, ?_, ?_⟩
        · intro hnd
          dsimp only
          rw [hmapeq db.profiles]
          exact hnd
        · unfold findProf
          dsimp only
          rw [find?_map_of_pred _ _ ?_ db.profiles]
          · rw [hfind]
            refine ⟨_, rfl, ?_, ?_⟩
            · dsimp only
              rw [if_pos rfl]
            · dsimp only
              rw [if_pos rfl]
          · intro x
            have := hpres x
            simp [this]
      · rw [if_neg hv]
        refine ⟨rfl, rfl, Nat.le_refl _, fun hnd => hnd, ?_⟩
        refine ⟨pr, hfind, ?_, rfl⟩
        exact Classical.byContradiction fun hc => hv hc

theorem processProfile_skip (hashOf : Metadata → List OrgPost → String)
    (db : DBState) (feedUrl : String) (meta : Metadata)
    (posts : List OrgPost) (pr : ProfileR)
    (hfind : findProf db feedUrl = some pr)
    (hv : pr.version = hashOf meta posts) :
    processProfile hashOf db feedUrl meta posts = (db, pr.rowid, []) := by
  unfold processProfile
  have hfind2 : db.profiles.find? (fun q => q.feed = feedUrl) = some pr := hfind
  rw [hfind2]
  dsimp only
  rw [if_neg (fun hc => hc hv)]


theorem replaceLinksContacts_sub (db : DBState) (pid : Nat)
    (meta : Metadata) :
    (replaceLinksContacts db pid meta).1.posts = db.posts ∧
    (replaceLinksContacts db pid meta).1.mentions = db.mentions ∧
    (replaceLinksContacts db pid meta).1.profiles = db.profiles ∧
    db.nextId ≤ (replaceLinksContacts db pid meta).1.nextId ∧
    ∀ w ∈ (replaceLinksContacts db pid meta).2.1,
      isProfileWrite w = false := by
  unfold replaceLinksContacts
  dsimp only
  have hl := foldl_preserve (linkF pid)
    (fun (acc : DBState × List WriteOp × Bool × List String) =>
      acc.1.posts = db.posts ∧ acc.1.mentions = db.mentions ∧
      acc.1.profiles = db.profiles ∧ db.nextId ≤ acc.1.nextId ∧
      ∀ w ∈ acc.2.1, isProfileWrite w = false)
    ?_ (linkValsOf meta)
    ({ db with
          profileLinks := db.profileLinks.filter (fun l => l.profile ≠ pid)
          profileContacts := db.profileContacts.filter
            (fun c => c.profile ≠ pid) },
        (db.profileLinks.filter (fun l => l.profile = pid)).map
            (fun l => WriteOp.linkDeleteW l.rowid) ++
          (db.profileContacts.filter (fun c => c.profile = pid)).map
            (fun c => WriteOp.contactDeleteW c.rowid),
        false, [])
    ⟨rfl, rfl, rfl, Nat.le_refl _, ?_⟩
  case refine_1 =>
    intro acc v hP
    obtain ⟨d, w, ab, seen⟩ := acc
    unfold linkF
    dsimp only
    by_cases hab : ab = true
    · rw [if_pos hab]; exact hP
    · rw [if_neg hab]
      by_cases hs : v ∈ seen
      · rw [if_pos hs]; exact hP
      · rw [if_neg hs]
        refine ⟨hP.1, hP.2.1, hP.2.2.1,
          Nat.le_trans hP.2.2.2.1 (Nat.le_succ _), ?_⟩
        intro u hu
        rcases List.mem_append.mp hu with hu | hu
        · exact hP.2.2.2.2 u hu
        · rw [List.mem_singleton.mp hu]
          rfl
  case refine_2 =>
    intro w hw
    rcases List.mem_append.mp hw with hw | hw
    · obtain ⟨o, _, heq⟩ := List.mem_map.mp hw
      rw [← heq]
      rfl
    · obtain ⟨o, _, heq⟩ := List.mem_map.mp hw
      rw [← heq]
      rfl
  by_cases hab : ((linkValsOf meta).foldl (linkF pid)
      ({ db with
          profileLinks := db.profileLinks.filter (fun l => l.profile ≠ pid)
          profileContacts := db.profileContacts.filter
            (fun c => c.profile ≠ pid) },
        (db.profileLinks.filter (fun l => l.profile = pid)).map
            (fun l => WriteOp.linkDeleteW l.rowid) ++
          (db.profileContacts.filter (fun c => c.profile = pid)).map
            (fun c => WriteOp.contactDeleteW c.rowid),
        false, [])).2.2.1 = true
  · rw [if_pos hab]
    exact ⟨hl.1, hl.2.1, hl.2.2.1, hl.2.2.2.1, hl.2.2.2.2⟩
  · rw [if_neg hab]
    dsimp only
    refine foldl_preserve (contactF pid)
      (fun (acc : DBState × List WriteOp × Bool × List (String × String)) =>
        acc.1.posts = db.posts ∧ acc.1.mentions = db.mentions ∧
        acc.1.profiles = db.profiles ∧ db.nextId ≤ acc.1.nextId ∧
        ∀ w ∈ acc.2.1, isProfileWrite w = false)
      ?_ (contactValsOf meta) _
      ⟨hl.1, hl.2.1, hl.2.2.1, hl.2.2.2.1, hl.2.2.2.2⟩
    intro acc v hP
    obtain ⟨d, w, ab, seen⟩ := acc
    unfold contactF
    dsimp only
    by_cases hab2 : ab = true
    · rw [if_pos hab2]; exact hP
    · rw [if_neg hab2]
      by_cases hs : v ∈ seen
      · rw [if_pos hs]; exact hP
      · rw [if_neg hs]
        refine ⟨hP.1, hP.2.1, hP.2.2.1,
          Nat.le_trans hP.2.2.2.1 (Nat.le_succ _), ?_⟩
        intro u hu
        rcases List.mem_append.mp hu with hu | hu
        · exact hP.2.2.2.2 u hu
        · rw [List.mem_singleton.mp hu]
          rfl

/-! ## The post loop: frame, establishment and silence -/

theorem processPostsFold_frame (gs : String → String)
    (dateOk : String → Bool) (pid : Nat) (feedUrl : String) :
    ∀ (posts : List OrgPost) (db : DBState),
      FrameStep db (processPostsFold gs dateOk db pid feedUrl posts).1 ∧
      db.nextId ≤ (processPostsFold gs dateOk db pid feedUrl posts).1.nextId ∧
      ∀ w ∈ (processPostsFold gs dateOk db pid feedUrl posts).2.2.1,
        isProfileWrite w = false := by
  intro posts
  induction posts with
  | nil =>
      intro db
      exact ⟨frameStep_refl db, Nat.le_refl _,
        by intro w hw; simp [processPostsFold] at hw⟩
  | cons p rest ih =>
      intro db
      have h1 := processPost_frame gs dateOk db pid feedUrl p
      unfold processPostsFold
      dsimp only
      by_cases hab : (processPost gs dateOk db pid feedUrl p).2.2.2 = true
      · rw [if_pos hab]
        exact h1
      · rw [if_neg hab]
        have h2 := ih (processPost gs dateOk db pid feedUrl p).1
        refine ⟨frameStep_trans h1.1 h2.1, Nat.le_trans h1.2.1 h2.2.1, ?_⟩
        intro w hw
        rcases List.mem_append.mp hw with hw | hw
        · exact h1.2.2 w hw
        · exact h2.2.2 w hw

theorem processPostsFold_wf (gs : String → String) (dateOk : String → Bool)
    (pid : Nat) (feedUrl : String) :
    ∀ (posts : List OrgPost) (db : DBState), postsWF db →
      postsWF (processPostsFold gs dateOk db pid feedUrl posts).1 := by
  intro posts
  induction posts with
  | nil => intro db h; exact h
  | cons p rest ih =>
      intro db h
      have h1 := processPost_wf gs dateOk db pid feedUrl p h
      unfold processPostsFold
      dsimp only
      by_cases hab : (processPost gs dateOk db pid feedUrl p).2.2.2 = true
      · rw [if_pos hab]
        exact h1
      · rw [if_neg hab]
        exact ih (processPost gs dateOk db pid feedUrl p).1 h1

theorem processPostsFold_establish (gs : String → String)
    (dateOk : String → Bool) (pid : Nat) (feedUrl : String) :
    ∀ (posts : List OrgPost) (db : DBState),
      (db.profiles.map ProfileR.feed).Nodup →
      ((processPostsFold gs dateOk db pid feedUrl posts).2.2.2 = false →
        ∀ pd ∈ posts,
          postSettled (processPostsFold gs dateOk db pid feedUrl posts).1
            pid pd) ∧
      ((processPostsFold gs dateOk db pid feedUrl posts).2.2.2 = true →
        ∃ pre pk rest2, posts = pre ++ pk :: rest2 ∧
          (∀ pd ∈ pre,
            postSettled (processPostsFold gs dateOk db pid feedUrl posts).1
              pid pd) ∧
          pk.id ≠ "" ∧ pollAbort pk.pollOptions = true ∧
          ∃ b, findPost (processPostsFold gs dateOk db pid feedUrl posts).1
            pid pk.id = some b) := by
  intro posts
  induction posts with
  | nil =>
      intro db _
      constructor
      · intro _ pd hpd
        simp at hpd
      · intro h
        simp [processPostsFold] at h
  | cons p rest ih =>
      intro db hnd
      have h1 := processPost_frame gs dateOk db pid feedUrl p
      unfold processPostsFold
      dsimp only
      by_cases hab : (processPost gs dateOk db pid feedUrl p).2.2.2 = true
      · rw [if_pos hab]
        constructor
        · intro hfalse
          rw [hfalse] at hab
          exact absurd hab Bool.false_ne_true
        · intro _
          by_cases hid : p.id = ""
          · have h0 := processPost_abort_empty gs dateOk db pid feedUrl p hid
            rw [h0] at hab
            exact absurd hab Bool.false_ne_true
          · refine ⟨[], p, rest, rfl, ?_, hid, ?_, ?_⟩
            · intro pd hpd
              simp at hpd
            · rw [← processPost_abortEq gs dateOk db pid feedUrl p hid]
              exact hab
            · exact processPost_exists gs dateOk db pid feedUrl p hid
      · rw [if_neg hab]
        have habf : (processPost gs dateOk db pid feedUrl p).2.2.2 = false := by
          cases hc : (processPost gs dateOk db pid feedUrl p).2.2.2 with
          | false => rfl
          | true => exact absurd hc hab
        have hset1 : postSettled (processPost gs dateOk db pid feedUrl p).1
            pid p :=
          processPost_settles gs dateOk db pid feedUrl p hnd habf
        have hnd1 : (((processPost gs dateOk db pid feedUrl p).1.profiles).map
            ProfileR.feed).Nodup := by
          rw [h1.1.1]
          exact hnd
        have ih1 := ih (processPost gs dateOk db pid feedUrl p).1 hnd1
        have hfr2 := (processPostsFold_frame gs dateOk pid feedUrl rest
          (processPost gs dateOk db pid feedUrl p).1).1
        constructor
        · intro hfalse pd hpd
          rcases List.mem_cons.mp hpd with hpd | hpd
          · subst hpd
            exact frameStep_settled hfr2 hset1
          · exact ih1.1 hfalse pd hpd
        · intro htrue
          obtain ⟨pre, pk, rest2, heq, hpre, hid, habk, hex⟩ := ih1.2 htrue
          refine ⟨p :: pre, pk, rest2, by simp [heq], ?_, hid, habk, hex⟩
          intro pd hpd
          rcases List.mem_cons.mp hpd with hpd | hpd
          · subst hpd
            exact frameStep_settled hfr2 hset1
          · exact hpre pd hpd

theorem processPostsFold_silent (gs : String → String)
    (dateOk : String → Bool) (pid : Nat) (feedUrl : String) :
    ∀ (posts : List OrgPost) (db : DBState),
      (∀ pd ∈ posts, postSettled db pid pd) →
      (processPostsFold gs dateOk db pid feedUrl posts).2.1 = [] := by
  intro posts
  induction posts with
  | nil => intro db _; rfl
  | cons p rest ih =>
      intro db hs
      have h1 : (processPost gs dateOk db pid feedUrl p).2.1 = [] :=
        processPost_silent gs dateOk db pid feedUrl p
          (hs p (List.mem_cons_self p rest))
      unfold processPostsFold
      dsimp only
      by_cases hab : (processPost gs dateOk db pid feedUrl p).2.2.2 = true
      · rw [if_pos hab]
        exact h1
      · rw [if_neg hab]
        have h2 := ih (processPost gs dateOk db pid feedUrl p).1
          (fun pd hpd =>
            frameStep_settled (processPost_frame gs dateOk db pid feedUrl p).1
              (hs pd (List.mem_cons_of_mem p hpd)))
        dsimp only
        rw [h1, h2]
        rfl

theorem processPost_found_abort (gs : String → String)
    (dateOk : String → Bool) (db : DBState) (pid : Nat) (feedUrl : String)
    (pd : OrgPost) (b : PostR) (hb : findPost db pid pd.id = some b)
    (hid : pd.id ≠ "") (habk : pollAbort pd.pollOptions = true) :
    (processPost gs dateOk db pid feedUrl pd).2.1 = [] ∧
    (processPost gs dateOk db pid feedUrl pd).2.2.2 = true := by
  have hb2 : db.posts.find? (fun p => p.profile = pid ∧ p.post_id = pd.id) =
      some b := hb
  have hpp : processPost gs dateOk db pid feedUrl pd =
      postSharedSteps dateOk (updateDB gs db pd b) feedUrl pd b.rowid
        [WriteOp.postUpdateW b.rowid] [] := by
    unfold processPost
    rw [if_neg hid, hb2]
  rw [hpp]
  constructor
  · have hflag : (replacePollOptions
        (handlePollEnd dateOk (updateDB gs db pd b) b.rowid pd.properties).1
        b.rowid pd.pollOptions).2.2 = true := by
      rw [replacePollOptions_abort]
      exact habk
    unfold postSharedSteps
    dsimp only
    rw [if_pos hflag]
  · rw [postSharedSteps_abortEq]
    exact habk

theorem processPostsFold_silent_abort (gs : String → String)
    (dateOk : String → Bool) (pid : Nat) (feedUrl : String) (pk : OrgPost)
    (rest2 : List OrgPost) (hid : pk.id ≠ "")
    (habk : pollAbort pk.pollOptions = true) :
    ∀ (pre : List OrgPost) (db : DBState),
      (∀ pd ∈ pre, postSettled db pid pd) →
      (∃ b, findPost db pid pk.id = some b) →
      (processPostsFold gs dateOk db pid feedUrl (pre ++ pk :: rest2)).2.1 =
        [] := by
  intro pre
  induction pre with
  | nil =>
      intro db _ hex
      obtain ⟨b, hb⟩ := hex
      have h1 := processPost_found_abort gs dateOk db pid feedUrl pk b hb
        hid habk
      simp only [List.nil_append]
      unfold processPostsFold
      dsimp only
      rw [if_pos h1.2]
      exact h1.1
  | cons q pre2 ih =>
      intro db hs hex
      obtain ⟨b, hb⟩ := hex
      simp only [List.cons_append]
      have hq : (processPost gs dateOk db pid feedUrl q).2.1 = [] :=
        processPost_silent gs dateOk db pid feedUrl q
          (hs q (List.mem_cons_self q pre2))
      unfold processPostsFold
      dsimp only
      by_cases hab : (processPost gs dateOk db pid feedUrl q).2.2.2 = true
      · rw [if_pos hab]
        exact hq
      · rw [if_neg hab]
        have hfr := (processPost_frame gs dateOk db pid feedUrl q).1
        obtain ⟨b2, hb2, _⟩ := hfr.2.2 pid pk.id b hb
        have h2 := ih (processPost gs dateOk db pid feedUrl q).1
          (fun pd hpd => frameStep_settled hfr
            (hs pd (List.mem_cons_of_mem q hpd))) ⟨b2, hb2⟩
        dsimp only
        rw [hq, h2]
        rfl

/-- The state of the parsed post list after some run of the post loop:
either every parsed post is settled, or an aborting post splits the list,
with everything before it settled and the aborting post itself already
stored; a re-run of the loop publishes nothing either way. -/
def foldSettled (db : DBState) (pid : Nat) (posts : List OrgPost) : Prop :=
  (∀ pd ∈ posts, postSettled db pid pd) ∨
  ∃ pre pk rest2, posts = pre ++ pk :: rest2 ∧
    (∀ pd ∈ pre, postSettled db pid pd) ∧ pk.id ≠ "" ∧
    pollAbort pk.pollOptions = true ∧
    ∃ b, findPost db pid pk.id = some b

theorem foldSettled_silent (gs : String → String) (dateOk : String → Bool)
    (pid : Nat) (feedUrl : String) (posts : List OrgPost) (db : DBState)
    (h : foldSettled db pid posts) :
    (processPostsFold gs dateOk db pid feedUrl posts).2.1 = [] := by
  rcases h with h | ⟨pre, pk, rest2, heq, hpre, hid, habk, hex⟩
  · exact processPostsFold_silent gs dateOk pid feedUrl posts db h
  · rw [heq]
    exact processPostsFold_silent_abort gs dateOk pid feedUrl pk rest2
      hid habk pre db hpre hex

theorem foldSettled_frame {db db2 : DBState} {pid : Nat}
    {posts : List OrgPost} (hf : FrameStep db db2)
    (h : foldSettled db pid posts) : foldSettled db2 pid posts := by
  rcases h with h | ⟨pre, pk, rest2, heq, hpre, hid, habk, b, hb⟩
  · exact Or.inl (fun pd hpd => frameStep_settled hf (h pd hpd))
  · obtain ⟨b2, hb2, _⟩ := hf.2.2 pid pk.id b hb
    exact Or.inr ⟨pre, pk, rest2, heq,
      fun pd hpd => frameStep_settled hf (hpre pd hpd), hid, habk, b2, hb2⟩

/-! ## Deletion step: survival of parsed posts and their mentions -/

theorem removeDeletedPosts_profiles (db : DBState) (pid : Nat)
    (cur : List String) :
    (removeDeletedPosts db pid cur).1.profiles = db.profiles := by
  unfold removeDeletedPosts
  split
  · rfl
  · rfl

theorem removeDeletedPosts_writes (db : DBState) (pid : Nat)
    (cur : List String) :
    ∀ w ∈ (removeDeletedPosts db pid cur).2, isProfileWrite w = false := by
  unfold removeDeletedPosts
  split
  · intro w hw
    simp at hw
  · intro w hw
    obtain ⟨o, _, heq⟩ := List.mem_map.mp hw
    rw [← heq]
    rfl

theorem notin_deletedIds {db : DBState} {pid : Nat} {cur : List String}
    {i : String} (hi : i ∈ cur) : i ∉ deletedIdsOf db pid cur := by
  intro hmem
  unfold deletedIdsOf at hmem
  have h := List.mem_filter.mp hmem
  exact (of_decide_eq_true h.2) hi

theorem removeDeletedPosts_findPost {db : DBState} {pid : Nat}
    {cur : List String} {i : String} {a : PostR} (hi : i ∈ cur)
    (ha : findPost db pid i = some a) :
    findPost (removeDeletedPosts db pid cur).1 pid i = some a := by
  unfold removeDeletedPosts
  split
  · exact ha
  · unfold findPost
    dsimp only
    rw [find?_filter_of_imp _ _ ?_ db.posts]
    · exact ha
    · intro x hx
      have hx2 := of_decide_eq_true hx
      refine decide_eq_true ?_
      intro hcon
      rw [hx2.2] at hcon
      exact notin_deletedIds hi hcon.2

theorem removeDeletedPosts_mention {db : DBState} {pid : Nat}
    {cur : List String} {i : String} {a : PostR} {r : MentionR}
    (hwf : postsWF db) (hi : i ∈ cur) (ha : findPost db pid i = some a)
    (hr : r ∈ db.mentions) (hpr : r.post = a.rowid) :
    r ∈ (removeDeletedPosts db pid cur).1.mentions := by
  unfold removeDeletedPosts
  split
  · exact hr
  · dsimp only
    refine List.mem_filter.mpr ⟨hr, ?_⟩
    refine decide_eq_true ?_
    intro hvic
    rw [hpr] at hvic
    unfold victimsOf at hvic
    obtain ⟨v, hv, hvr⟩ := List.mem_map.mp hvic
    have hv2 := List.mem_filter.mp hv
    have hamem : a ∈ db.posts := List.mem_of_find?_eq_some ha
    have hva : v = a :=
      List.inj_on_of_nodup_map hwf.2 hv2.1 hamem hvr
    have hvp := of_decide_eq_true hv2.2
    rw [hva] at hvp
    have hai : a.post_id = i := by
      have hx := List.find?_some ha
      have hx2 : a.profile = pid ∧ a.post_id = i := by simpa using hx
      exact hx2.2
    rw [hai] at hvp
    exact notin_deletedIds hi hvp.2

theorem removeDeletedPosts_settled {db : DBState} {pid : Nat}
    {cur : List String} {pd : OrgPost} (hwf : postsWF db)
    (hcur : pd.id ≠ "" → pd.id ∈ cur) (hs : postSettled db pid pd) :
    postSettled (removeDeletedPosts db pid cur).1 pid pd := by
  rcases hs with hs | ⟨a, ha, hm⟩
  · exact Or.inl hs
  · by_cases hid : pd.id = ""
    · exact Or.inl hid
    · have hi := hcur hid
      refine Or.inr ⟨a, removeDeletedPosts_findPost hi ha, ?_⟩
      intro m hmm
      refine mentionKnown_mono (removeDeletedPosts_profiles db pid cur) ?_
        (hm m hmm)
      intro r hr hpost
      exact removeDeletedPosts_mention hwf hi ha hr hpost

theorem removeDeletedPosts_foldSettled {db : DBState} {pid : Nat}
    {cur : List String} {posts : List OrgPost} (hwf : postsWF db)
    (hall : ∀ pd ∈ posts, pd.id ≠ "" → pd.id ∈ cur)
    (h : foldSettled db pid posts) :
    foldSettled (removeDeletedPosts db pid cur).1 pid posts := by
  rcases h with h | ⟨pre, pk, rest2, heq, hpre, hid, habk, b, hb⟩
  · refine Or.inl ?_
    intro pd hpd
    exact removeDeletedPosts_settled hwf (hall pd hpd) (h pd hpd)
  · have hkmem : pk ∈ posts := by
      rw [heq]
      exact List.mem_append_right pre (List.mem_cons_self pk rest2)
    refine Or.inr ⟨pre, pk, rest2, heq, ?_, hid, habk, b,
      removeDeletedPosts_findPost (hall pk hkmem hid) hb⟩
    intro pd hpd
    have hpdm : pd ∈ posts := by
      rw [heq]
      exact List.mem_append_left _ hpd
    exact removeDeletedPosts_settled hwf (hall pd hpdm) (hpre pd hpd)

/-! ## Whole-feed runs: what the first run establishes, what the second does -/

theorem processFeed_run1 (gs : String → String) (dateOk : String → Bool)
    (hashOf : Metadata → List OrgPost → String) (db : DBState)
    (feedUrl : String) (meta : Metadata) (posts : List OrgPost)
    (hwf : postsWF db) (hnd : (db.profiles.map ProfileR.feed).Nodup) :
    ∃ pr, findProf (processFeed gs dateOk hashOf db feedUrl meta posts).1
        feedUrl = some pr ∧
      pr.version = hashOf meta posts ∧
      (lcAbort meta = false →
        foldSettled (processFeed gs dateOk hashOf db feedUrl meta posts).1
          pr.rowid posts) := by
  have h1 := processProfile_spec hashOf db feedUrl meta posts
  obtain ⟨pr0, hfindpr, hver, hrowid⟩ := h1.2.2.2.2
  have hwf1 : postsWF (processProfile hashOf db feedUrl meta posts).1 :=
    postsWF_congr (congrArg (List.map PostR.rowid) h1.1) h1.2.2.1 hwf
  have hnd1 := h1.2.2.2.1 hnd
  have h2 := replaceLinksContacts_sub
    (processProfile hashOf db feedUrl meta posts).1
    (processProfile hashOf db feedUrl meta posts).2.1 meta
  have habt2 := replaceLinksContacts_abort
    (processProfile hashOf db feedUrl meta posts).1
    (processProfile hashOf db feedUrl meta posts).2.1 meta
  unfold processFeed
  dsimp only
  by_cases hlc : lcAbort meta = true
  · have hc2 : (replaceLinksContacts
        (processProfile hashOf db feedUrl meta posts).1
        (processProfile hashOf db feedUrl meta posts).2.1 meta).2.2 = true := by
      rw [habt2]
      exact hlc
    rw [if_pos hc2]
    refine ⟨pr0, ?_, hver, ?_⟩
    · unfold findProf
      rw [h2.2.2.1]
      exact hfindpr
    · intro hfalse
      rw [hfalse] at hlc
      exact absurd hlc Bool.false_ne_true
  · have hlcf : lcAbort meta = false := by
      cases hc : lcAbort meta with
      | false => rfl
      | true => exact absurd hc hlc
    have hc2 : ¬((replaceLinksContacts
        (processProfile hashOf db feedUrl meta posts).1
        (processProfile hashOf db feedUrl meta posts).2.1 meta).2.2 = true) := by
      rw [habt2, hlcf]
      exact Bool.false_ne_true
    rw [if_neg hc2]
    have hnd2 : (((replaceLinksContacts
        (processProfile hashOf db feedUrl meta posts).1
        (processProfile hashOf db feedUrl meta posts).2.1 meta).1.profiles).map
          ProfileR.feed).Nodup := by
      rw [h2.2.2.1]
      exact hnd1
    have hwf2 : postsWF (replaceLinksContacts
        (processProfile hashOf db feedUrl meta posts).1
        (processProfile hashOf db feedUrl meta posts).2.1 meta).1 :=
      postsWF_congr (congrArg (List.map PostR.rowid) h2.1) h2.2.2.2.1 hwf1
    have hest := processPostsFold_establish gs dateOk
      (processProfile hashOf db feedUrl meta posts).2.1 feedUrl posts
      (replaceLinksContacts
        (processProfile hashOf db feedUrl meta posts).1
        (processProfile hashOf db feedUrl meta posts).2.1 meta).1 hnd2
    have hwf3 := processPostsFold_wf gs dateOk
      (processProfile hashOf db feedUrl meta posts).2.1 feedUrl posts
      (replaceLinksContacts
        (processProfile hashOf db feedUrl meta posts).1
        (processProfile hashOf db feedUrl meta posts).2.1 meta).1 hwf2
    have hfr3 := (processPostsFold_frame gs dateOk
      (processProfile hashOf db feedUrl meta posts).2.1 feedUrl posts
      (replaceLinksContacts
        (processProfile hashOf db feedUrl meta posts).1
        (processProfile hashOf db feedUrl meta posts).2.1 meta).1).1
    by_cases hab3 : (processPostsFold gs dateOk
        (replaceLinksContacts
          (processProfile hashOf db feedUrl meta posts).1
          (processProfile hashOf db feedUrl meta posts).2.1 meta).1
        (processProfile hashOf db feedUrl meta posts).2.1 feedUrl
        posts).2.2.2 = true
    · rw [if_pos hab3]
      refine ⟨pr0, ?_, hver, ?_⟩
      · unfold findProf
        rw [hfr3.1, h2.2.2.1]
        exact hfindpr
      · intro _
        rw [hrowid]
        exact Or.inr (hest.2 hab3)
    · rw [if_neg hab3]
      have hab3f : (processPostsFold gs dateOk
          (replaceLinksContacts
            (processProfile hashOf db feedUrl meta posts).1
            (processProfile hashOf db feedUrl meta posts).2.1 meta).1
          (processProfile hashOf db feedUrl meta posts).2.1 feedUrl
          posts).2.2.2 = false := by
        cases hc : (processPostsFold gs dateOk
            (replaceLinksContacts
              (processProfile hashOf db feedUrl meta posts).1
              (processProfile hashOf db feedUrl meta posts).2.1 meta).1
            (processProfile hashOf db feedUrl meta posts).2.1 feedUrl
            posts).2.2.2 with
        | false => rfl
        | true => exact absurd hc hab3
      have hall : ∀ pd ∈ posts, pd.id ≠ "" →
          pd.id ∈ (posts.map (fun p => p.id)).filter (fun i => i ≠ "") := by
        intro pd hpd hid
        refine List.mem_filter.mpr ⟨?_, decide_eq_true hid⟩
        exact List.mem_map.mpr ⟨pd, hpd, rfl⟩
      refine ⟨pr0, ?_, hver, ?_⟩
      · unfold findProf
        rw [removeDeletedPosts_profiles, hfr3.1, h2.2.2.1]
        exact hfindpr
      · intro _
        rw [hrowid]
        exact removeDeletedPosts_foldSettled hwf3 hall
          (Or.inl (hest.1 hab3f))

theorem processFeed_run2 (gs : String → String) (dateOk : String → Bool)
    (hashOf : Metadata → List OrgPost → String) (db1 : DBState)
    (feedUrl : String) (meta : Metadata) (posts : List OrgPost)
    (pr : ProfileR) (hpr : findProf db1 feedUrl = some pr)
    (hv : pr.version = hashOf meta posts)
    (hset : lcAbort meta = false → foldSettled db1 pr.rowid posts) :
    (processFeed gs dateOk hashOf db1 feedUrl meta posts).2.1 = [] ∧
    ∀ w ∈ (processFeed gs dateOk hashOf db1 feedUrl meta posts).2.2,
      isProfileWrite w = false := by
  have hskip := processProfile_skip hashOf db1 feedUrl meta posts pr hpr hv
  have h2 := replaceLinksContacts_sub db1 pr.rowid meta
  have habt2 := replaceLinksContacts_abort db1 pr.rowid meta
  unfold processFeed
  rw [hskip]
  dsimp only
  by_cases hlc : lcAbort meta = true
  · have hc2 : (replaceLinksContacts db1 pr.rowid meta).2.2 = true := by
      rw [habt2]
      exact hlc
    rw [if_pos hc2]
    refine ⟨rfl, ?_⟩
    intro w hw
    exact h2.2.2.2.2 w hw
  · have hlcf : lcAbort meta = false := by
      cases hc : lcAbort meta with
      | false => rfl
      | true => exact absurd hc hlc
    have hc2 : ¬((replaceLinksContacts db1 pr.rowid meta).2.2 = true) := by
      rw [habt2, hlcf]
      exact Bool.false_ne_true
    rw [if_neg hc2]
    have hset2 : foldSettled (replaceLinksContacts db1 pr.rowid meta).1
        pr.rowid posts :=
      foldSettled_frame
        (frameStep_of_eq h2.2.2.1 (fun r hr => by rw [h2.2.1]; exact hr) h2.1)
        (hset hlcf)
    have hsil := foldSettled_silent gs dateOk pr.rowid feedUrl posts
      (replaceLinksContacts db1 pr.rowid meta).1 hset2
    have hfw := (processPostsFold_frame gs dateOk pr.rowid feedUrl posts
      (replaceLinksContacts db1 pr.rowid meta).1).2.2
    by_cases hab3 : (processPostsFold gs dateOk
        (replaceLinksContacts db1 pr.rowid meta).1 pr.rowid feedUrl
        posts).2.2.2 = true
    · rw [if_pos hab3]
      refine ⟨hsil, ?_⟩
      intro w hw
      rcases List.mem_append.mp hw with hw | hw
      · rcases List.mem_append.mp hw with hw | hw
        · simp at hw
        · exact h2.2.2.2.2 w hw
      · exact hfw w hw
    · rw [if_neg hab3]
      refine ⟨hsil, ?_⟩
      intro w hw
      rcases List.mem_append.mp hw with hw | hw
      · rcases List.mem_append.mp hw with hw | hw
        · rcases List.mem_append.mp hw with hw | hw
          · simp at hw
          · exact h2.2.2.2.2 w hw
        · exact hfw w hw
      · exact removeDeletedPosts_writes _ _ _ w hw

/-! ## C5 — sync idempotence -/

/-- Metadata of the C5 fixture feed: one link, no contacts. -/
def c5Meta : Metadata :=
  { title := "T", nick := "n", description := "", avatar := ""
    links := ["http://l"], contacts := [], follows := [] }

/-- The single parsed post of the C5 fixture feed. -/
def c5Post : OrgPost :=
  { id := "2025", content := "hi", properties := [("id", "2025")]
    mentions := [], pollOptions := [] }

/-- C5 counterexample: running the per-feed sync twice on unchanged
content is not write-idempotent.  On a feed with one link and one post the
second run deletes and recreates the profile link row and rewrites the
post row — three writes, not zero — even though the digest is unchanged. -/
theorem C5_counterexample_second_run_writes :
    (processFeed (fun _ => "") (fun _ => true) (fun _ _ => "h")
        (processFeed (fun _ => "") (fun _ => true) (fun _ _ => "h") emptyDB
          "F" c5Meta [c5Post]).1 "F" c5Meta [c5Post]).2.2 =
      [WriteOp.linkDeleteW 101, WriteOp.linkCreateW 103,
        WriteOp.postUpdateW 102] ∧
    (processFeed (fun _ => "") (fun _ => true) (fun _ _ => "h")
        (processFeed (fun _ => "") (fun _ => true) (fun _ _ => "h") emptyDB
          "F" c5Meta [c5Post]).1 "F" c5Meta [c5Post]).2.2 ≠ [] := by
  constructor
  · decide
  · decide

/-- C5 amended: only the `Profile` row write is digest-gated.  For every
store whose post rowids are sane and whose profile feeds are distinct,
running the per-feed sync twice on unchanged remote content publishes
zero notifications on the second run and performs no profile create or
update write on the second run; the second run still performs link and
contact churn and post-row update writes (see the counterexample). -/
theorem C5_second_run_gated (gs : String → String) (dateOk : String → Bool)
    (hashOf : Metadata → List OrgPost → String) (db : DBState)
    (feedUrl : String) (meta : Metadata) (posts : List OrgPost)
    (hwf : postsWF db) (hnd : (db.profiles.map ProfileR.feed).Nodup) :
    (processFeed gs dateOk hashOf
        (processFeed gs dateOk hashOf db feedUrl meta posts).1
        feedUrl meta posts).2.1 = [] ∧
    ∀ w ∈ (processFeed gs dateOk hashOf
        (processFeed gs dateOk hashOf db feedUrl meta posts).1
        feedUrl meta posts).2.2, isProfileWrite w = false := by
  obtain ⟨pr, hpr, hv, hset⟩ := processFeed_run1 gs dateOk hashOf db feedUrl
    meta posts hwf hnd
  exact processFeed_run2 gs dateOk hashOf
    (processFeed gs dateOk hashOf db feedUrl meta posts).1 feedUrl meta
    posts pr hpr hv hset

/-- Witness for the amended C5 theorem at the concrete fixture: the empty
store satisfies both sanity hypotheses, and the second run on the fixture
feed publishes nothing and writes nothing to the profile table. -/
theorem C5_second_run_gated_witness :
    postsWF emptyDB ∧ (emptyDB.profiles.map ProfileR.feed).Nodup ∧
    ((processFeed (fun _ => "") (fun _ => true) (fun _ _ => "h")
        (processFeed (fun _ => "") (fun _ => true) (fun _ _ => "h") emptyDB
          "F" c5Meta [c5Post]).1 "F" c5Meta [c5Post]).2.1 = [] ∧
    ∀ w ∈ (processFeed (fun _ => "") (fun _ => true) (fun _ _ => "h")
        (processFeed (fun _ => "") (fun _ => true) (fun _ _ => "h") emptyDB
          "F" c5Meta [c5Post]).1 "F" c5Meta [c5Post]).2.2,
      isProfileWrite w = false) :=
  ⟨⟨by decide, by decide⟩, by decide,
    C5_second_run_gated (fun _ => "") (fun _ => true) (fun _ _ => "h")
      emptyDB "F" c5Meta [c5Post] ⟨by decide, by decide⟩ (by decide)⟩

end OrgSocial
